import Mathlib

/-!
The tokenizer and the recursive-descent parser of prolang: a shallow embedding of `lexer.cpp` and `parser.cpp`.

* The lexer state `(input, pos)` is represented by the unread suffix
  `input[pos..]`; the outer `while` of `tokenize` is indexed by a fuel counter.
* The parser keeps the C++ representation: a token vector and a cursor index.
  Reading `tokens[i]` with `i >= tokens.size()` is undefined behaviour in the
  source and is made observable here as `ParseError.OutOfRange i`.
* `nullptr` results of `parsePrimary` are the constructor `ASTNode.Null`.
* Console output (`cout`) is not modelled.
-/

namespace Prolang

/-! ## Tokens -/

inductive TokenType
  | KEYWORD
  | IDENTIFIER
  | NUMBER
  | SYMBOL
  | END_OF_FILE
  deriving DecidableEq, Repr

structure Token where
  type : TokenType
  value : String
  deriving DecidableEq, Repr

/-! ## Character classes of `<cctype>` in the "C" locale

A character outside ASCII belongs to none of the classes. -/

def isdigit (c : Char) : Bool := 48 ≤ c.toNat && c.toNat ≤ 57

def isalpha (c : Char) : Bool :=
  (65 ≤ c.toNat && c.toNat ≤ 90) || (97 ≤ c.toNat && c.toNat ≤ 122)

def isalnum (c : Char) : Bool := isalpha c || isdigit c

def isspace (c : Char) : Bool := c.toNat = 32 || (9 ≤ c.toNat && c.toNat ≤ 13)

def ispunct (c : Char) : Bool :=
  (33 ≤ c.toNat && c.toNat ≤ 47) || (58 ≤ c.toNat && c.toNat ≤ 64) ||
  (91 ≤ c.toNat && c.toNat ≤ 96) || (123 ≤ c.toNat && c.toNat ≤ 126)

/-! ## Lexer -/

/-- The reserved words installed by the `Lexer` constructor. -/
def keywords : List String := ["def", "int", "if", "else", "return", "while", "elif"]

/-- Routine `Lexer::ParseIdentifierorKeyword` on the unread suffix: the token and the
suffix left after the maximal alphanumeric run. -/
def ParseIdentifierorKeyword (rest : List Char) : Token × List Char :=
  let identifier := String.mk (rest.takeWhile isalnum)
  if identifier ∈ keywords then
    (⟨TokenType.KEYWORD, identifier⟩, rest.dropWhile isalnum)
  else
    (⟨TokenType.IDENTIFIER, identifier⟩, rest.dropWhile isalnum)

/-- Routine `Lexer::ParseNumber` on the unread suffix. -/
def ParseNumber (rest : List Char) : Token × List Char :=
  let number := String.mk (rest.takeWhile isdigit)
  (⟨TokenType.NUMBER, number⟩, rest.dropWhile isdigit)

/-- Routine `Lexer::ParseSymbol`: called with `pos < input.size()`, consumes one
character. -/
def ParseSymbol (symbol : Char) (rest : List Char) : Token × List Char :=
  (⟨TokenType.SYMBOL, String.mk [symbol]⟩, rest)

/-- The `while (pos < input.size())` loop of `Lexer::tokenize`; one unit of
fuel per iteration, `none` when the fuel runs out before the input does. -/
def tokenizeLoop : Nat → List Char → List Token → Option (List Token)
  | _, [], tokens => some tokens
  | 0, _ :: _, _ => none
  | fuel + 1, currentChar :: cs, tokens =>
    if isspace currentChar then
      tokenizeLoop fuel cs tokens
    else if isalpha currentChar then
      tokenizeLoop fuel (ParseIdentifierorKeyword (currentChar :: cs)).2
        (tokens ++ [(ParseIdentifierorKeyword (currentChar :: cs)).1])
    else if isdigit currentChar then
      tokenizeLoop fuel (ParseNumber (currentChar :: cs)).2
        (tokens ++ [(ParseNumber (currentChar :: cs)).1])
    else if ispunct currentChar then
      tokenizeLoop fuel (ParseSymbol currentChar cs).2
        (tokens ++ [(ParseSymbol currentChar cs).1])
    else
      tokenizeLoop fuel cs tokens

/-- Routine `Lexer::tokenize`: the loop run with one unit of fuel per input character,
followed by the push of the `END_OF_FILE` token. -/
def tokenize (input : String) : Option (List Token) :=
  (tokenizeLoop input.length input.data []).map
    (fun tokens => tokens ++ [⟨TokenType.END_OF_FILE, ""⟩])

/-! ## Syntax trees -/

/-- The node classes of `parser.cpp`; `Null` is a `nullptr` child. An
`AssignmentNode` owns an `IdentifierNode`, kept here by its name; a
`FunctionNode` owns a `BlockNode`, kept here by its statements. -/
inductive ASTNode
  | Null
  | Number (value : Int)
  | Identifier (name : String)
  | BinaryOp (op : String) (left right : ASTNode)
  | Assignment (left : String) (right : ASTNode)
  | Block (statements : List ASTNode)
  | Function (name : String) (parameters : List String) (body : List ASTNode)
  | FunctionCall (functionName : String) (arguments : List ASTNode)
  deriving Repr

/-! ## Parser -/

/-- Ways a run of the parser ends without a tree. -/
inductive ParseError
  /-- The `runtime_error("Expected symbol: " + symbol)` of `expectSymbol`. -/
  | SyntaxError (symbol : String)
  /-- A read `tokens[index]` with `index >= tokens.size()`. -/
  | OutOfRange (index : Nat)
  /-- The `std::invalid_argument` of `std::stoi`. -/
  | StoiInvalidArgument
  /-- The `std::out_of_range` of `std::stoi`. -/
  | StoiOutOfRange
  /-- The fuel of the model ran out. -/
  | OutOfFuel
  deriving DecidableEq, Repr

abbrev Result (α : Type) := Except ParseError α

/-- The read `tokens[pos]`. -/
def tokenAt (tokens : List Token) (pos : Nat) : Result Token :=
  match tokens[pos]? with
  | some t => .ok t
  | none => .error (.OutOfRange pos)

/-- The value of a digit string in base ten. -/
def decimalValue (digits : List Char) : Nat :=
  digits.foldl (fun acc c => 10 * acc + (c.toNat - 48)) 0

/-- Library call `std::stoi(str)` in base ten: leading white space is skipped, one sign is
accepted, the maximal digit run is converted; no digit gives
`invalid_argument`, a value outside the range of `int` gives `out_of_range`. -/
def stoi (str : String) : Result Int :=
  let body := str.data.dropWhile isspace
  let negative := body.head? = some '-'
  let unsigned := if body.head? = some '-' ∨ body.head? = some '+' then body.tail else body
  let digits := unsigned.takeWhile isdigit
  if digits = [] then .error .StoiInvalidArgument
  else
    let magnitude : Int := decimalValue digits
    let value : Int := if negative then -magnitude else magnitude
    if value < -2147483648 ∨ 2147483647 < value then .error .StoiOutOfRange
    else .ok value

/-- Routine `Parser::expectSymbol`: the new cursor, or the thrown error. -/
def expectSymbol (tokens : List Token) (pos : Nat) (symbol : String) : Result Nat := do
  let t ← tokenAt tokens pos
  if t.value = symbol then
    pure (pos + 1)
  else
    throw (.SyntaxError symbol)

/-- The parameter loop of `Parser::parseFunction` (lines 259-266). -/
def parseParameters : Nat → List Token → Nat → List String → Result (List String × Nat)
  | 0, _, _, _ => .error .OutOfFuel
  | fuel + 1, tokens, pos, parameters => do
    let t ← tokenAt tokens pos
    if t.value ≠ ")" then
      let parameters := parameters ++ [t.value]
      let pos := pos + 1
      let t ← tokenAt tokens pos
      if t.value = "," then
        parseParameters fuel tokens (pos + 1) parameters
      else
        parseParameters fuel tokens pos parameters
    else
      pure (parameters, pos)

mutual

/-- Routine `Parser::parseStatement`. -/
def parseStatement : Nat → List Token → Nat → Result (ASTNode × Nat)
  | 0, _, _ => .error .OutOfFuel
  | fuel + 1, tokens, pos => do
    let t ← tokenAt tokens pos
    if t.value = "def" then
      parseFunction fuel tokens pos
    else
      let (expr, pos) ← parseExpression fuel tokens pos
      let pos ← expectSymbol tokens pos ";"
      pure (expr, pos)
termination_by structural fuel => fuel

/-- Routine `Parser::parseExpression`. -/
def parseExpression : Nat → List Token → Nat → Result (ASTNode × Nat)
  | 0, _, _ => .error .OutOfFuel
  | fuel + 1, tokens, pos => do
    let (left, pos) ← parsePrimary fuel tokens pos
    parseBinaryOp fuel tokens pos left
termination_by structural fuel => fuel

/-- Routine `Parser::parsePrimary`. -/
def parsePrimary : Nat → List Token → Nat → Result (ASTNode × Nat)
  | 0, _, _ => .error .OutOfFuel
  | fuel + 1, tokens, pos => do
    let t ← tokenAt tokens pos
    if t.type = TokenType.IDENTIFIER then
      let identifier := t.value
      let next ← tokenAt tokens (pos + 1)
      if next.value = "(" then
        parsseFuntionCall fuel tokens pos identifier
      else if pos + 1 < tokens.length ∧ next.value = "=" then
        parseAssignment fuel tokens pos
      else
        pure (.Identifier t.value, pos + 1)
    else if t.type = TokenType.NUMBER then
      let value ← stoi t.value
      pure (.Number value, pos + 1)
    else if t.type = TokenType.KEYWORD then
      if t.value = "int" then
        let pos := pos + 1
        let t ← tokenAt tokens pos
        let indetifier := t.value
        let pos := pos + 1
        let pos ← expectSymbol tokens pos "="
        let (value, pos) ← parseExpression fuel tokens pos
        pure (.Assignment indetifier value, pos)
      else
        pure (.Null, pos)
    else
      pure (.Null, pos)
termination_by structural fuel => fuel

/-- Routine `Parser::parseAssignment`. -/
def parseAssignment : Nat → List Token → Nat → Result (ASTNode × Nat)
  | 0, _, _ => .error .OutOfFuel
  | fuel + 1, tokens, pos => do
    let t ← tokenAt tokens pos
    let identifier := t.value
    let pos := pos + 1
    let pos ← expectSymbol tokens pos "="
    let (value, pos) ← parseExpression fuel tokens pos
    pure (.Assignment identifier value, pos)
termination_by structural fuel => fuel

/-- Routine `Parser::parseBinaryOp`; one unit of fuel per iteration of `while (true)`.
The `precedence` argument is never read by the source and is left out. -/
def parseBinaryOp : Nat → List Token → Nat → ASTNode → Result (ASTNode × Nat)
  | 0, _, _, _ => .error .OutOfFuel
  | fuel + 1, tokens, pos, left =>
    match tokens[pos]? with
    | none => pure (left, pos)
    | some t =>
      let op := t.value
      if op = "+" ∨ op = "-" ∨ op = "*" ∨ op = "/" ∨ op = "<<" ∨ op = ">>" then do
        let pos := pos + 1
        let (right, pos) ← parsePrimary fuel tokens pos
        parseBinaryOp fuel tokens pos (.BinaryOp op left right)
      else
        pure (left, pos)
termination_by structural fuel => fuel

/-- Routine `Parser::parseFunction`. -/
def parseFunction : Nat → List Token → Nat → Result (ASTNode × Nat)
  | 0, _, _ => .error .OutOfFuel
  | fuel + 1, tokens, pos => do
    let pos ← expectSymbol tokens pos "def"
    let t ← tokenAt tokens pos
    let functionName := t.value
    let pos := pos + 1
    let pos ← expectSymbol tokens pos "("
    let (parameters, pos) ← parseParameters fuel tokens pos []
    let pos ← expectSymbol tokens pos ")"
    let pos ← expectSymbol tokens pos "\x7b"
    let (body, pos) ← parseBody fuel tokens pos []
    let pos ← expectSymbol tokens pos "\x7d"
    pure (.Function functionName parameters body, pos)
termination_by structural fuel => fuel

/-- The body loop of `Parser::parseFunction` (lines 271-274). -/
def parseBody : Nat → List Token → Nat → List ASTNode → Result (List ASTNode × Nat)
  | 0, _, _, _ => .error .OutOfFuel
  | fuel + 1, tokens, pos, body => do
    let t ← tokenAt tokens pos
    if t.value ≠ "\x7d" then
      let (statement, pos) ← parseStatement fuel tokens pos
      parseBody fuel tokens pos (body ++ [statement])
    else
      pure (body, pos)
termination_by structural fuel => fuel

/-- Routine `Parser::parsseFuntionCall`. -/
def parsseFuntionCall : Nat → List Token → Nat → String → Result (ASTNode × Nat)
  | 0, _, _, _ => .error .OutOfFuel
  | fuel + 1, tokens, pos, functionName => do
    let pos := pos + 1
    let pos ← expectSymbol tokens pos "("
    let (arguments, pos) ← parseArguments fuel tokens pos []
    let pos ← expectSymbol tokens pos ")"
    pure (.FunctionCall functionName arguments, pos)
termination_by structural fuel => fuel

/-- The argument loop of `Parser::parsseFuntionCall` (lines 286-293). -/
def parseArguments : Nat → List Token → Nat → List ASTNode → Result (List ASTNode × Nat)
  | 0, _, _, _ => .error .OutOfFuel
  | fuel + 1, tokens, pos, arguments => do
    let t ← tokenAt tokens pos
    if t.value ≠ ")" then
      let (argument, pos) ← parseExpression fuel tokens pos
      let arguments := arguments ++ [argument]
      let t ← tokenAt tokens pos
      if t.value = "," then
        parseArguments fuel tokens (pos + 1) arguments
      else
        parseArguments fuel tokens pos arguments
    else
      pure (arguments, pos)
termination_by structural fuel => fuel

end

/-- The statement loop of `Parser::parseStatements` (lines 157-160). -/
def parseStatementsLoop : Nat → List Token → Nat → List ASTNode → Result (List ASTNode × Nat)
  | 0, _, _, _ => .error .OutOfFuel
  | fuel + 1, tokens, pos, block =>
    match tokens[pos]? with
    | none => pure (block, pos)
    | some t =>
      if t.type ≠ TokenType.END_OF_FILE then do
        let (statement, pos) ← parseStatement fuel tokens pos
        parseStatementsLoop fuel tokens pos (block ++ [statement])
      else
        pure (block, pos)

/-- Routine `Parser::parseStatements` for a parser constructed on `tokens`. -/
def parseStatements (fuel : Nat) (tokens : List Token) : Result ASTNode := do
  let (block, _) ← parseStatementsLoop fuel tokens 0 []
  pure (.Block block)

/-- The tokens of `f ( ;`. -/
def unterminatedCall : List Token :=
  [⟨.IDENTIFIER, "f"⟩, ⟨.SYMBOL, "("⟩, ⟨.SYMBOL, ";"⟩, ⟨.END_OF_FILE, ""⟩]

/-- The tokens that the loop of `tokenize` pushes for the unread suffix
`rest`, read off a run of the loop with one unit of fuel per character. -/
def scanned (rest : List Char) : List Token :=
  (tokenizeLoop rest.length rest []).getD []

/-- The texts that `ParseIdentifierorKeyword` can return when it is called by
`tokenize`: a letter followed by letters and digits. -/
def isIdentifierLexeme (text : String) : Bool :=
  match text.data with
  | [] => false
  | c :: cs => isalpha c && cs.all isalnum

/-- The texts that `ParseNumber` can return when it is called by `tokenize`:
one digit or more. -/
def isNumberLexeme (text : String) : Bool :=
  match text.data with
  | [] => false
  | c :: cs => isdigit c && cs.all isdigit

/-! ## Vocabulary of the statements about expressions -/

/-- An operand token that `parsePrimary` turns into a leaf: an IDENTIFIER
token, or a NUMBER token whose digits write a value in the range of `int`. -/
def isOperand (t : Token) : Prop :=
  t.type = TokenType.IDENTIFIER ∨
    (t.type = TokenType.NUMBER ∧ isNumberLexeme t.value = true ∧
      decimalValue t.value.data ≤ 2147483647)

/-- The leaf for an operand token. -/
def operandNode (t : Token) : ASTNode :=
  if t.type = TokenType.IDENTIFIER then .Identifier t.value
  else .Number (decimalValue t.value.data)

/-- The token sequence `op₁ x₁ op₂ x₂ ...` of a list of operator and operand
pairs. -/
def pairTokens : List (Token × Token) → List Token
  | [] => []
  | (op, x) :: rest => op :: x :: pairTokens rest

/-- The tree `BinaryOp(opₙ, ... BinaryOp(op₁, left, x₁) ..., xₙ)`. -/
def leftFold (left : ASTNode) (rest : List (Token × Token)) : ASTNode :=
  rest.foldl (fun acc p => .BinaryOp p.1.value acc (operandNode p.2)) left

instance (t : Token) : Decidable (isOperand t) := by
  unfold isOperand
  infer_instance

/-- The result `r'` of a run with more fuel settles the result `r` of a run
with less: it is the same, unless the shorter run ran out of fuel. -/
structure Settled {α : Type} (r r' : Result α) : Prop where
  eq : r ≠ .error .OutOfFuel → r' = r

/-! ## Vocabulary of the statements about functions and calls -/

/-- The statements of a function body read one after the other from the cursor
`start` to the cursor `stop`: each entry is the node `parseStatement` returns
and the cursor it leaves; no statement begins at a `}` token. -/
def bodyChain (fuel : Nat) (tokens : List Token) :
    Nat → List (ASTNode × Nat) → Nat → Prop
  | start, [], stop => start = stop
  | start, (node, next) :: more, stop =>
    (∃ t, tokens[start]? = some t ∧ t.value ≠ "\x7d") ∧
    parseStatement fuel tokens start = .ok (node, next) ∧
    bodyChain fuel tokens next more stop

/-- The argument expressions of a call read from the cursor `start` to the
cursor `stop`: each entry is the node `parseExpression` returns and the cursor
it leaves; consecutive arguments are separated by one `,` token, and no
argument begins at a `)` token. -/
def argumentChain (fuel : Nat) (tokens : List Token) :
    Nat → List (ASTNode × Nat) → Nat → Prop
  | start, [], stop => start = stop
  | start, [(node, next)], stop =>
    (∃ t, tokens[start]? = some t ∧ t.value ≠ ")") ∧
    parseExpression fuel tokens start = .ok (node, next) ∧ next = stop
  | start, (node, next) :: argument :: more, stop =>
    (∃ t, tokens[start]? = some t ∧ t.value ≠ ")") ∧
    parseExpression fuel tokens start = .ok (node, next) ∧
    (∃ t, tokens[next]? = some t ∧ t.value = ",") ∧
    argumentChain fuel tokens (next + 1) (argument :: more) stop

/-- The member `pos` after a call of `Parser::expectSymbol`, whether the call
returns or throws: `++pos` runs in the matching branch only. -/
def expectSymbolCursor (tokens : List Token) (pos : Nat) (symbol : String) : Nat :=
  match tokens[pos]? with
  | some t => if t.value = symbol then pos + 1 else pos
  | none => pos

/-- The argument expressions of a call as the argument loop reads them from
the cursor `start` to the cursor `stop`: each entry is the node
`parseExpression` returns and the cursor it leaves; the token found there is
skipped when its text is `,` and left in place otherwise; no argument begins at
a `)` token. -/
def looseArgumentChain (fuel : Nat) (tokens : List Token) :
    Nat → List (ASTNode × Nat) → Nat → Prop
  | start, [], stop => start = stop
  | start, (node, next) :: more, stop =>
    (∃ t, tokens[start]? = some t ∧ t.value ≠ ")") ∧
    parseExpression fuel tokens start = .ok (node, next) ∧
    ∃ separator, tokens[next]? = some separator ∧
      looseArgumentChain fuel tokens (if separator.value = "," then next + 1 else next) more stop

/-! ## Vocabulary of the statements about a run behind a longer prefix -/

/-- The error of a run on `tokens`, as the same run on `pre ++ tokens` reports
it when `pre` has `k` tokens: the index of an out-of-range read moves by `k`. -/
def shiftError (k : Nat) : ParseError → ParseError
  | .OutOfRange index => .OutOfRange (index + k)
  | e => e

/-- A result without a cursor, seen behind `k` more tokens. -/
def shiftValue {α : Type} (k : Nat) : Result α → Result α
  | .ok a => .ok a
  | .error e => .error (shiftError k e)

/-- A cursor result, seen behind `k` more tokens. -/
def shiftCursor (k : Nat) : Result Nat → Result Nat
  | .ok pos => .ok (pos + k)
  | .error e => .error (shiftError k e)

/-- The result of a grammar rule, seen behind `k` more tokens: the same node,
the cursor moved by `k`. -/
def shiftResult {α : Type} (k : Nat) : Result (α × Nat) → Result (α × Nat)
  | .ok (a, pos) => .ok (a, pos + k)
  | .error e => .error (shiftError k e)

/-! ## Vocabulary of the statement about right operands -/

/-- The nodes that `parsePrimary` can return: a number, an identifier, a call,
an assignment or the null node. -/
def isPrimaryResult : ASTNode → Bool
  | .BinaryOp _ _ _ => false
  | .Block _ => false
  | .Function _ _ _ => false
  | _ => true

mutual

/-- Everywhere in the tree, the right child of a binary operation is a node
that `parsePrimary` can return. -/
def rightsArePrimary : ASTNode → Bool
  | .BinaryOp _ left right =>
    isPrimaryResult right && rightsArePrimary left && rightsArePrimary right
  | .Assignment _ value => rightsArePrimary value
  | .Block statements => allRightsArePrimary statements
  | .Function _ _ body => allRightsArePrimary body
  | .FunctionCall _ arguments => allRightsArePrimary arguments
  | _ => true

/-- The same, for every tree of a list. -/
def allRightsArePrimary : List ASTNode → Bool
  | [] => true
  | node :: nodes => rightsArePrimary node && allRightsArePrimary nodes

end

/-! # Theorems -/

/-! ## The error monad of the parser -/

theorem ok_bind {α β : Type} (a : α) (f : α → Result β) :
    (Except.ok a >>= f) = f a := rfl

theorem error_bind {α β : Type} (e : ParseError) (f : α → Result β) :
    ((Except.error e : Result α) >>= f) = Except.error e := rfl

/-! ## Lexer: totality and the sentinel -/

theorem length_dropWhile_le (p : Char → Bool) (l : List Char) :
    (l.dropWhile p).length ≤ l.length :=
  (List.dropWhile_suffix p).length_le

theorem isalnum_of_isalpha {c : Char} (h : isalpha c = true) : isalnum c = true := by
  simp [isalnum, h]

theorem isalnum_of_isdigit {c : Char} (h : isdigit c = true) : isalnum c = true := by
  simp [isalnum, h]

/-- One iteration of the loop never lengthens the unread suffix by more than
the fuel it costs: with at least one unit of fuel per unread character the loop
returns, it only appends to the token vector, and it appends no sentinel. -/
theorem tokenizeLoop_total (fuel : Nat) :
    ∀ (rest : List Char) (tokens : List Token), rest.length ≤ fuel →
      ∃ out, tokenizeLoop fuel rest tokens = some (tokens ++ out) ∧
        ∀ t ∈ out, t.type ≠ TokenType.END_OF_FILE := by
  induction fuel with
  | zero =>
    intro rest tokens h
    have : rest = [] := List.length_eq_zero.mp (Nat.le_zero.mp h)
    subst this
    exact ⟨[], by simp [tokenizeLoop], by simp⟩
  | succ n ih =>
    intro rest tokens h
    cases rest with
    | nil => exact ⟨[], by simp [tokenizeLoop], by simp⟩
    | cons c cs =>
      have hcs : cs.length ≤ n := by simpa using h
      rw [tokenizeLoop]
      by_cases hsp : isspace c = true
      · simpa [hsp] using ih cs tokens hcs
      by_cases hal : isalpha c = true
      · have hlen : (ParseIdentifierorKeyword (c :: cs)).2.length ≤ n := by
          have hd : (ParseIdentifierorKeyword (c :: cs)).2 = cs.dropWhile isalnum := by
            simp [ParseIdentifierorKeyword, List.dropWhile_cons, isalnum_of_isalpha hal]
            split <;> rfl
          rw [hd]
          exact (length_dropWhile_le _ _).trans hcs
        obtain ⟨out, ho, hne⟩ := ih _ (tokens ++ [(ParseIdentifierorKeyword (c :: cs)).1]) hlen
        refine ⟨(ParseIdentifierorKeyword (c :: cs)).1 :: out, ?_, ?_⟩
        · simp [hsp, hal, ho]
        · intro t ht
          rcases List.mem_cons.mp ht with rfl | ht
          · unfold ParseIdentifierorKeyword
            dsimp only
            split <;> simp
          · exact hne t ht
      by_cases hdg : isdigit c = true
      · have hlen : (ParseNumber (c :: cs)).2.length ≤ n := by
          have hd : (ParseNumber (c :: cs)).2 = cs.dropWhile isdigit := by
            simp [ParseNumber, List.dropWhile_cons, hdg]
          rw [hd]
          exact (length_dropWhile_le _ _).trans hcs
        obtain ⟨out, ho, hne⟩ := ih _ (tokens ++ [(ParseNumber (c :: cs)).1]) hlen
        refine ⟨(ParseNumber (c :: cs)).1 :: out, ?_, ?_⟩
        · simp [hsp, hal, hdg, ho]
        · intro t ht
          rcases List.mem_cons.mp ht with rfl | ht
          · simp [ParseNumber]
          · exact hne t ht
      by_cases hpu : ispunct c = true
      · obtain ⟨out, ho, hne⟩ := ih cs (tokens ++ [(ParseSymbol c cs).1]) hcs
        refine ⟨(ParseSymbol c cs).1 :: out, ?_, ?_⟩
        · have hsym : (ParseSymbol c cs).2 = cs := rfl
          simp [hsp, hal, hdg, hpu, ho, hsym]
        · intro t ht
          rcases List.mem_cons.mp ht with rfl | ht
          · simp [ParseSymbol]
          · exact hne t ht
      · simpa [hsp, hal, hdg, hpu] using ih cs tokens hcs

/-- C1: for every input string, `tokenize` returns (the fuel it is given is
enough), the returned sequence is non-empty, its last element is the
`END_OF_FILE` token with empty text, and that is its only `END_OF_FILE`
token. -/
theorem tokenize_total_sentinel (s : String) :
    ∃ tokens, tokenize s = some tokens ∧ tokens ≠ [] ∧
      tokens.getLast? = some ⟨TokenType.END_OF_FILE, ""⟩ ∧
      (tokens.filter (fun t => t.type = TokenType.END_OF_FILE)).length = 1 ∧
      ∀ t ∈ tokens.dropLast, t.type ≠ TokenType.END_OF_FILE := by
  obtain ⟨out, ho, hne⟩ := tokenizeLoop_total s.length s.data [] (le_refl _)
  refine ⟨out ++ [⟨TokenType.END_OF_FILE, ""⟩], ?_, by simp, by simp, ?_, ?_⟩
  · simp [tokenize, ho]
  · have : out.filter (fun t => decide (t.type = TokenType.END_OF_FILE)) = [] := by
      rw [List.filter_eq_nil_iff]
      intro t ht
      simpa using hne t ht
    simp [List.filter_append, this]
  · simpa using hne

/-! ## Lexer: the pushed tokens, character class by character class -/

theorem isspace_of_isalpha {c : Char} (h : isalpha c = true) : isspace c = false := by
  simp only [isalpha, isspace, Bool.or_eq_true, Bool.and_eq_true, decide_eq_true_eq,
    Bool.or_eq_false_iff, Bool.and_eq_false_iff, decide_eq_false_iff_not] at *
  omega

theorem isspace_of_isdigit {c : Char} (h : isdigit c = true) : isspace c = false := by
  simp only [isdigit, isspace, Bool.or_eq_true, Bool.and_eq_true, decide_eq_true_eq,
    Bool.or_eq_false_iff, Bool.and_eq_false_iff, decide_eq_false_iff_not] at *
  omega

theorem isalpha_of_isdigit {c : Char} (h : isdigit c = true) : isalpha c = false := by
  simp only [isdigit, isalpha, Bool.or_eq_true, Bool.and_eq_true, decide_eq_true_eq,
    Bool.or_eq_false_iff, Bool.and_eq_false_iff, decide_eq_false_iff_not] at *
  omega

theorem not_others_of_ispunct {c : Char} (h : ispunct c = true) :
    isspace c = false ∧ isalpha c = false ∧ isdigit c = false := by
  simp only [ispunct, isdigit, isalpha, isspace, Bool.or_eq_true, Bool.and_eq_true,
    decide_eq_true_eq, Bool.or_eq_false_iff, Bool.and_eq_false_iff,
    decide_eq_false_iff_not] at *
  omega

theorem ParseIdentifierorKeyword_rest {c : Char} (cs : List Char) (h : isalpha c = true) :
    (ParseIdentifierorKeyword (c :: cs)).2 = cs.dropWhile isalnum := by
  simp only [ParseIdentifierorKeyword, List.dropWhile_cons, isalnum_of_isalpha h]
  split <;> rfl

theorem ParseNumber_rest {c : Char} (cs : List Char) (h : isdigit c = true) :
    (ParseNumber (c :: cs)).2 = cs.dropWhile isdigit := by
  simp [ParseNumber, List.dropWhile_cons, h]

/-- With one unit of fuel per unread character the loop returns, and what it
appends to the token vector depends on the unread suffix only. -/
theorem tokenizeLoop_scanned (n : Nat) :
    ∀ rest : List Char, rest.length ≤ n → ∀ (fuel : Nat) (tokens : List Token),
      rest.length ≤ fuel → tokenizeLoop fuel rest tokens = some (tokens ++ scanned rest) := by
  induction n with
  | zero =>
    intro rest h fuel tokens _
    have : rest = [] := List.length_eq_zero.mp (Nat.le_zero.mp h)
    subst this
    simp [scanned, tokenizeLoop]
  | succ n ih =>
    intro rest h fuel tokens hf
    cases rest with
    | nil => simp [scanned, tokenizeLoop]
    | cons c cs =>
      have hcs : cs.length ≤ n := by simpa using h
      obtain ⟨f, rfl⟩ : ∃ f, fuel = f + 1 := ⟨fuel - 1, by simp at hf; omega⟩
      have hf : cs.length ≤ f := by simpa using hf
      have hsc : scanned (c :: cs) = (tokenizeLoop (cs.length + 1) (c :: cs) []).getD [] := rfl
      rw [hsc, tokenizeLoop, tokenizeLoop]
      by_cases hsp : isspace c = true
      · simp only [hsp, if_true]
        rw [ih cs hcs f tokens hf, ih cs hcs cs.length [] (le_refl _)]
        simp
      by_cases hal : isalpha c = true
      · simp only [hsp, hal, Bool.false_eq_true, if_true, if_false, ParseIdentifierorKeyword_rest cs hal]
        have hd := length_dropWhile_le isalnum cs
        rw [ih _ (hd.trans hcs) f _ (hd.trans hf), ih _ (hd.trans hcs) cs.length _ hd]
        simp
      by_cases hdg : isdigit c = true
      · simp only [hsp, hal, hdg, Bool.false_eq_true, if_true, if_false, ParseNumber_rest cs hdg]
        have hd := length_dropWhile_le isdigit cs
        rw [ih _ (hd.trans hcs) f _ (hd.trans hf), ih _ (hd.trans hcs) cs.length _ hd]
        simp
      by_cases hpu : ispunct c = true
      · have hsym : (ParseSymbol c cs).2 = cs := rfl
        simp only [hsp, hal, hdg, hpu, Bool.false_eq_true, if_true, if_false, hsym]
        rw [ih cs hcs f _ hf, ih cs hcs cs.length _ (le_refl _)]
        simp
      · simp only [hsp, hal, hdg, hpu, Bool.false_eq_true, if_false]
        rw [ih cs hcs f tokens hf, ih cs hcs cs.length [] (le_refl _)]
        simp

theorem tokenize_eq_scanned (s : String) :
    tokenize s = some (scanned s.data ++ [⟨TokenType.END_OF_FILE, ""⟩]) := by
  simp [tokenize, tokenizeLoop_scanned s.length s.data (le_refl _) s.length [] (le_refl _)]

theorem scanned_nil : scanned [] = [] := rfl

theorem scanned_cons (c : Char) (cs : List Char) :
    scanned (c :: cs) =
      if isspace c then scanned cs
      else if isalpha c then
        (ParseIdentifierorKeyword (c :: cs)).1 :: scanned (cs.dropWhile isalnum)
      else if isdigit c then (ParseNumber (c :: cs)).1 :: scanned (cs.dropWhile isdigit)
      else if ispunct c then ⟨TokenType.SYMBOL, String.mk [c]⟩ :: scanned cs
      else scanned cs := by
  have h := tokenizeLoop_scanned (cs.length + 1) (c :: cs) (le_refl _) (cs.length + 1) []
    (le_refl _)
  rw [tokenizeLoop] at h
  by_cases hsp : isspace c = true
  · simp only [hsp, if_true] at h ⊢
    rw [tokenizeLoop_scanned _ cs (le_refl _) _ _ (le_refl _)] at h
    simpa using h.symm
  by_cases hal : isalpha c = true
  · simp only [hsp, hal, Bool.false_eq_true, if_true, if_false, ParseIdentifierorKeyword_rest cs hal] at h ⊢
    rw [tokenizeLoop_scanned _ _ (le_refl _) _ _ (length_dropWhile_le _ _)] at h
    simpa using h.symm
  by_cases hdg : isdigit c = true
  · simp only [hsp, hal, hdg, Bool.false_eq_true, if_true, if_false, ParseNumber_rest cs hdg] at h ⊢
    rw [tokenizeLoop_scanned _ _ (le_refl _) _ _ (length_dropWhile_le _ _)] at h
    simpa using h.symm
  by_cases hpu : ispunct c = true
  · have hsym : (ParseSymbol c cs).2 = cs := rfl
    have hsym1 : (ParseSymbol c cs).1 = ⟨TokenType.SYMBOL, String.mk [c]⟩ := rfl
    simp only [hsp, hal, hdg, hpu, Bool.false_eq_true, if_true, if_false, hsym, hsym1] at h ⊢
    rw [tokenizeLoop_scanned _ cs (le_refl _) _ _ (le_refl _)] at h
    simpa using h.symm
  · simp only [hsp, hal, hdg, hpu, Bool.false_eq_true, if_false] at h ⊢
    rw [tokenizeLoop_scanned _ cs (le_refl _) _ _ (le_refl _)] at h
    simpa using h.symm

theorem scanned_alpha {c : Char} (cs : List Char) (h : isalpha c = true) :
    scanned (c :: cs) =
      (ParseIdentifierorKeyword (c :: cs)).1 :: scanned (cs.dropWhile isalnum) := by
  rw [scanned_cons]; simp [isspace_of_isalpha h, h]

theorem scanned_digit {c : Char} (cs : List Char) (h : isdigit c = true) :
    scanned (c :: cs) = (ParseNumber (c :: cs)).1 :: scanned (cs.dropWhile isdigit) := by
  rw [scanned_cons]; simp [isspace_of_isdigit h, isalpha_of_isdigit h, h]

theorem scanned_punct {c : Char} (cs : List Char) (h : ispunct c = true) :
    scanned (c :: cs) = ⟨TokenType.SYMBOL, String.mk [c]⟩ :: scanned cs := by
  obtain ⟨h1, h2, h3⟩ := not_others_of_ispunct h
  rw [scanned_cons]; simp [h1, h2, h3, h]

theorem scanned_skip {c : Char} (cs : List Char)
    (h : isspace c = true ∨ (isalpha c = false ∧ isdigit c = false ∧ ispunct c = false)) :
    scanned (c :: cs) = scanned cs := by
  rw [scanned_cons]
  rcases h with h | ⟨h1, h2, h3⟩
  · simp [h]
  · simp [h1, h2, h3]

/-- A property of every token a scanning routine can return holds of every
token the loop pushes. -/
theorem scanned_forall (P : Token → Prop)
    (hid : ∀ c cs, isalpha c = true → P (ParseIdentifierorKeyword (c :: cs)).1)
    (hnum : ∀ c cs, isdigit c = true → P (ParseNumber (c :: cs)).1)
    (hsym : ∀ c, ispunct c = true → P ⟨TokenType.SYMBOL, String.mk [c]⟩) (n : Nat) :
    ∀ rest : List Char, rest.length ≤ n → ∀ t ∈ scanned rest, P t := by
  induction n with
  | zero =>
    intro rest h
    have : rest = [] := List.length_eq_zero.mp (Nat.le_zero.mp h)
    subst this
    simp [scanned_nil]
  | succ n ih =>
    intro rest h
    cases rest with
    | nil => simp [scanned_nil]
    | cons c cs =>
      have hcs : cs.length ≤ n := by simpa using h
      intro t ht
      rw [scanned_cons] at ht
      split at ht
      · exact ih cs hcs t ht
      split at ht
      · rcases List.mem_cons.mp ht with rfl | ht
        · exact hid c cs ‹_›
        · exact ih _ ((length_dropWhile_le _ _).trans hcs) t ht
      split at ht
      · rcases List.mem_cons.mp ht with rfl | ht
        · exact hnum c cs ‹_›
        · exact ih _ ((length_dropWhile_le _ _).trans hcs) t ht
      split at ht
      · rcases List.mem_cons.mp ht with rfl | ht
        · exact hsym c ‹_›
        · exact ih cs hcs t ht
      · exact ih cs hcs t ht

/-! ## Lexer: scanning across a lexeme boundary -/

theorem mem_getLast?_of_suffix {l₁ l₂ : List Char} (h : l₁ <:+ l₂) {x : Char}
    (hx : x ∈ l₁.getLast?) : x ∈ l₂.getLast? := by
  obtain ⟨t, rfl⟩ := h
  have hne : l₁ ≠ [] := by
    rintro rfl
    simp at hx
  rw [List.getLast?_append_of_ne_nil _ hne]
  exact hx

theorem getLast?_of_all {p : Char → Bool} {l : List Char} (h : ∀ a ∈ l, p a = true)
    {x : Char} (hx : x ∈ l.getLast?) : p x = true :=
  h x (List.mem_of_getLast?_eq_some hx)

/-- A run of `p` inside `cs` does not reach into `b` when `b` does not start
with a `p` character or the run stops before the end of `cs`. -/
theorem takeWhile_dropWhile_append (p : Char → Bool) (cs b : List Char)
    (h : (∀ a ∈ cs, p a = true) → ∀ y ∈ b.head?, p y = false) :
    (cs ++ b).takeWhile p = cs.takeWhile p ∧ (cs ++ b).dropWhile p = cs.dropWhile p ++ b := by
  induction cs with
  | nil =>
    cases b with
    | nil => simp
    | cons y ys =>
      have hy : p y = false := h (by simp) y (by simp)
      simp [List.takeWhile_cons, List.dropWhile_cons, hy]
  | cons x xs ih =>
    by_cases hx : p x = true
    · have ih := ih (fun hall => h (by
        intro a ha
        rcases List.mem_cons.mp ha with rfl | ha
        · exact hx
        · exact hall a ha))
      simp [List.takeWhile_cons, List.dropWhile_cons, hx, ih.1, ih.2]
    · simp [List.takeWhile_cons, List.dropWhile_cons, hx]

/-- The loop scans `a ++ b` as `a` followed by `b` when no alphanumeric run
crosses from `a` into `b`. -/
theorem scanned_append (n : Nat) :
    ∀ a : List Char, a.length ≤ n → ∀ b : List Char,
      (∀ x ∈ a.getLast?, ∀ y ∈ b.head?, isalnum x = true → isalnum y = false) →
      scanned (a ++ b) = scanned a ++ scanned b := by
  induction n with
  | zero =>
    intro a h b _
    have : a = [] := List.length_eq_zero.mp (Nat.le_zero.mp h)
    subst this
    simp [scanned_nil]
  | succ n ih =>
    intro a h b hb
    cases a with
    | nil => simp [scanned_nil]
    | cons c cs =>
      have hcs : cs.length ≤ n := by simpa using h
      have hbcs : ∀ x ∈ cs.getLast?, ∀ y ∈ b.head?, isalnum x = true → isalnum y = false :=
        fun x hx => hb x (mem_getLast?_of_suffix (List.suffix_cons c cs) hx)
      have hplain : scanned (cs ++ b) = scanned cs ++ scanned b := ih cs hcs b hbcs
      rw [List.cons_append, scanned_cons c (cs ++ b), scanned_cons c cs]
      by_cases hsp : isspace c = true
      · simp [hsp, hplain]
      by_cases hal : isalpha c = true
      · have hrun := takeWhile_dropWhile_append isalnum cs b (fun hall y hy => by
          cases hl : (c :: cs).getLast? with
          | none => simp at hl
          | some x =>
            have hx : isalnum x = true := getLast?_of_all (l := c :: cs) (by
              intro a ha
              rcases List.mem_cons.mp ha with rfl | ha
              · exact isalnum_of_isalpha hal
              · exact hall a ha) hl
            exact hb x hl y hy hx)
        have htok : (ParseIdentifierorKeyword (c :: (cs ++ b))).1 =
            (ParseIdentifierorKeyword (c :: cs)).1 := by
          simp only [ParseIdentifierorKeyword, List.takeWhile_cons, isalnum_of_isalpha hal,
            if_true, hrun.1]
          split <;> rfl
        have hrest : ∀ x ∈ (cs.dropWhile isalnum).getLast?, ∀ y ∈ b.head?,
            isalnum x = true → isalnum y = false :=
          fun x hx => hbcs x (mem_getLast?_of_suffix (List.dropWhile_suffix _) hx)
        simp only [hsp, hal, Bool.false_eq_true, if_true, if_false, htok, hrun.2]
        rw [ih _ ((length_dropWhile_le _ _).trans hcs) b hrest]
        simp
      by_cases hdg : isdigit c = true
      · have hrun := takeWhile_dropWhile_append isdigit cs b (fun hall y hy => by
          cases hl : (c :: cs).getLast? with
          | none => simp at hl
          | some x =>
            have hx : isdigit x = true := getLast?_of_all (l := c :: cs) (by
              intro a ha
              rcases List.mem_cons.mp ha with rfl | ha
              · exact hdg
              · exact hall a ha) hl
            have hy' := hb x hl y hy (isalnum_of_isdigit hx)
            cases hyd : isdigit y with
            | false => rfl
            | true => rw [isalnum_of_isdigit hyd] at hy'; cases hy')
        have htok : (ParseNumber (c :: (cs ++ b))).1 = (ParseNumber (c :: cs)).1 := by
          simp only [ParseNumber, List.takeWhile_cons, hdg, if_true, hrun.1]
        have hrest : ∀ x ∈ (cs.dropWhile isdigit).getLast?, ∀ y ∈ b.head?,
            isalnum x = true → isalnum y = false :=
          fun x hx => hbcs x (mem_getLast?_of_suffix (List.dropWhile_suffix _) hx)
        simp only [hsp, hal, hdg, Bool.false_eq_true, if_true, if_false, htok, hrun.2]
        rw [ih _ ((length_dropWhile_le _ _).trans hcs) b hrest]
        simp
      by_cases hpu : ispunct c = true
      · simp [hsp, hal, hdg, hpu, hplain]
      · simp [hsp, hal, hdg, hpu, hplain]

/-- The loop scans a lexeme of a letter followed by letters and digits, alone
on the input, as one token. -/
theorem scanned_identifier_run {c : Char} {cs : List Char} (hc : isalpha c = true)
    (hcs : ∀ a ∈ cs, isalnum a = true) :
    scanned (c :: cs) =
      [⟨if String.mk (c :: cs) ∈ keywords then TokenType.KEYWORD else TokenType.IDENTIFIER,
        String.mk (c :: cs)⟩] := by
  have htake : (c :: cs).takeWhile isalnum = c :: cs := by
    rw [List.takeWhile_eq_self_iff]
    intro a ha
    rcases List.mem_cons.mp ha with rfl | ha
    · exact isalnum_of_isalpha hc
    · exact hcs a ha
  have hdrop : cs.dropWhile isalnum = [] := by
    rw [List.dropWhile_eq_nil_iff]
    exact hcs
  rw [scanned_alpha cs hc, hdrop, scanned_nil]
  simp only [ParseIdentifierorKeyword, htake]
  split <;> simp_all

/-! ## Lexer: identifiers, keywords and numbers -/

theorem isIdentifierLexeme_ParseIdentifierorKeyword (c : Char) (cs : List Char)
    (h : isalpha c = true) :
    isIdentifierLexeme (ParseIdentifierorKeyword (c :: cs)).1.value = true ∧
    ((ParseIdentifierorKeyword (c :: cs)).1.type = TokenType.KEYWORD ∨
      (ParseIdentifierorKeyword (c :: cs)).1.type = TokenType.IDENTIFIER) ∧
    ((ParseIdentifierorKeyword (c :: cs)).1.type = TokenType.KEYWORD ↔
      (ParseIdentifierorKeyword (c :: cs)).1.value ∈ keywords) := by
  have hlex : isIdentifierLexeme (String.mk ((c :: cs).takeWhile isalnum)) = true := by
    simp only [isIdentifierLexeme, List.takeWhile_cons, isalnum_of_isalpha h, if_true, h,
      Bool.true_and, List.all_eq_true]
    intro a ha
    exact List.mem_takeWhile_imp ha
  unfold ParseIdentifierorKeyword
  dsimp only
  split
  · exact ⟨hlex, Or.inl rfl, by simp_all⟩
  · exact ⟨hlex, Or.inr rfl, by simp_all⟩

theorem isNumberLexeme_ParseNumber (c : Char) (cs : List Char) (h : isdigit c = true) :
    isNumberLexeme (ParseNumber (c :: cs)).1.value = true := by
  simp only [ParseNumber, isNumberLexeme, List.takeWhile_cons, h, if_true, Bool.true_and,
    List.all_eq_true]
  intro a ha
  exact List.mem_takeWhile_imp ha

/-- C5: a maximal alphanumeric run `c :: cs` that starts with a letter, between
any text `pre` that does not end with a letter or digit and any text `rest`
that does not start with one, is scanned as exactly one token: its text is the
whole run and its kind is KEYWORD when the text is one of the seven reserved
words and IDENTIFIER otherwise. Conversely every KEYWORD or IDENTIFIER token of
every output has such a text and is a KEYWORD exactly when the text is
reserved. -/
theorem tokenize_identifier_or_keyword (pre rest : List Char) (c : Char) (cs : List Char)
    (hc : isalpha c = true) (hcs : ∀ a ∈ cs, isalnum a = true)
    (hpre : ∀ x ∈ pre.getLast?, isalnum x = false)
    (hrest : ∀ y ∈ rest.head?, isalnum y = false) :
    (∃ before after,
      tokenize (String.mk pre) = some (before ++ [⟨TokenType.END_OF_FILE, ""⟩]) ∧
      tokenize (String.mk rest) = some (after ++ [⟨TokenType.END_OF_FILE, ""⟩]) ∧
      tokenize (String.mk (pre ++ c :: cs ++ rest)) =
        some (before ++
          [⟨if String.mk (c :: cs) ∈ ["def", "int", "if", "else", "return", "while", "elif"]
              then TokenType.KEYWORD else TokenType.IDENTIFIER, String.mk (c :: cs)⟩] ++
          after ++ [⟨TokenType.END_OF_FILE, ""⟩])) ∧
    (∀ (s : String) (tokens : List Token), tokenize s = some tokens → ∀ t ∈ tokens,
      t.type = TokenType.KEYWORD ∨ t.type = TokenType.IDENTIFIER →
        isIdentifierLexeme t.value = true ∧
        (t.type = TokenType.KEYWORD ↔
          t.value ∈ ["def", "int", "if", "else", "return", "while", "elif"])) := by
  constructor
  · refine ⟨scanned pre, scanned rest, tokenize_eq_scanned _, tokenize_eq_scanned _, ?_⟩
    rw [tokenize_eq_scanned]
    have h1 : scanned (pre ++ (c :: cs ++ rest)) = scanned pre ++ scanned (c :: cs ++ rest) :=
      scanned_append _ pre (le_refl _) _ (fun x hx y _ hax => by
        rw [hpre x hx] at hax; cases hax)
    have h2 : scanned (c :: cs ++ rest) = scanned (c :: cs) ++ scanned rest :=
      scanned_append _ (c :: cs) (le_refl _) _ (fun x _ y hy _ => hrest y hy)
    have h3 := scanned_identifier_run hc hcs
    simp only [keywords] at h3
    simp only [List.append_assoc] at h1 ⊢
    rw [h1, h2, h3]
    simp
  · intro s tokens hs t ht hkind
    rw [tokenize_eq_scanned] at hs
    cases hs
    rcases List.mem_append.mp ht with ht | ht
    · have h := scanned_forall
        (fun t => t.type = TokenType.KEYWORD ∨ t.type = TokenType.IDENTIFIER →
          isIdentifierLexeme t.value = true ∧ (t.type = TokenType.KEYWORD ↔ t.value ∈ keywords))
        (fun c cs hc _ =>
          ⟨(isIdentifierLexeme_ParseIdentifierorKeyword c cs hc).1,
            (isIdentifierLexeme_ParseIdentifierorKeyword c cs hc).2.2⟩)
        (fun c cs _ hk => by rcases hk with hk | hk <;> simp [ParseNumber] at hk)
        (fun c _ hk => by rcases hk with hk | hk <;> simp at hk)
        _ s.data (le_refl _) t ht hkind
      simpa only [keywords] using h
    · simp only [List.mem_singleton] at ht
      subst ht
      rcases hkind with hk | hk <;> simp at hk

/-- The run `x1y2` of the input `int x1y2;` is one IDENTIFIER token, and the
run `int` before it is a KEYWORD token. -/
theorem tokenize_identifier_or_keyword_witness :
    tokenize "int x1y2;" = some [⟨.KEYWORD, "int"⟩, ⟨.IDENTIFIER, "x1y2"⟩, ⟨.SYMBOL, ";"⟩,
      ⟨.END_OF_FILE, ""⟩] ∧
    tokenize "iff" = some [⟨.IDENTIFIER, "iff"⟩, ⟨.END_OF_FILE, ""⟩] ∧
    tokenize "if" = some [⟨.KEYWORD, "if"⟩, ⟨.END_OF_FILE, ""⟩] := by
  have h := (tokenize_identifier_or_keyword "int ".data ";".data 'x' "1y2".data
    (by decide) (by decide) (by decide) (by decide)).1
  obtain ⟨before, after, hb, ha, hall⟩ := h
  have hb' : before = [⟨.KEYWORD, "int"⟩] := by
    have : tokenize (String.mk "int ".data) =
        some ([⟨.KEYWORD, "int"⟩] ++ [⟨.END_OF_FILE, ""⟩]) := by decide
    rw [hb] at this
    exact List.append_cancel_right (Option.some.inj this)
  have ha' : after = [⟨.SYMBOL, ";"⟩] := by
    have : tokenize (String.mk ";".data) =
        some ([⟨.SYMBOL, ";"⟩] ++ [⟨.END_OF_FILE, ""⟩]) := by decide
    rw [ha] at this
    exact List.append_cancel_right (Option.some.inj this)
  subst hb' ha'
  exact ⟨hall, by decide, by decide⟩

/-! ## Number tokens and `stoi` -/

theorem decimalValue_append (ds : List Char) (d : Char) :
    decimalValue (ds ++ [d]) = 10 * decimalValue ds + (d.toNat - 48) := by
  simp [decimalValue, List.foldl_append]

/-- The value computed digit by digit is the number written by the digits in
base ten. -/
theorem decimalValue_eq_ofDigits (ds : List Char) :
    decimalValue ds = Nat.ofDigits 10 ((ds.map (fun c => c.toNat - 48)).reverse) := by
  induction ds using List.reverseRecOn with
  | nil => simp [decimalValue]
  | append_singleton ds d ih =>
    rw [decimalValue_append, ih]
    simp [Nat.ofDigits_cons]
    omega

theorem stoi_of_isNumberLexeme {text : String} (h : isNumberLexeme text = true) :
    stoi text =
      if decimalValue text.data ≤ 2147483647 then .ok (decimalValue text.data : Int)
      else .error .StoiOutOfRange := by
  unfold isNumberLexeme at h
  cases hd : text.data with
  | nil => simp [hd] at h
  | cons c cs =>
    simp only [hd, Bool.and_eq_true, List.all_eq_true] at h
    obtain ⟨hc, hcs⟩ := h
    have hsp : isspace c = false := isspace_of_isdigit hc
    have hminus : c ≠ '-' := by rintro rfl; simp [isdigit] at hc
    have hplus : c ≠ '+' := by rintro rfl; simp [isdigit] at hc
    have htake : (c :: cs).takeWhile isdigit = c :: cs := by
      rw [List.takeWhile_eq_self_iff]
      intro a ha
      rcases List.mem_cons.mp ha with rfl | ha
      · exact hc
      · exact hcs a ha
    have hnonneg : ¬ ((decimalValue (c :: cs) : Int) < -2147483648) := by
      have : (0 : Int) ≤ (decimalValue (c :: cs) : Int) := Int.ofNat_nonneg _
      omega
    simp only [stoi, hd, List.dropWhile_cons, hsp, Bool.false_eq_true, if_false, List.head?_cons,
      Option.some.injEq, hminus, hplus, or_self, htake, decide_False, hnonneg, false_or]
    by_cases hle : decimalValue (c :: cs) ≤ 2147483647
    · have : ¬ ((2147483647 : Int) < (decimalValue (c :: cs) : Int)) := by omega
      simp [hle, this]
    · have : (2147483647 : Int) < (decimalValue (c :: cs) : Int) := by omega
      simp [hle, this]

theorem parsePrimary_number (fuel : Nat) (tokens : List Token) (pos : Nat) (t : Token)
    (ht : tokens[pos]? = some t) (hn : t.type = TokenType.NUMBER) :
    parsePrimary (fuel + 1) tokens pos =
      (stoi t.value >>= fun value => .ok (.Number value, pos + 1)) := by
  have h0 : tokenAt tokens pos = .ok t := by simp [tokenAt, ht]
  rw [parsePrimary, h0, ok_bind]
  simp only [hn]
  rfl

/-- C6 (as the code has it): every NUMBER token of every output of `tokenize`
has a non-empty text of digits only; wherever such a token stands in a token
vector, `parsePrimary` returns the number literal of the value its digits write
in base ten and steps over the token when that value is at most 2147483647,
and fails with the `out_of_range` of `stoi` when it is larger. -/
theorem tokenize_number_parsePrimary (s : String) (tokens : List Token)
    (hs : tokenize s = some tokens) (t : Token) (ht : t ∈ tokens)
    (hn : t.type = TokenType.NUMBER) :
    t.value.data ≠ [] ∧ (∀ c ∈ t.value.data, isdigit c = true) ∧
    ∀ (vector : List Token) (pos fuel : Nat), vector[pos]? = some t →
      (Nat.ofDigits 10 ((t.value.data.map (fun c => c.toNat - 48)).reverse) ≤ 2147483647 →
        parsePrimary (fuel + 1) vector pos =
          .ok (.Number ((Nat.ofDigits 10
            ((t.value.data.map (fun c => c.toNat - 48)).reverse) : Nat) : Int), pos + 1)) ∧
      (2147483647 < Nat.ofDigits 10 ((t.value.data.map (fun c => c.toNat - 48)).reverse) →
        parsePrimary (fuel + 1) vector pos = .error .StoiOutOfRange) := by
  have hlex : isNumberLexeme t.value = true := by
    rw [tokenize_eq_scanned] at hs
    cases hs
    rcases List.mem_append.mp ht with ht | ht
    · exact scanned_forall (fun t => t.type = TokenType.NUMBER → isNumberLexeme t.value = true)
        (fun c cs hc hk => by
          rcases (isIdentifierLexeme_ParseIdentifierorKeyword c cs hc).2.1 with h | h <;>
            rw [h] at hk <;> cases hk)
        (fun c cs hc _ => isNumberLexeme_ParseNumber c cs hc)
        (fun c _ hk => by cases hk)
        _ s.data (le_refl _) t ht hn
    · simp only [List.mem_singleton] at ht
      subst ht
      cases hn
  have hdigits : t.value.data ≠ [] ∧ ∀ c ∈ t.value.data, isdigit c = true := by
    unfold isNumberLexeme at hlex
    cases hd : t.value.data with
    | nil => simp [hd] at hlex
    | cons c cs =>
      simp only [hd, Bool.and_eq_true, List.all_eq_true] at hlex
      refine ⟨by simp, ?_⟩
      intro a ha
      rcases List.mem_cons.mp ha with rfl | ha
      · exact hlex.1
      · exact hlex.2 a ha
  refine ⟨hdigits.1, hdigits.2, ?_⟩
  intro vector pos fuel hv
  rw [parsePrimary_number fuel vector pos t hv hn, stoi_of_isNumberLexeme hlex,
    ← decimalValue_eq_ofDigits]
  constructor
  · intro hle
    simp only [hle, if_true, ok_bind]
  · intro hgt
    have : ¬ decimalValue t.value.data ≤ 2147483647 := by omega
    simp only [this, if_false, error_bind]

/-- The NUMBER token of the input `42` is parsed to the literal 42. -/
theorem tokenize_number_parsePrimary_witness :
    tokenize "42" = some [⟨.NUMBER, "42"⟩, ⟨.END_OF_FILE, ""⟩] ∧
    parsePrimary 1 [⟨.NUMBER, "42"⟩, ⟨.END_OF_FILE, ""⟩] 0 = .ok (.Number 42, 1) := by
  have h := tokenize_number_parsePrimary "42" [⟨.NUMBER, "42"⟩, ⟨.END_OF_FILE, ""⟩]
    (by decide) ⟨.NUMBER, "42"⟩ (by decide) rfl
  have h42 : Nat.ofDigits 10 (("42".data.map (fun c => c.toNat - 48)).reverse) = 42 := by
    decide
  refine ⟨by decide, ?_⟩
  have h1 := (h.2.2 [⟨.NUMBER, "42"⟩, ⟨.END_OF_FILE, ""⟩] 0 0 rfl).1
  rw [h42] at h1
  exact h1 (by decide)

/-- C6 (as stated) fails: the digits of 2147483648 form a NUMBER token, and
`parsePrimary` does not return its number literal; `stoi` throws. -/
theorem parsePrimary_number_out_of_range :
    tokenize "2147483648" = some [⟨.NUMBER, "2147483648"⟩, ⟨.END_OF_FILE, ""⟩] ∧
    ∀ fuel, parsePrimary (fuel + 1) [⟨.NUMBER, "2147483648"⟩, ⟨.END_OF_FILE, ""⟩] 0 =
        .error .StoiOutOfRange ∧
      parsePrimary (fuel + 1) [⟨.NUMBER, "2147483648"⟩, ⟨.END_OF_FILE, ""⟩] 0 ≠
        .ok (.Number 2147483648, 1) := by
  refine ⟨by decide, fun fuel => ?_⟩
  have h : parsePrimary (fuel + 1) [⟨.NUMBER, "2147483648"⟩, ⟨.END_OF_FILE, ""⟩] 0 =
      .error .StoiOutOfRange := rfl
  exact ⟨h, by rw [h]; exact fun h' => nomatch h'⟩

/-! ## Expressions: the left fold of `parseBinaryOp` -/

theorem getElem?_append_add (pre l : List Token) (i : Nat) :
    (pre ++ l)[pre.length + i]? = l[i]? := by
  rw [List.getElem?_append_right (Nat.le_add_right _ _)]
  simp

theorem getElem?_append_length (pre l : List Token) :
    (pre ++ l)[pre.length]? = l[0]? := by
  simpa using getElem?_append_add pre l 0

theorem tokenAt_of_getElem? {tokens : List Token} {pos : Nat} {t : Token}
    (h : tokens[pos]? = some t) : tokenAt tokens pos = .ok t := by
  simp [tokenAt, h]

/-- An operand token followed by a token that does not turn it into a call or
an assignment is parsed to its leaf, and the cursor moves by one. -/
theorem parsePrimary_operand (fuel : Nat) (tokens : List Token) (pos : Nat) (t next : Token)
    (ht : tokens[pos]? = some t) (hnext : tokens[pos + 1]? = some next) (hop : isOperand t)
    (hlook : t.type = TokenType.IDENTIFIER → next.value ≠ "(" ∧ next.value ≠ "=") :
    parsePrimary (fuel + 1) tokens pos = .ok (operandNode t, pos + 1) := by
  rcases hop with hid | ⟨hnum, hlex, hle⟩
  · obtain ⟨h1, h2⟩ := hlook hid
    rw [parsePrimary, tokenAt_of_getElem? ht, ok_bind]
    simp only [hid, if_true, tokenAt_of_getElem? hnext, ok_bind, h1, h2, if_false, and_false,
      operandNode]
    rfl
  · have hne : t.type ≠ TokenType.IDENTIFIER := by rw [hnum]; decide
    rw [parsePrimary_number fuel tokens pos t ht hnum, stoi_of_isNumberLexeme hlex]
    simp only [hle, if_true, ok_bind, operandNode, hne, if_false]

theorem head_pairTokens_append (rest : List (Token × Token)) (next : Token) (post : List Token)
    (hrest : ∀ p ∈ rest, p.1.value ∈ ["+", "-", "*", "/"] ∧ isOperand p.2) :
    ∃ h, (pairTokens rest ++ next :: post)[0]? = some h ∧
      (rest = [] → h = next) ∧ (rest ≠ [] → h.value ∈ ["+", "-", "*", "/"]) := by
  cases rest with
  | nil => exact ⟨next, by simp [pairTokens], fun _ => rfl, fun h => absurd rfl h⟩
  | cons p rest =>
    obtain ⟨op, x⟩ := p
    exact ⟨op, by simp [pairTokens], fun h => absurd h (by simp),
      fun _ => (hrest (op, x) (by simp)).1⟩

theorem lookahead_ok (rest : List (Token × Token)) (next h x : Token)
    (hnil : rest = [] → h = next) (hcons : rest ≠ [] → h.value ∈ ["+", "-", "*", "/"])
    (hlast : rest = [] → x.type = TokenType.IDENTIFIER →
      next.value ≠ "(" ∧ next.value ≠ "=") :
    x.type = TokenType.IDENTIFIER → h.value ≠ "(" ∧ h.value ≠ "=" := by
  intro hx
  by_cases hr : rest = []
  · rw [hnil hr]
    exact hlast hr hx
  · have := hcons hr
    simp only [List.mem_cons, List.mem_singleton, List.not_mem_nil, or_false] at this
    rcases this with h | h | h | h <;> rw [h] <;> decide

/-- The loop of `parseBinaryOp` over `op₁ x₁ ... opₙ xₙ` followed by a token
that is not an operator. -/
theorem parseBinaryOp_leftFold (next : Token) (post : List Token)
    (hnext : next.value ∉ ["+", "-", "*", "/", "<<", ">>"]) :
    ∀ (rest : List (Token × Token)) (pre : List Token) (left : ASTNode) (fuel : Nat),
      (∀ p ∈ rest, p.1.value ∈ ["+", "-", "*", "/"] ∧ isOperand p.2) →
      (∀ t ∈ (rest.map Prod.snd).getLast?, t.type = TokenType.IDENTIFIER →
        next.value ≠ "(" ∧ next.value ≠ "=") →
      parseBinaryOp (fuel + rest.length + 1) (pre ++ (pairTokens rest ++ next :: post))
        pre.length left = .ok (leftFold left rest, pre.length + 2 * rest.length) := by
  intro rest
  induction rest with
  | nil =>
    intro pre left fuel _ _
    have h0 : (pre ++ (pairTokens [] ++ next :: post))[pre.length]? = some next := by
      rw [getElem?_append_length]; simp [pairTokens]
    rw [parseBinaryOp]
    simp only [h0]
    simp only [List.mem_cons, List.mem_singleton, List.not_mem_nil, or_false,
      not_or] at hnext
    simp [hnext, leftFold]
    rfl
  | cons p rest ih =>
    obtain ⟨op, x⟩ := p
    intro pre left fuel hrest hlast
    have hp := hrest (op, x) (by simp)
    have hrest' : ∀ p ∈ rest, p.1.value ∈ ["+", "-", "*", "/"] ∧ isOperand p.2 :=
      fun p hp => hrest p (by simp [hp])
    obtain ⟨h, hh, hnil, hcons⟩ := head_pairTokens_append rest next post hrest'
    have hop : (pre ++ (pairTokens ((op, x) :: rest) ++ next :: post))[pre.length]? =
        some op := by
      rw [getElem?_append_length]; simp [pairTokens]
    have hx : (pre ++ (pairTokens ((op, x) :: rest) ++ next :: post))[pre.length + 1]? =
        some x := by
      rw [getElem?_append_add]; simp [pairTokens]
    have hh' : (pre ++ (pairTokens ((op, x) :: rest) ++ next :: post))[pre.length + 1 + 1]? =
        some h := by
      rw [Nat.add_assoc, getElem?_append_add]
      simpa [pairTokens] using hh
    have hlook := lookahead_ok rest next h x hnil hcons (fun hr hxid => by
      subst hr
      exact hlast x (by simp) hxid)
    have hprim := parsePrimary_operand (fuel + rest.length) _ _ x h hx hh' hp.2 hlook
    have hisop : op.value = "+" ∨ op.value = "-" ∨ op.value = "*" ∨ op.value = "/" ∨
        op.value = "<<" ∨ op.value = ">>" := by
      have := hp.1
      simp only [List.mem_cons, List.mem_singleton, List.not_mem_nil, or_false] at this
      tauto
    have hlast' : ∀ t ∈ (rest.map Prod.snd).getLast?, t.type = TokenType.IDENTIFIER →
        next.value ≠ "(" ∧ next.value ≠ "=" := by
      intro t ht
      apply hlast t
      cases rest with
      | nil => simp at ht
      | cons q rest => simpa using ht
    have hih := ih (pre ++ [op, x]) (.BinaryOp op.value left (operandNode x)) fuel hrest' hlast'
    have hlen : (fuel + ((op, x) :: rest).length + 1) = (fuel + rest.length + 1) + 1 := by
      simp only [List.length_cons]; omega
    rw [hlen, parseBinaryOp]
    simp only [hop, hisop, if_true, hprim, ok_bind]
    simp only [List.append_assoc, List.length_append, List.length_cons, List.length_nil,
      List.cons_append, List.nil_append] at hih
    simp only [pairTokens, List.cons_append]
    rw [hih]
    simp only [leftFold, List.foldl_cons, List.length_cons]
    congr 2
    omega

/-- C7 (as the code has it): operands `x₀ ... xₙ`, each an IDENTIFIER token or
a NUMBER token whose digits write a value of at most 2147483647, separated by
tokens with the texts `+`, `-`, `*`, `/` and followed by a token that is not an
operator and, when the last operand is an IDENTIFIER, is neither `(` nor `=`,
are parsed by `parseExpression` to the left fold of the operands, whatever the
operators, and the cursor is left on the following token. -/
theorem parseExpression_leftFold (pre post : List Token) (x₀ next : Token)
    (rest : List (Token × Token)) (fuel : Nat) (hx₀ : isOperand x₀)
    (hrest : ∀ p ∈ rest, p.1.value ∈ ["+", "-", "*", "/"] ∧ isOperand p.2)
    (hnext : next.value ∉ ["+", "-", "*", "/", "<<", ">>"])
    (hlast : ∀ t ∈ (x₀ :: rest.map Prod.snd).getLast?, t.type = TokenType.IDENTIFIER →
      next.value ≠ "(" ∧ next.value ≠ "=") :
    parseExpression (fuel + rest.length + 2) (pre ++ x₀ :: (pairTokens rest ++ next :: post))
      pre.length = .ok (leftFold (operandNode x₀) rest, pre.length + 1 + 2 * rest.length) := by
  obtain ⟨h, hh, hnil, hcons⟩ := head_pairTokens_append rest next post hrest
  have hx : (pre ++ x₀ :: (pairTokens rest ++ next :: post))[pre.length]? = some x₀ := by
    rw [getElem?_append_length]; simp
  have hh' : (pre ++ x₀ :: (pairTokens rest ++ next :: post))[pre.length + 1]? = some h := by
    rw [getElem?_append_add]
    simpa using hh
  have hlook := lookahead_ok rest next h x₀ hnil hcons (fun hr hxid => by
    subst hr
    exact hlast x₀ (by simp) hxid)
  have hprim := parsePrimary_operand (fuel + rest.length) _ _ x₀ h hx hh' hx₀ hlook
  have hlast' : ∀ t ∈ (rest.map Prod.snd).getLast?, t.type = TokenType.IDENTIFIER →
      next.value ≠ "(" ∧ next.value ≠ "=" := by
    intro t ht
    apply hlast t
    cases rest with
    | nil => simp at ht
    | cons q rest => simpa using ht
  have hloop := parseBinaryOp_leftFold next post hnext rest (pre ++ [x₀]) (operandNode x₀) fuel
    hrest hlast'
  simp only [List.append_assoc, List.length_append, List.length_cons, List.length_nil,
    List.cons_append, List.nil_append] at hloop
  rw [parseExpression, hprim, ok_bind]
  exact hloop

/-- The tokens of `a + b - c ;` are parsed to the left fold of the spec. -/
theorem parseExpression_leftFold_witness :
    tokenize "a + b - c ;" = some [⟨.IDENTIFIER, "a"⟩, ⟨.SYMBOL, "+"⟩, ⟨.IDENTIFIER, "b"⟩,
      ⟨.SYMBOL, "-"⟩, ⟨.IDENTIFIER, "c"⟩, ⟨.SYMBOL, ";"⟩, ⟨.END_OF_FILE, ""⟩] ∧
    parseExpression 4 [⟨.IDENTIFIER, "a"⟩, ⟨.SYMBOL, "+"⟩, ⟨.IDENTIFIER, "b"⟩,
      ⟨.SYMBOL, "-"⟩, ⟨.IDENTIFIER, "c"⟩, ⟨.SYMBOL, ";"⟩, ⟨.END_OF_FILE, ""⟩] 0 =
      .ok (.BinaryOp "-" (.BinaryOp "+" (.Identifier "a") (.Identifier "b")) (.Identifier "c"),
        5) :=
  ⟨by decide,
    parseExpression_leftFold [] [⟨.END_OF_FILE, ""⟩] ⟨.IDENTIFIER, "a"⟩ ⟨.SYMBOL, ";"⟩
      [(⟨.SYMBOL, "+"⟩, ⟨.IDENTIFIER, "b"⟩), (⟨.SYMBOL, "-"⟩, ⟨.IDENTIFIER, "c"⟩)] 0
      (by decide) (by decide) (by decide) (by decide)⟩

/-- C7 (as stated) fails: after the operands `a + f` the token `(` is not an
operator, and after `a + b` neither is `=`, yet the result is not the fold of
the two operands with the cursor on that token: the last operand becomes a call
or an assignment. A NUMBER operand above 2147483647 makes the parse fail. -/
theorem parseExpression_not_leftFold :
    (∀ fuel, parseExpression (fuel + 8)
        [⟨.IDENTIFIER, "a"⟩, ⟨.SYMBOL, "+"⟩, ⟨.IDENTIFIER, "f"⟩, ⟨.SYMBOL, "("⟩, ⟨.NUMBER, "1"⟩,
          ⟨.SYMBOL, ")"⟩, ⟨.SYMBOL, ";"⟩, ⟨.END_OF_FILE, ""⟩] 0 =
        .ok (.BinaryOp "+" (.Identifier "a") (.FunctionCall "f" [.Number 1]), 6) ∧
      parseExpression (fuel + 8)
        [⟨.IDENTIFIER, "a"⟩, ⟨.SYMBOL, "+"⟩, ⟨.IDENTIFIER, "f"⟩, ⟨.SYMBOL, "("⟩, ⟨.NUMBER, "1"⟩,
          ⟨.SYMBOL, ")"⟩, ⟨.SYMBOL, ";"⟩, ⟨.END_OF_FILE, ""⟩] 0 ≠
        .ok (leftFold (operandNode ⟨.IDENTIFIER, "a"⟩)
          [(⟨.SYMBOL, "+"⟩, ⟨.IDENTIFIER, "f"⟩)], 3)) ∧
    (∀ fuel, parseExpression (fuel + 8)
        [⟨.IDENTIFIER, "a"⟩, ⟨.SYMBOL, "+"⟩, ⟨.IDENTIFIER, "b"⟩, ⟨.SYMBOL, "="⟩, ⟨.NUMBER, "1"⟩,
          ⟨.SYMBOL, ";"⟩, ⟨.END_OF_FILE, ""⟩] 0 =
        .ok (.BinaryOp "+" (.Identifier "a") (.Assignment "b" (.Number 1)), 5)) ∧
    (∀ fuel, parseExpression (fuel + 8)
        [⟨.NUMBER, "1"⟩, ⟨.SYMBOL, "+"⟩, ⟨.NUMBER, "2147483648"⟩, ⟨.SYMBOL, ";"⟩,
          ⟨.END_OF_FILE, ""⟩] 0 = .error .StoiOutOfRange) := by
  refine ⟨fun fuel => ?_, fun _ => rfl, fun _ => rfl⟩
  have h : parseExpression (fuel + 8)
      [⟨.IDENTIFIER, "a"⟩, ⟨.SYMBOL, "+"⟩, ⟨.IDENTIFIER, "f"⟩, ⟨.SYMBOL, "("⟩, ⟨.NUMBER, "1"⟩,
        ⟨.SYMBOL, ")"⟩, ⟨.SYMBOL, ";"⟩, ⟨.END_OF_FILE, ""⟩] 0 =
      .ok (.BinaryOp "+" (.Identifier "a") (.FunctionCall "f" [.Number 1]), 6) := rfl
  refine ⟨h, ?_⟩
  rw [h]
  intro h'
  injection h' with h'
  injection h' with _ h'
  exact absurd h' (by decide)

/-! ## More fuel does not change a result -/

theorem Settled.refl {α : Type} (r : Result α) : Settled r r := ⟨fun _ => rfl⟩

theorem Settled.of_OutOfFuel {α : Type} (r' : Result α) :
    Settled (.error .OutOfFuel) r' := ⟨fun h => absurd rfl h⟩

theorem Settled.bind {α β : Type} {x x' : Result α} {f f' : α → Result β}
    (hx : Settled x x') (hf : ∀ a, Settled (f a) (f' a)) :
    Settled (x >>= f) (x' >>= f') := by
  constructor
  intro h
  cases x with
  | error e =>
    have he : (Except.error e : Result α) ≠ .error .OutOfFuel := by
      intro he
      rw [he] at h
      exact h rfl
    rw [hx.eq he]
    rfl
  | ok a =>
    rw [hx.eq (by intro h'; cases h')]
    exact (hf a).eq h

theorem Settled.ite {α : Type} {c : Prop} [Decidable c] {a a' b b' : Result α}
    (ha : Settled a a') (hb : Settled b b') :
    Settled (if c then a else b) (if c then a' else b') := by
  split
  · exact ha
  · exact hb

theorem Settled.trans {α : Type} {a b c : Result α} (hab : Settled a b) (hbc : Settled b c) :
    Settled a c := by
  constructor
  intro h
  have hb := hab.eq h
  rw [hbc.eq (by rw [hb]; exact h), hb]

theorem Settled.of_le {α : Type} (g : Nat → Result α) (h : ∀ n, Settled (g n) (g (n + 1)))
    {n m : Nat} (hnm : n ≤ m) : Settled (g n) (g m) := by
  induction hnm with
  | refl => exact Settled.refl _
  | step _ ih => exact ih.trans (h _)

theorem Settled.ok_of_le {α : Type} (g : Nat → Result α) (h : ∀ n, Settled (g n) (g (n + 1)))
    {n m : Nat} (hnm : n ≤ m) {r : α} (hr : g n = .ok r) : g m = .ok r := by
  rw [← hr]
  exact (Settled.of_le g h hnm).eq (by rw [hr]; exact fun h' => nomatch h')

theorem parseParameters_succ (fuel : Nat) :
    ∀ (tokens : List Token) (pos : Nat) (parameters : List String),
      Settled (parseParameters fuel tokens pos parameters)
        (parseParameters (fuel + 1) tokens pos parameters) := by
  induction fuel with
  | zero => intro tokens pos parameters; exact Settled.of_OutOfFuel _
  | succ n ih =>
    intro tokens pos parameters
    rw [parseParameters, parseParameters]
    refine Settled.bind (Settled.refl _) (fun t => Settled.ite ?_ (Settled.refl _))
    exact Settled.bind (Settled.refl _) (fun t => Settled.ite (ih _ _ _) (ih _ _ _))

/-- One more unit of fuel settles every rule of the parser. -/
theorem parser_succ (fuel : Nat) :
    (∀ tokens pos, Settled (parseStatement fuel tokens pos)
      (parseStatement (fuel + 1) tokens pos)) ∧
    (∀ tokens pos, Settled (parseExpression fuel tokens pos)
      (parseExpression (fuel + 1) tokens pos)) ∧
    (∀ tokens pos, Settled (parsePrimary fuel tokens pos)
      (parsePrimary (fuel + 1) tokens pos)) ∧
    (∀ tokens pos, Settled (parseAssignment fuel tokens pos)
      (parseAssignment (fuel + 1) tokens pos)) ∧
    (∀ tokens pos left, Settled (parseBinaryOp fuel tokens pos left)
      (parseBinaryOp (fuel + 1) tokens pos left)) ∧
    (∀ tokens pos, Settled (parseFunction fuel tokens pos)
      (parseFunction (fuel + 1) tokens pos)) ∧
    (∀ tokens pos body, Settled (parseBody fuel tokens pos body)
      (parseBody (fuel + 1) tokens pos body)) ∧
    (∀ tokens pos name, Settled (parsseFuntionCall fuel tokens pos name)
      (parsseFuntionCall (fuel + 1) tokens pos name)) ∧
    (∀ tokens pos arguments, Settled (parseArguments fuel tokens pos arguments)
      (parseArguments (fuel + 1) tokens pos arguments)) := by
  induction fuel with
  | zero =>
    refine ⟨?_, ?_, ?_, ?_, ?_, ?_, ?_, ?_, ?_⟩ <;> intros <;> exact Settled.of_OutOfFuel _
  | succ n ih =>
    obtain ⟨ihS, ihE, ihP, ihA, ihB, ihF, ihBody, ihC, ihArgs⟩ := ih
    refine ⟨?_, ?_, ?_, ?_, ?_, ?_, ?_, ?_, ?_⟩
    · intro tokens pos
      rw [parseStatement, parseStatement]
      refine Settled.bind (Settled.refl _) (fun t => Settled.ite (ihF _ _) ?_)
      exact Settled.bind (ihE _ _) (fun _ => Settled.refl _)
    · intro tokens pos
      rw [parseExpression, parseExpression]
      exact Settled.bind (ihP _ _) (fun _ => ihB _ _ _)
    · intro tokens pos
      rw [parsePrimary, parsePrimary]
      refine Settled.bind (Settled.refl _) (fun t => Settled.ite ?_ ?_)
      · refine Settled.bind (Settled.refl _) (fun next => Settled.ite (ihC _ _ _) ?_)
        exact Settled.ite (ihA _ _) (Settled.refl _)
      · refine Settled.ite (Settled.refl _) (Settled.ite (Settled.ite ?_ (Settled.refl _))
          (Settled.refl _))
        refine Settled.bind (Settled.refl _) (fun t => Settled.bind (Settled.refl _) (fun p => ?_))
        exact Settled.bind (ihE _ _) (fun _ => Settled.refl _)
    · intro tokens pos
      rw [parseAssignment, parseAssignment]
      refine Settled.bind (Settled.refl _) (fun t => Settled.bind (Settled.refl _) (fun p => ?_))
      exact Settled.bind (ihE _ _) (fun _ => Settled.refl _)
    · intro tokens pos left
      rw [parseBinaryOp, parseBinaryOp]
      cases tokens[pos]? with
      | none => exact Settled.refl _
      | some t =>
        dsimp only
        refine Settled.ite ?_ (Settled.refl _)
        exact Settled.bind (ihP _ _) (fun _ => ihB _ _ _)
    · intro tokens pos
      rw [parseFunction, parseFunction]
      refine Settled.bind (Settled.refl _) (fun p => Settled.bind (Settled.refl _) (fun t => ?_))
      refine Settled.bind (Settled.refl _) (fun p => ?_)
      refine Settled.bind (parseParameters_succ _ _ _ _) (fun ps => ?_)
      refine Settled.bind (Settled.refl _) (fun p => Settled.bind (Settled.refl _) (fun p => ?_))
      exact Settled.bind (ihBody _ _ _) (fun _ => Settled.refl _)
    · intro tokens pos body
      rw [parseBody, parseBody]
      refine Settled.bind (Settled.refl _) (fun t => Settled.ite ?_ (Settled.refl _))
      exact Settled.bind (ihS _ _) (fun _ => ihBody _ _ _)
    · intro tokens pos name
      rw [parsseFuntionCall, parsseFuntionCall]
      refine Settled.bind (Settled.refl _) (fun p => ?_)
      exact Settled.bind (ihArgs _ _ _) (fun _ => Settled.refl _)
    · intro tokens pos arguments
      rw [parseArguments, parseArguments]
      refine Settled.bind (Settled.refl _) (fun t => Settled.ite ?_ (Settled.refl _))
      refine Settled.bind (ihE _ _) (fun a => ?_)
      exact Settled.bind (Settled.refl _) (fun t => Settled.ite (ihArgs _ _ _) (ihArgs _ _ _))

theorem parseStatement_of_le {fuel fuel' : Nat} (h : fuel ≤ fuel') {tokens : List Token}
    {pos : Nat} {r : ASTNode × Nat} (hr : parseStatement fuel tokens pos = .ok r) :
    parseStatement fuel' tokens pos = .ok r := by
  exact Settled.ok_of_le (fun n => parseStatement n tokens pos)
    (fun n => (parser_succ n).1 tokens pos) h hr

theorem parseExpression_of_le {fuel fuel' : Nat} (h : fuel ≤ fuel') {tokens : List Token}
    {pos : Nat} {r : ASTNode × Nat} (hr : parseExpression fuel tokens pos = .ok r) :
    parseExpression fuel' tokens pos = .ok r := by
  exact Settled.ok_of_le (fun n => parseExpression n tokens pos)
    (fun n => (parser_succ n).2.1 tokens pos) h hr

theorem parseParameters_of_le {fuel fuel' : Nat} (h : fuel ≤ fuel') {tokens : List Token}
    {pos : Nat} {parameters : List String} {r : List String × Nat}
    (hr : parseParameters fuel tokens pos parameters = .ok r) :
    parseParameters fuel' tokens pos parameters = .ok r := by
  exact Settled.ok_of_le (fun n => parseParameters n tokens pos parameters)
    (fun n => parseParameters_succ n tokens pos parameters) h hr

theorem parseBody_of_le {fuel fuel' : Nat} (h : fuel ≤ fuel') {tokens : List Token}
    {pos : Nat} {body : List ASTNode} {r : List ASTNode × Nat}
    (hr : parseBody fuel tokens pos body = .ok r) :
    parseBody fuel' tokens pos body = .ok r := by
  exact Settled.ok_of_le (fun n => parseBody n tokens pos body)
    (fun n => (parser_succ n).2.2.2.2.2.2.1 tokens pos body) h hr

theorem parseArguments_of_le {fuel fuel' : Nat} (h : fuel ≤ fuel') {tokens : List Token}
    {pos : Nat} {arguments : List ASTNode} {r : List ASTNode × Nat}
    (hr : parseArguments fuel tokens pos arguments = .ok r) :
    parseArguments fuel' tokens pos arguments = .ok r := by
  exact Settled.ok_of_le (fun n => parseArguments n tokens pos arguments)
    (fun n => (parser_succ n).2.2.2.2.2.2.2.2 tokens pos arguments) h hr

/-! ## Function definitions -/

theorem ne_paren_of_isIdentifierLexeme {text : String}
    (h : isIdentifierLexeme text = true) : text ≠ ")" := by
  rintro rfl
  exact absurd h (by decide)

theorem expectSymbol_of_getElem? {tokens : List Token} {pos : Nat} {t : Token}
    (h : tokens[pos]? = some t) (symbol : String) (hv : t.value = symbol) :
    expectSymbol tokens pos symbol = .ok (pos + 1) := by
  simp [expectSymbol, tokenAt_of_getElem? h, ok_bind, hv]
  rfl

/-- The parameter loop over `p₁ , p₂ , ... , pₙ` followed by a `)` token. -/
theorem parseParameters_commaSeparated (close : Token) (post : List Token)
    (hclose : close.value = ")") :
    ∀ (ps pre : List Token) (parameters : List String) (fuel : Nat),
      (∀ p ∈ ps, p.value ≠ ")") →
      parseParameters (fuel + ps.length + 1)
        (pre ++ (ps.intersperse ⟨.SYMBOL, ","⟩ ++ close :: post)) pre.length parameters =
        .ok (parameters ++ ps.map (fun p => p.value),
          pre.length + (ps.intersperse ⟨.SYMBOL, ","⟩).length) := by
  intro ps
  induction ps with
  | nil =>
    intro pre parameters fuel _
    have h0 : (pre ++ (([] : List Token).intersperse ⟨.SYMBOL, ","⟩ ++ close :: post))[pre.length]?
        = some close := by
      rw [getElem?_append_length]; simp
    rw [parseParameters, tokenAt_of_getElem? h0, ok_bind]
    simp [hclose]
    rfl
  | cons p tail ih =>
    intro pre parameters fuel hps
    have hp : p.value ≠ ")" := hps p (by simp)
    have htail : ∀ q ∈ tail, q.value ≠ ")" := fun q hq => hps q (by simp [hq])
    have hlen : fuel + (p :: tail).length + 1 = (fuel + tail.length + 1) + 1 := by
      simp only [List.length_cons]; omega
    cases tail with
    | nil =>
      have h0 : (pre ++ ([p].intersperse ⟨.SYMBOL, ","⟩ ++ close :: post))[pre.length]? =
          some p := by
        rw [getElem?_append_length]; simp
      have h1 : (pre ++ ([p].intersperse ⟨.SYMBOL, ","⟩ ++ close :: post))[pre.length + 1]? =
          some close := by
        rw [getElem?_append_add]; simp
      have hcomma : close.value ≠ "," := by rw [hclose]; decide
      have hih := ih (pre ++ [p]) (parameters ++ [p.value]) fuel htail
      simp only [List.append_assoc, List.length_append, List.length_cons, List.length_nil,
        List.cons_append, List.nil_append, List.intersperse_nil, List.map_nil,
        List.append_nil, Nat.add_zero, Nat.zero_add] at hih
      rw [hlen, parseParameters, tokenAt_of_getElem? h0, ok_bind]
      simp only [hp, ne_eq, not_false_eq_true, if_true, tokenAt_of_getElem? h1, ok_bind, hcomma,
        if_false]
      simp only [List.intersperse_single, List.cons_append, List.nil_append, List.length_cons,
        List.length_nil, List.map_cons, List.map_nil, Nat.zero_add]
      exact hih
    | cons q rest =>
      have h0 : (pre ++ ((p :: q :: rest).intersperse ⟨.SYMBOL, ","⟩ ++ close :: post))[
          pre.length]? = some p := by
        rw [getElem?_append_length]; simp
      have h1 : (pre ++ ((p :: q :: rest).intersperse ⟨.SYMBOL, ","⟩ ++ close :: post))[
          pre.length + 1]? = some ⟨.SYMBOL, ","⟩ := by
        rw [getElem?_append_add]; simp
      have hih := ih (pre ++ [p, ⟨.SYMBOL, ","⟩]) (parameters ++ [p.value]) fuel htail
      simp only [List.append_assoc, List.length_append, List.length_cons, List.length_nil,
        List.cons_append, List.nil_append, Nat.zero_add] at hih
      rw [hlen, parseParameters, tokenAt_of_getElem? h0, ok_bind]
      simp only [hp, ne_eq, not_false_eq_true, if_true, tokenAt_of_getElem? h1, ok_bind]
      simp only [List.intersperse_cons_cons, List.cons_append, List.length_cons,
        List.map_cons] at hih ⊢
      rw [hih]
      congr 2
      omega

/-- The body loop over a chain of statements that ends at a `}` token. -/
theorem parseBody_bodyChain (f₀ : Nat) (tokens : List Token) (stop : Nat)
    (hclose : ∃ t, tokens[stop]? = some t ∧ t.value = "\x7d") :
    ∀ (stmts : List (ASTNode × Nat)) (start : Nat) (body : List ASTNode) (fuel : Nat),
      bodyChain f₀ tokens start stmts stop →
      parseBody (fuel + f₀ + stmts.length + 1) tokens start body =
        .ok (body ++ stmts.map (fun s => s.1), stop) := by
  intro stmts
  induction stmts with
  | nil =>
    intro start body fuel hchain
    obtain ⟨t, ht, hv⟩ := hclose
    have hstart : start = stop := hchain
    subst hstart
    rw [parseBody, tokenAt_of_getElem? ht, ok_bind]
    simp [hv]
    rfl
  | cons s more ih =>
    obtain ⟨node, next⟩ := s
    intro start body fuel hchain
    obtain ⟨⟨t, ht, hv⟩, hstmt, hmore⟩ := hchain
    have hlen : fuel + f₀ + ((node, next) :: more).length + 1 =
        (fuel + f₀ + more.length + 1) + 1 := by
      simp only [List.length_cons]; omega
    have hstmt' : parseStatement (fuel + f₀ + more.length + 1) tokens start = .ok (node, next) :=
      parseStatement_of_le (by omega) hstmt
    rw [hlen, parseBody, tokenAt_of_getElem? ht, ok_bind]
    simp only [hv, ne_eq, not_false_eq_true, if_true, hstmt', ok_bind]
    rw [ih next (body ++ [node]) fuel hmore]
    simp

theorem getElem?_after_header (pre inter rest : List Token) (a b c : Token) (i : Nat) :
    (pre ++ a :: b :: c :: (inter ++ rest))[pre.length + 3 + inter.length + i]? = rest[i]? := by
  have h : pre ++ a :: b :: c :: (inter ++ rest) = (pre ++ [a, b, c] ++ inter) ++ rest := by
    simp
  have hl : pre.length + 3 + inter.length = (pre ++ [a, b, c] ++ inter).length := by
    simp only [List.length_append, List.length_cons, List.length_nil]
  rw [h, hl, getElem?_append_add]

/-- C9: the tokens `def name ( p₁ , ... , pₙ ) {`, with identifier tokens
`p₁ ... pₙ`, followed by statements that `parseStatement` reads one after the
other up to a `}` token, are parsed by `parseFunction` to the function node
with the name, exactly the parameter names `p₁ ... pₙ` in source order and
exactly the nodes of those statements in source order; the cursor is left
after the `}`. In particular `def f ( a , b ) { x = 1 ; }` is parsed to a block
holding only that function node with one assignment in its body. -/
theorem parseFunction_shape (tokens pre post : List Token) (defTok nameTok : Token)
    (ps : List Token) (stmts : List (ASTNode × Nat)) (f₀ stop fuel : Nat)
    (htokens : tokens = pre ++ defTok :: nameTok :: ⟨.SYMBOL, "("⟩ ::
      (ps.intersperse ⟨.SYMBOL, ","⟩ ++ ⟨.SYMBOL, ")"⟩ :: ⟨.SYMBOL, "\x7b"⟩ :: post))
    (hdef : defTok.value = "def")
    (hps : ∀ p ∈ ps, p.type = TokenType.IDENTIFIER ∧ isIdentifierLexeme p.value = true)
    (hbody : bodyChain f₀ tokens (pre.length + 3 + (ps.intersperse ⟨.SYMBOL, ","⟩).length + 2)
      stmts stop)
    (hclose : ∃ t, tokens[stop]? = some t ∧ t.value = "\x7d") :
    parseFunction (fuel + f₀ + ps.length + stmts.length + 3) tokens pre.length =
      .ok (.Function nameTok.value (ps.map (fun p => p.value)) (stmts.map (fun s => s.1)),
        stop + 1) ∧
    tokenize "def f ( a , b ) \x7b x = 1 ; \x7d" = some [⟨.KEYWORD, "def"⟩, ⟨.IDENTIFIER, "f"⟩,
      ⟨.SYMBOL, "("⟩, ⟨.IDENTIFIER, "a"⟩, ⟨.SYMBOL, ","⟩, ⟨.IDENTIFIER, "b"⟩, ⟨.SYMBOL, ")"⟩,
      ⟨.SYMBOL, "\x7b"⟩, ⟨.IDENTIFIER, "x"⟩, ⟨.SYMBOL, "="⟩, ⟨.NUMBER, "1"⟩, ⟨.SYMBOL, ";"⟩,
      ⟨.SYMBOL, "\x7d"⟩, ⟨.END_OF_FILE, ""⟩] ∧
    ∀ n, parseStatements (n + 10) [⟨.KEYWORD, "def"⟩, ⟨.IDENTIFIER, "f"⟩,
      ⟨.SYMBOL, "("⟩, ⟨.IDENTIFIER, "a"⟩, ⟨.SYMBOL, ","⟩, ⟨.IDENTIFIER, "b"⟩, ⟨.SYMBOL, ")"⟩,
      ⟨.SYMBOL, "\x7b"⟩, ⟨.IDENTIFIER, "x"⟩, ⟨.SYMBOL, "="⟩, ⟨.NUMBER, "1"⟩, ⟨.SYMBOL, ";"⟩,
      ⟨.SYMBOL, "\x7d"⟩, ⟨.END_OF_FILE, ""⟩] =
        .ok (.Block [.Function "f" ["a", "b"] [.Assignment "x" (.Number 1)]]) := by
  refine ⟨?_, by decide, fun _ => rfl⟩
  have h0 : tokens[pre.length]? = some defTok := by
    rw [htokens, getElem?_append_length]; simp
  have h1 : tokens[pre.length + 1]? = some nameTok := by
    rw [htokens, getElem?_append_add]; simp
  have h2 : tokens[pre.length + 1 + 1]? = some ⟨.SYMBOL, "("⟩ := by
    rw [htokens, Nat.add_assoc, getElem?_append_add]; simp
  have h3 : tokens[pre.length + 3 + (ps.intersperse ⟨.SYMBOL, ","⟩).length]? =
      some ⟨.SYMBOL, ")"⟩ := by
    have := getElem?_after_header pre (ps.intersperse ⟨.SYMBOL, ","⟩)
      (⟨.SYMBOL, ")"⟩ :: ⟨.SYMBOL, "\x7b"⟩ :: post) defTok nameTok ⟨.SYMBOL, "("⟩ 0
    rw [htokens]
    simpa using this
  have h4 : tokens[pre.length + 3 + (ps.intersperse ⟨.SYMBOL, ","⟩).length + 1]? =
      some ⟨.SYMBOL, "\x7b"⟩ := by
    have := getElem?_after_header pre (ps.intersperse ⟨.SYMBOL, ","⟩)
      (⟨.SYMBOL, ")"⟩ :: ⟨.SYMBOL, "\x7b"⟩ :: post) defTok nameTok ⟨.SYMBOL, "("⟩ 1
    rw [htokens]
    simpa using this
  have hparams : parseParameters (fuel + f₀ + ps.length + stmts.length + 2) tokens
      (pre.length + 1 + 1 + 1) [] = .ok (ps.map (fun p => p.value),
        pre.length + 3 + (ps.intersperse ⟨.SYMBOL, ","⟩).length) := by
    have h := parseParameters_commaSeparated ⟨.SYMBOL, ")"⟩ (⟨.SYMBOL, "\x7b"⟩ :: post) rfl ps
      (pre ++ [defTok, nameTok, ⟨.SYMBOL, "("⟩]) [] 0
      (fun p hp => ne_paren_of_isIdentifierLexeme (hps p hp).2)
    simp only [List.append_assoc, List.length_append, List.length_cons, List.length_nil,
      List.cons_append, List.nil_append, Nat.zero_add] at h
    rw [← htokens] at h
    exact parseParameters_of_le (by omega) h
  have hbody' : parseBody (fuel + f₀ + ps.length + stmts.length + 2) tokens
      (pre.length + 3 + (ps.intersperse ⟨.SYMBOL, ","⟩).length + 1 + 1) [] =
        .ok (stmts.map (fun s => s.1), stop) := by
    have h := parseBody_bodyChain f₀ tokens stop hclose stmts _ [] 0 hbody
    simp only [List.nil_append] at h
    exact parseBody_of_le (by omega) h
  obtain ⟨t, ht, hv⟩ := hclose
  rw [parseFunction, expectSymbol_of_getElem? h0 "def" hdef, ok_bind,
    tokenAt_of_getElem? h1, ok_bind]
  simp only [expectSymbol_of_getElem? h2 "(" rfl, ok_bind, hparams,
    expectSymbol_of_getElem? h3 ")" rfl, expectSymbol_of_getElem? h4 "\x7b" rfl, hbody',
    expectSymbol_of_getElem? ht "\x7d" hv]
  rfl

/-- The general statement at the tokens of `def f ( a , b ) { x = 1 ; }`. -/
theorem parseFunction_shape_witness :
    parseFunction 12 [⟨.KEYWORD, "def"⟩, ⟨.IDENTIFIER, "f"⟩,
      ⟨.SYMBOL, "("⟩, ⟨.IDENTIFIER, "a"⟩, ⟨.SYMBOL, ","⟩, ⟨.IDENTIFIER, "b"⟩, ⟨.SYMBOL, ")"⟩,
      ⟨.SYMBOL, "\x7b"⟩, ⟨.IDENTIFIER, "x"⟩, ⟨.SYMBOL, "="⟩, ⟨.NUMBER, "1"⟩, ⟨.SYMBOL, ";"⟩,
      ⟨.SYMBOL, "\x7d"⟩, ⟨.END_OF_FILE, ""⟩] 0 =
      .ok (.Function "f" ["a", "b"] [.Assignment "x" (.Number 1)], 13) :=
  (parseFunction_shape _ [] [⟨.IDENTIFIER, "x"⟩, ⟨.SYMBOL, "="⟩, ⟨.NUMBER, "1"⟩,
      ⟨.SYMBOL, ";"⟩, ⟨.SYMBOL, "\x7d"⟩, ⟨.END_OF_FILE, ""⟩] ⟨.KEYWORD, "def"⟩ ⟨.IDENTIFIER, "f"⟩
    [⟨.IDENTIFIER, "a"⟩, ⟨.IDENTIFIER, "b"⟩] [(.Assignment "x" (.Number 1), 12)] 6 12 0
    rfl rfl (by decide)
    ⟨⟨⟨.IDENTIFIER, "x"⟩, by decide, by decide⟩, rfl, rfl⟩
    ⟨⟨.SYMBOL, "\x7d"⟩, by decide, rfl⟩).1

/-! ## Function calls -/

/-- The argument loop over a chain of comma-separated expressions that ends at
a `)` token. -/
theorem parseArguments_argumentChain (f₀ : Nat) (tokens : List Token) (stop : Nat)
    (hclose : ∃ t, tokens[stop]? = some t ∧ t.value = ")") :
    ∀ (args : List (ASTNode × Nat)) (start : Nat) (arguments : List ASTNode) (fuel : Nat),
      argumentChain f₀ tokens start args stop →
      parseArguments (fuel + f₀ + args.length + 1) tokens start arguments =
        .ok (arguments ++ args.map (fun a => a.1), stop) := by
  obtain ⟨close, hct, hcv⟩ := hclose
  intro args
  induction args with
  | nil =>
    intro start arguments fuel hchain
    have hstart : start = stop := hchain
    subst hstart
    rw [parseArguments, tokenAt_of_getElem? hct, ok_bind]
    simp [hcv]
    rfl
  | cons a tail ih =>
    obtain ⟨node, next⟩ := a
    intro start arguments fuel hchain
    have hlen : fuel + f₀ + ((node, next) :: tail).length + 1 =
        (fuel + f₀ + tail.length + 1) + 1 := by
      simp only [List.length_cons]; omega
    cases tail with
    | nil =>
      obtain ⟨⟨t, ht, hv⟩, hexpr, hnext⟩ := hchain
      subst hnext
      have hexpr' : parseExpression (fuel + f₀ + ([] : List (ASTNode × Nat)).length + 1) tokens
          start = .ok (node, next) := parseExpression_of_le (by omega) hexpr
      have hcomma : close.value ≠ "," := by rw [hcv]; decide
      rw [hlen, parseArguments, tokenAt_of_getElem? ht, ok_bind]
      simp only [hv, ne_eq, not_false_eq_true, if_true, hexpr', ok_bind,
        tokenAt_of_getElem? hct, hcomma, if_false]
      rw [ih next (arguments ++ [node]) fuel rfl]
      simp
    | cons b more =>
      obtain ⟨⟨t, ht, hv⟩, hexpr, ⟨c, hc, hcomma⟩, hmore⟩ := hchain
      have hexpr' : parseExpression (fuel + f₀ + (b :: more).length + 1) tokens start =
          .ok (node, next) := parseExpression_of_le (by omega) hexpr
      rw [hlen, parseArguments, tokenAt_of_getElem? ht, ok_bind]
      simp only [hv, ne_eq, not_false_eq_true, if_true, hexpr', ok_bind,
        tokenAt_of_getElem? hc, hcomma]
      rw [ih (next + 1) (arguments ++ [node]) fuel hmore]
      simp

/-- C10: an IDENTIFIER token followed by `(`, by argument expressions that
`parseExpression` reads one after the other, separated by `,` tokens, and by a
`)` token is parsed by `parsePrimary` to the call node with the identifier as
its name and exactly the nodes of those expressions, in source order, as its
arguments; the cursor is left after the `)`. In particular `f ( 1 , 2 ) ;` is
parsed to a block holding only the call of `f` with the literals 1 and 2. -/
theorem parsePrimary_call (tokens : List Token) (pos : Nat) (name : Token)
    (args : List (ASTNode × Nat)) (f₀ stop fuel : Nat)
    (hname : tokens[pos]? = some name) (hid : name.type = TokenType.IDENTIFIER)
    (hopen : ∃ t, tokens[pos + 1]? = some t ∧ t.value = "(")
    (hargs : argumentChain f₀ tokens (pos + 2) args stop)
    (hclose : ∃ t, tokens[stop]? = some t ∧ t.value = ")") :
    parsePrimary (fuel + f₀ + args.length + 3) tokens pos =
      .ok (.FunctionCall name.value (args.map (fun a => a.1)), stop + 1) ∧
    tokenize "f ( 1 , 2 ) ;" = some [⟨.IDENTIFIER, "f"⟩, ⟨.SYMBOL, "("⟩, ⟨.NUMBER, "1"⟩,
      ⟨.SYMBOL, ","⟩, ⟨.NUMBER, "2"⟩, ⟨.SYMBOL, ")"⟩, ⟨.SYMBOL, ";"⟩, ⟨.END_OF_FILE, ""⟩] ∧
    ∀ n, parseStatements (n + 9) [⟨.IDENTIFIER, "f"⟩, ⟨.SYMBOL, "("⟩, ⟨.NUMBER, "1"⟩,
      ⟨.SYMBOL, ","⟩, ⟨.NUMBER, "2"⟩, ⟨.SYMBOL, ")"⟩, ⟨.SYMBOL, ";"⟩, ⟨.END_OF_FILE, ""⟩] =
        .ok (.Block [.FunctionCall "f" [.Number 1, .Number 2]]) := by
  refine ⟨?_, by decide, fun _ => rfl⟩
  obtain ⟨lp, hlp, hlpv⟩ := hopen
  have hloop : parseArguments (fuel + f₀ + args.length + 1) tokens (pos + 1 + 1) [] =
      .ok (args.map (fun a => a.1), stop) := by
    have h := parseArguments_argumentChain f₀ tokens stop hclose args (pos + 2) [] fuel hargs
    simpa using h
  obtain ⟨close, hct, hcv⟩ := hclose
  have hcall : parsseFuntionCall (fuel + f₀ + args.length + 2) tokens pos name.value =
      .ok (.FunctionCall name.value (args.map (fun a => a.1)), stop + 1) := by
    rw [parsseFuntionCall]
    simp only [expectSymbol_of_getElem? hlp "(" hlpv, ok_bind, hloop,
      expectSymbol_of_getElem? hct ")" hcv]
    rfl
  rw [parsePrimary, tokenAt_of_getElem? hname, ok_bind]
  simp only [hid, if_true, tokenAt_of_getElem? hlp, ok_bind, hlpv, hcall]

/-- The general statement at the tokens of `f ( 1 , 2 ) ;`. -/
theorem parsePrimary_call_witness :
    parsePrimary 7 [⟨.IDENTIFIER, "f"⟩, ⟨.SYMBOL, "("⟩, ⟨.NUMBER, "1"⟩,
      ⟨.SYMBOL, ","⟩, ⟨.NUMBER, "2"⟩, ⟨.SYMBOL, ")"⟩, ⟨.SYMBOL, ";"⟩, ⟨.END_OF_FILE, ""⟩] 0 =
      .ok (.FunctionCall "f" [.Number 1, .Number 2], 6) :=
  (parsePrimary_call [⟨.IDENTIFIER, "f"⟩, ⟨.SYMBOL, "("⟩, ⟨.NUMBER, "1"⟩,
      ⟨.SYMBOL, ","⟩, ⟨.NUMBER, "2"⟩, ⟨.SYMBOL, ")"⟩, ⟨.SYMBOL, ";"⟩, ⟨.END_OF_FILE, ""⟩]
    0 ⟨.IDENTIFIER, "f"⟩ [(.Number 1, 3), (.Number 2, 5)] 2 5 0
    (by decide) rfl ⟨⟨.SYMBOL, "("⟩, by decide, rfl⟩
    ⟨⟨⟨.NUMBER, "1"⟩, by decide, by decide⟩, rfl, ⟨⟨.SYMBOL, ","⟩, by decide, rfl⟩,
      ⟨⟨.NUMBER, "2"⟩, by decide, by decide⟩, rfl, rfl⟩
    ⟨⟨.SYMBOL, ")"⟩, by decide, rfl⟩).1

/-! ## The parser on the unfinished and malformed inputs of the specification -/

/-- A token that no production of `parsePrimary` covers gives the null node,
and the cursor stays where it is. -/
theorem parsePrimary_unexpected (fuel : Nat) (tokens : List Token) (pos : Nat) (t : Token)
    (ht : tokens[pos]? = some t)
    (hkind : t.type = TokenType.SYMBOL ∨ t.type = TokenType.END_OF_FILE ∨
      (t.type = TokenType.KEYWORD ∧ t.value ≠ "int")) :
    parsePrimary (fuel + 1) tokens pos = .ok (.Null, pos) := by
  rw [parsePrimary, tokenAt_of_getElem? ht, ok_bind]
  rcases hkind with h | h | ⟨h, hv⟩
  · simp only [h]
    rfl
  · simp only [h]
    rfl
  · simp only [h, hv, if_false, if_true]
    rfl

/-- At the `;` of `f ( ;` an expression is the null node and no token is
consumed. -/
theorem parseExpression_unterminatedCall (fuel : Nat) :
    parseExpression (fuel + 2) unterminatedCall 2 = .ok (.Null, 2) := rfl

/-- The argument loop of `f ( ;` never leaves the `;`: whatever the fuel, it
is used up. -/
theorem parseArguments_unterminatedCall (fuel : Nat) :
    ∀ arguments, parseArguments fuel unterminatedCall 2 arguments = .error .OutOfFuel := by
  induction fuel with
  | zero => intro arguments; rfl
  | succ n ih =>
    intro arguments
    have ht : tokenAt unterminatedCall 2 = .ok ⟨.SYMBOL, ";"⟩ := rfl
    rw [parseArguments, ht, ok_bind]
    match n, ih with
    | 0, _ => rfl
    | 1, _ => rfl
    | k + 2, ih =>
      simp only [parseExpression_unterminatedCall, ok_bind, ht]
      exact ih _

/-- C2: on the tokens of `int`, of `def` and of `def f (` the parser reads
the token vector at an index equal to or beyond its length, for every amount of
fuel that lets it reach the read. -/
theorem parseStatements_reads_past_sentinel :
    tokenize "int" = some [⟨.KEYWORD, "int"⟩, ⟨.END_OF_FILE, ""⟩] ∧
    (∀ fuel, parseStatements (fuel + 4) [⟨.KEYWORD, "int"⟩, ⟨.END_OF_FILE, ""⟩] =
      .error (.OutOfRange 2)) ∧
    tokenize "def" = some [⟨.KEYWORD, "def"⟩, ⟨.END_OF_FILE, ""⟩] ∧
    (∀ fuel, parseStatements (fuel + 4) [⟨.KEYWORD, "def"⟩, ⟨.END_OF_FILE, ""⟩] =
      .error (.OutOfRange 2)) ∧
    tokenize "def f (" = some [⟨.KEYWORD, "def"⟩, ⟨.IDENTIFIER, "f"⟩, ⟨.SYMBOL, "("⟩,
      ⟨.END_OF_FILE, ""⟩] ∧
    (∀ fuel, parseStatements (fuel + 4) [⟨.KEYWORD, "def"⟩, ⟨.IDENTIFIER, "f"⟩,
      ⟨.SYMBOL, "("⟩, ⟨.END_OF_FILE, ""⟩] = .error (.OutOfRange 4)) :=
  ⟨by decide, fun _ => rfl, by decide, fun _ => rfl, by decide, fun _ => rfl⟩

/-- C3: on the tokens of `f ( ;` the parser does not terminate: the argument
loop repeats without consuming a token, so every amount of fuel is used up. -/
theorem parseStatements_unterminatedCall_diverges :
    tokenize "f ( ;" = some unterminatedCall ∧
    ∀ fuel, parseStatements fuel unterminatedCall = .error .OutOfFuel := by
  refine ⟨by decide, fun fuel => ?_⟩
  match fuel with
  | 0 => rfl
  | 1 => rfl
  | 2 => rfl
  | 3 => rfl
  | 4 => rfl
  | n + 5 =>
    have hcall : parsseFuntionCall (n + 1) unterminatedCall 0 "f" = .error .OutOfFuel := by
      have h1 : expectSymbol unterminatedCall (0 + 1) "(" = .ok 2 := rfl
      rw [parsseFuntionCall, h1, ok_bind, parseArguments_unterminatedCall, error_bind]
    have hprim : parsePrimary (n + 2) unterminatedCall 0 = .error .OutOfFuel := by
      have h0 : tokenAt unterminatedCall 0 = .ok ⟨.IDENTIFIER, "f"⟩ := rfl
      have h1 : tokenAt unterminatedCall (0 + 1) = .ok ⟨.SYMBOL, "("⟩ := rfl
      rw [parsePrimary, h0, ok_bind]
      simp only [if_true, h1, ok_bind, hcall]
    have hexpr : parseExpression (n + 3) unterminatedCall 0 = .error .OutOfFuel := by
      rw [parseExpression, hprim, error_bind]
    have hstmt : parseStatement (n + 4) unterminatedCall 0 = .error .OutOfFuel := by
      have h0 : tokenAt unterminatedCall 0 = .ok ⟨.IDENTIFIER, "f"⟩ := rfl
      rw [parseStatement, h0, ok_bind]
      have : ¬ ("f" = "def") := by decide
      simp only [this, if_false, hexpr, error_bind]
    have h0 : unterminatedCall[0]? = some ⟨.IDENTIFIER, "f"⟩ := rfl
    simp only [parseStatements, parseStatementsLoop, h0]
    simp [hstmt, error_bind]

/-- C4: the tokens of `x = ;` and of `+ ;` are accepted, and the trees returned
hold null nodes: a null assignment value and null operands. -/
theorem parseStatements_returns_null_nodes :
    tokenize "x = ;" = some [⟨.IDENTIFIER, "x"⟩, ⟨.SYMBOL, "="⟩, ⟨.SYMBOL, ";"⟩,
      ⟨.END_OF_FILE, ""⟩] ∧
    (∀ fuel, parseStatements (fuel + 7) [⟨.IDENTIFIER, "x"⟩, ⟨.SYMBOL, "="⟩, ⟨.SYMBOL, ";"⟩,
      ⟨.END_OF_FILE, ""⟩] = .ok (.Block [.Assignment "x" .Null])) ∧
    tokenize "+ ;" = some [⟨.SYMBOL, "+"⟩, ⟨.SYMBOL, ";"⟩, ⟨.END_OF_FILE, ""⟩] ∧
    (∀ fuel, parseStatements (fuel + 7) [⟨.SYMBOL, "+"⟩, ⟨.SYMBOL, ";"⟩,
      ⟨.END_OF_FILE, ""⟩] = .ok (.Block [.BinaryOp "+" .Null .Null])) :=
  ⟨by decide, fun _ => rfl, by decide, fun _ => rfl⟩

/-- C8: the tokenizer splits `<<` into two `<` symbols and the parser compares
one token at a time with `"<<"`, so `a << b ;` is rejected at the first `<`,
where `;` is expected. -/
theorem parseStatements_shift_rejected :
    tokenize "a << b ;" = some [⟨.IDENTIFIER, "a"⟩, ⟨.SYMBOL, "<"⟩, ⟨.SYMBOL, "<"⟩,
      ⟨.IDENTIFIER, "b"⟩, ⟨.SYMBOL, ";"⟩, ⟨.END_OF_FILE, ""⟩] ∧
    (∀ fuel, parseStatements (fuel + 4) [⟨.IDENTIFIER, "a"⟩, ⟨.SYMBOL, "<"⟩, ⟨.SYMBOL, "<"⟩,
      ⟨.IDENTIFIER, "b"⟩, ⟨.SYMBOL, ";"⟩, ⟨.END_OF_FILE, ""⟩] =
        .error (.SyntaxError ";")) ∧
    (∀ fuel, parseStatements (fuel + 5) [⟨.IDENTIFIER, "a"⟩, ⟨.SYMBOL, "<<"⟩,
      ⟨.IDENTIFIER, "b"⟩, ⟨.SYMBOL, ";"⟩, ⟨.END_OF_FILE, ""⟩] =
        .ok (.Block [.BinaryOp "<<" (.Identifier "a") (.Identifier "b")])) :=
  ⟨by decide, fun _ => rfl, fun _ => rfl⟩

/-! ## An unterminated function body -/

/-- A statement that begins at the sentinel is rejected: the null expression is
not followed by `;`. -/
theorem parseStatement_sentinel (fuel : Nat) (tokens : List Token) (pos : Nat)
    (h : tokens[pos]? = some ⟨.END_OF_FILE, ""⟩) :
    parseStatement (fuel + 3) tokens pos = .error (.SyntaxError ";") := by
  have hprim := parsePrimary_unexpected fuel tokens pos _ h (Or.inr (Or.inl rfl))
  have hbin : parseBinaryOp (fuel + 1) tokens pos .Null = .ok (.Null, pos) := by
    rw [parseBinaryOp]
    simp only [h]
    rfl
  have hexpr : parseExpression (fuel + 2) tokens pos = .ok (.Null, pos) := by
    rw [parseExpression, hprim, ok_bind]
    exact hbin
  have hsemi : expectSymbol tokens pos ";" = .error (.SyntaxError ";") := by
    simp only [expectSymbol, tokenAt_of_getElem? h, ok_bind]
    rfl
  rw [parseStatement, tokenAt_of_getElem? h, ok_bind]
  have hdef : ¬ ("" = "def") := by decide
  simp only [hdef, if_false, hexpr, ok_bind, hsemi, error_bind]

/-- The body loop at the sentinel: the sentinel is not `}`, so a statement is
read there, and it is rejected. -/
theorem parseBody_sentinel (fuel : Nat) (tokens : List Token) (pos : Nat)
    (body : List ASTNode) (h : tokens[pos]? = some ⟨.END_OF_FILE, ""⟩) :
    parseBody (fuel + 4) tokens pos body = .error (.SyntaxError ";") := by
  rw [parseBody, tokenAt_of_getElem? h, ok_bind]
  have hclose : ("" : String) ≠ "\x7d" := by decide
  simp only [hclose, ne_eq, not_false_eq_true, if_true, parseStatement_sentinel fuel tokens pos h,
    error_bind]

/-- The body loop over a chain of statements that ends at the sentinel. -/
theorem parseBody_bodyChain_sentinel (f₀ : Nat) (tokens : List Token) (stop : Nat)
    (heof : tokens[stop]? = some ⟨.END_OF_FILE, ""⟩) :
    ∀ (stmts : List (ASTNode × Nat)) (start : Nat) (body : List ASTNode) (fuel : Nat),
      bodyChain f₀ tokens start stmts stop →
      parseBody (fuel + f₀ + stmts.length + 4) tokens start body =
        .error (.SyntaxError ";") := by
  intro stmts
  induction stmts with
  | nil =>
    intro start body fuel hchain
    have hstart : start = stop := hchain
    subst hstart
    exact parseBody_sentinel (fuel + f₀ + 0) tokens start body heof
  | cons s more ih =>
    obtain ⟨node, next⟩ := s
    intro start body fuel hchain
    obtain ⟨⟨t, ht, hv⟩, hstmt, hmore⟩ := hchain
    have hlen : fuel + f₀ + ((node, next) :: more).length + 4 =
        (fuel + f₀ + more.length + 4) + 1 := by
      simp only [List.length_cons]; omega
    have hstmt' : parseStatement (fuel + f₀ + more.length + 4) tokens start = .ok (node, next) :=
      parseStatement_of_le (by omega) hstmt
    rw [hlen, parseBody, tokenAt_of_getElem? ht, ok_bind]
    simp only [hv, ne_eq, not_false_eq_true, if_true, hstmt', ok_bind]
    exact ih next (body ++ [node]) fuel hmore

/-- The steps of `parseFunction` before the body loop, on the tokens
`def name ( p₁ , ... , pₙ ) {`. -/
theorem parseFunction_header (tokens pre post : List Token) (defTok nameTok : Token)
    (ps : List Token) (fuel : Nat)
    (htokens : tokens = pre ++ defTok :: nameTok :: ⟨.SYMBOL, "("⟩ ::
      (ps.intersperse ⟨.SYMBOL, ","⟩ ++ ⟨.SYMBOL, ")"⟩ :: ⟨.SYMBOL, "\x7b"⟩ :: post))
    (hdef : defTok.value = "def") (hps : ∀ p ∈ ps, p.value ≠ ")") :
    parseFunction (fuel + ps.length + 2) tokens pre.length =
      (parseBody (fuel + ps.length + 1) tokens
          (pre.length + 3 + (ps.intersperse ⟨.SYMBOL, ","⟩).length + 2) [] >>= fun r =>
        expectSymbol tokens r.2 "\x7d" >>= fun pos =>
          .ok (.Function nameTok.value (ps.map (fun p => p.value)) r.1, pos)) := by
  have h0 : tokens[pre.length]? = some defTok := by
    rw [htokens, getElem?_append_length]; simp
  have h1 : tokens[pre.length + 1]? = some nameTok := by
    rw [htokens, getElem?_append_add]; simp
  have h2 : tokens[pre.length + 1 + 1]? = some ⟨.SYMBOL, "("⟩ := by
    rw [htokens, Nat.add_assoc, getElem?_append_add]; simp
  have h3 : tokens[pre.length + 3 + (ps.intersperse ⟨.SYMBOL, ","⟩).length]? =
      some ⟨.SYMBOL, ")"⟩ := by
    have := getElem?_after_header pre (ps.intersperse ⟨.SYMBOL, ","⟩)
      (⟨.SYMBOL, ")"⟩ :: ⟨.SYMBOL, "\x7b"⟩ :: post) defTok nameTok ⟨.SYMBOL, "("⟩ 0
    rw [htokens]
    simpa using this
  have h4 : tokens[pre.length + 3 + (ps.intersperse ⟨.SYMBOL, ","⟩).length + 1]? =
      some ⟨.SYMBOL, "\x7b"⟩ := by
    have := getElem?_after_header pre (ps.intersperse ⟨.SYMBOL, ","⟩)
      (⟨.SYMBOL, ")"⟩ :: ⟨.SYMBOL, "\x7b"⟩ :: post) defTok nameTok ⟨.SYMBOL, "("⟩ 1
    rw [htokens]
    simpa using this
  have hparams : parseParameters (fuel + ps.length + 1) tokens
      (pre.length + 1 + 1 + 1) [] = .ok (ps.map (fun p => p.value),
        pre.length + 3 + (ps.intersperse ⟨.SYMBOL, ","⟩).length) := by
    have h := parseParameters_commaSeparated ⟨.SYMBOL, ")"⟩ (⟨.SYMBOL, "\x7b"⟩ :: post) rfl ps
      (pre ++ [defTok, nameTok, ⟨.SYMBOL, "("⟩]) [] fuel hps
    simp only [List.append_assoc, List.length_append, List.length_cons, List.length_nil,
      List.cons_append, List.nil_append, Nat.zero_add] at h
    rw [← htokens] at h
    exact h
  rw [parseFunction, expectSymbol_of_getElem? h0 "def" hdef, ok_bind,
    tokenAt_of_getElem? h1, ok_bind]
  simp only [expectSymbol_of_getElem? h2 "(" rfl, ok_bind, hparams,
    expectSymbol_of_getElem? h3 ")" rfl, expectSymbol_of_getElem? h4 "\x7b" rfl]
  rfl

/-- C11: when the body loop of `parseFunction` stands at the sentinel, having
read any chain of statements after `def name ( p₁ , ... , pₙ ) {` and no `}`,
the parse fails with the syntax error of `expectSymbol` and reads no token
beyond the sentinel; so does the loop at the sentinel from any state. In
particular `def f ( a , b ) { x = 1 ;` is rejected and no tree is returned. -/
theorem parseFunction_unterminated_body (tokens pre post : List Token)
    (defTok nameTok : Token) (ps : List Token) (stmts : List (ASTNode × Nat))
    (f₀ stop fuel : Nat)
    (htokens : tokens = pre ++ defTok :: nameTok :: ⟨.SYMBOL, "("⟩ ::
      (ps.intersperse ⟨.SYMBOL, ","⟩ ++ ⟨.SYMBOL, ")"⟩ :: ⟨.SYMBOL, "\x7b"⟩ :: post))
    (hdef : defTok.value = "def")
    (hps : ∀ p ∈ ps, p.type = TokenType.IDENTIFIER ∧ isIdentifierLexeme p.value = true)
    (hbody : bodyChain f₀ tokens (pre.length + 3 + (ps.intersperse ⟨.SYMBOL, ","⟩).length + 2)
      stmts stop)
    (heof : tokens[stop]? = some ⟨.END_OF_FILE, ""⟩) :
    parseFunction (fuel + f₀ + stmts.length + ps.length + 5) tokens pre.length =
      .error (.SyntaxError ";") ∧
    (∀ (body : List ASTNode) (n : Nat),
      parseBody (n + 4) tokens stop body = .error (.SyntaxError ";")) ∧
    tokenize "def f ( a , b ) \x7b x = 1 ;" = some [⟨.KEYWORD, "def"⟩, ⟨.IDENTIFIER, "f"⟩,
      ⟨.SYMBOL, "("⟩, ⟨.IDENTIFIER, "a"⟩, ⟨.SYMBOL, ","⟩, ⟨.IDENTIFIER, "b"⟩, ⟨.SYMBOL, ")"⟩,
      ⟨.SYMBOL, "\x7b"⟩, ⟨.IDENTIFIER, "x"⟩, ⟨.SYMBOL, "="⟩, ⟨.NUMBER, "1"⟩, ⟨.SYMBOL, ";"⟩,
      ⟨.END_OF_FILE, ""⟩] ∧
    ∀ n, parseStatements (n + 10) [⟨.KEYWORD, "def"⟩, ⟨.IDENTIFIER, "f"⟩,
      ⟨.SYMBOL, "("⟩, ⟨.IDENTIFIER, "a"⟩, ⟨.SYMBOL, ","⟩, ⟨.IDENTIFIER, "b"⟩, ⟨.SYMBOL, ")"⟩,
      ⟨.SYMBOL, "\x7b"⟩, ⟨.IDENTIFIER, "x"⟩, ⟨.SYMBOL, "="⟩, ⟨.NUMBER, "1"⟩, ⟨.SYMBOL, ";"⟩,
      ⟨.END_OF_FILE, ""⟩] = .error (.SyntaxError ";") := by
  refine ⟨?_, fun body n => parseBody_sentinel n tokens stop body heof, by decide,
    fun _ => rfl⟩
  have hhead := parseFunction_header tokens pre post defTok nameTok ps
    (fuel + f₀ + stmts.length + 3) htokens hdef
    (fun p hp => ne_paren_of_isIdentifierLexeme (hps p hp).2)
  have hloop := parseBody_bodyChain_sentinel f₀ tokens stop heof stmts _ []
    (fuel + ps.length) hbody
  have hf : fuel + f₀ + stmts.length + ps.length + 5 =
      fuel + f₀ + stmts.length + 3 + ps.length + 2 := by omega
  have hg : fuel + f₀ + stmts.length + 3 + ps.length + 1 =
      fuel + ps.length + f₀ + stmts.length + 4 := by omega
  rw [hf, hhead, hg, hloop, error_bind]

/-- The general statement at the tokens of `def f ( a , b ) { x = 1 ;`. -/
theorem parseFunction_unterminated_body_witness :
    parseFunction 14 [⟨.KEYWORD, "def"⟩, ⟨.IDENTIFIER, "f"⟩,
      ⟨.SYMBOL, "("⟩, ⟨.IDENTIFIER, "a"⟩, ⟨.SYMBOL, ","⟩, ⟨.IDENTIFIER, "b"⟩, ⟨.SYMBOL, ")"⟩,
      ⟨.SYMBOL, "\x7b"⟩, ⟨.IDENTIFIER, "x"⟩, ⟨.SYMBOL, "="⟩, ⟨.NUMBER, "1"⟩, ⟨.SYMBOL, ";"⟩,
      ⟨.END_OF_FILE, ""⟩] 0 = .error (.SyntaxError ";") :=
  (parseFunction_unterminated_body _ [] [⟨.IDENTIFIER, "x"⟩, ⟨.SYMBOL, "="⟩, ⟨.NUMBER, "1"⟩,
      ⟨.SYMBOL, ";"⟩, ⟨.END_OF_FILE, ""⟩] ⟨.KEYWORD, "def"⟩ ⟨.IDENTIFIER, "f"⟩
    [⟨.IDENTIFIER, "a"⟩, ⟨.IDENTIFIER, "b"⟩] [(.Assignment "x" (.Number 1), 12)] 6 12 0
    rfl rfl (by decide)
    ⟨⟨⟨.IDENTIFIER, "x"⟩, by decide, by decide⟩, rfl, rfl⟩
    (by decide)).1

/-! ## The lookahead of `parsePrimary` and the contract of `expectSymbol` -/

theorem bind_eq_ok {α β : Type} {x : Result α} {f : α → Result β} {r : β}
    (h : (x >>= f) = .ok r) : ∃ a, x = .ok a ∧ f a = .ok r := by
  cases x with
  | error e => cases h
  | ok a => exact ⟨a, rfl, h⟩

/-- A call that returns, returns a call node with the given name. -/
theorem parsseFuntionCall_ok (fuel : Nat) (tokens : List Token) (pos : Nat) (name : String)
    (r : ASTNode × Nat) (h : parsseFuntionCall fuel tokens pos name = .ok r) :
    ∃ arguments, r.1 = .FunctionCall name arguments := by
  cases fuel with
  | zero => cases h
  | succ n =>
    rw [parsseFuntionCall] at h
    obtain ⟨p, _, h⟩ := bind_eq_ok h
    obtain ⟨a, _, h⟩ := bind_eq_ok h
    obtain ⟨q, _, h⟩ := bind_eq_ok h
    cases h
    exact ⟨a.1, rfl⟩

/-- An assignment that returns, returns an assignment node whose target is the
text of the token at the cursor. -/
theorem parseAssignment_ok (fuel : Nat) (tokens : List Token) (pos : Nat) (t : Token)
    (ht : tokens[pos]? = some t) (r : ASTNode × Nat)
    (h : parseAssignment fuel tokens pos = .ok r) :
    ∃ value, r.1 = .Assignment t.value value := by
  cases fuel with
  | zero => cases h
  | succ n =>
    rw [parseAssignment, tokenAt_of_getElem? ht, ok_bind] at h
    obtain ⟨p, _, h⟩ := bind_eq_ok h
    obtain ⟨a, _, h⟩ := bind_eq_ok h
    cases h
    exact ⟨a.1, rfl⟩

/-- The branch of `parsePrimary` at an IDENTIFIER token followed by a token
`next`. -/
theorem parsePrimary_at_identifier (tokens : List Token) (pos : Nat) (t next : Token)
    (fuel : Nat) (ht : tokens[pos]? = some t) (hid : t.type = TokenType.IDENTIFIER)
    (hnext : tokens[pos + 1]? = some next) :
    parsePrimary (fuel + 1) tokens pos =
      if next.value = "(" then parsseFuntionCall fuel tokens pos t.value
      else if next.value = "=" then parseAssignment fuel tokens pos
      else .ok (.Identifier t.value, pos + 1) := by
  have hlt : pos + 1 < tokens.length := by
    rcases Nat.lt_or_ge (pos + 1) tokens.length with h | h
    · exact h
    · rw [List.getElem?_eq_none h] at hnext
      cases hnext
  rw [parsePrimary, tokenAt_of_getElem? ht, ok_bind]
  simp only [hid, if_true, tokenAt_of_getElem? hnext, ok_bind, hlt, true_and]
  rfl

theorem parsePrimary_at_assignment (tokens : List Token) (pos : Nat) (t next : Token)
    (fuel : Nat) (ht : tokens[pos]? = some t) (hid : t.type = TokenType.IDENTIFIER)
    (hnext : tokens[pos + 1]? = some next) (hv : next.value = "=") :
    parsePrimary (fuel + 1) tokens pos = parseAssignment fuel tokens pos := by
  have hne : next.value ≠ "(" := by rw [hv]; decide
  rw [parsePrimary_at_identifier tokens pos t next fuel ht hid hnext, if_neg hne, if_pos hv]

/-- C12: where `parsePrimary` sees an IDENTIFIER token followed by a token
`next`: if the text of `next` is `(` the result is that of the call rule, a
failure or a call node named by the identifier; if it is `=` the result is that
of the assignment rule, a failure or an assignment to the identifier; otherwise
the result is the identifier node and the cursor moves by exactly one. -/
theorem parsePrimary_identifier (tokens : List Token) (pos : Nat) (t next : Token) (fuel : Nat)
    (ht : tokens[pos]? = some t) (hid : t.type = TokenType.IDENTIFIER)
    (hnext : tokens[pos + 1]? = some next) :
    (next.value = "(" →
      parsePrimary (fuel + 1) tokens pos = parsseFuntionCall fuel tokens pos t.value ∧
      ∀ r, parsePrimary (fuel + 1) tokens pos = .ok r →
        ∃ arguments, r.1 = .FunctionCall t.value arguments) ∧
    (next.value = "=" →
      parsePrimary (fuel + 1) tokens pos = parseAssignment fuel tokens pos ∧
      ∀ r, parsePrimary (fuel + 1) tokens pos = .ok r →
        ∃ value, r.1 = .Assignment t.value value) ∧
    (next.value ≠ "(" → next.value ≠ "=" →
      parsePrimary (fuel + 1) tokens pos = .ok (.Identifier t.value, pos + 1)) := by
  have hunfold := parsePrimary_at_identifier tokens pos t next fuel ht hid hnext
  refine ⟨fun h => ?_, fun h => ?_, fun h1 h2 => ?_⟩
  · have heq : parsePrimary (fuel + 1) tokens pos = parsseFuntionCall fuel tokens pos t.value := by
      rw [hunfold, if_pos h]
    exact ⟨heq, fun r hr => parsseFuntionCall_ok fuel tokens pos t.value r (heq ▸ hr)⟩
  · have heq := parsePrimary_at_assignment tokens pos t next fuel ht hid hnext h
    exact ⟨heq, fun r hr => parseAssignment_ok fuel tokens pos t ht r (heq ▸ hr)⟩
  · rw [hunfold, if_neg h1, if_neg h2]

/-- The three cases at the tokens of `f ( ) ;`, of `x = 1 ;` and of `y ;`. -/
theorem parsePrimary_identifier_witness :
    parsePrimary 3 [⟨.IDENTIFIER, "f"⟩, ⟨.SYMBOL, "("⟩, ⟨.SYMBOL, ")"⟩, ⟨.SYMBOL, ";"⟩,
      ⟨.END_OF_FILE, ""⟩] 0 = parsseFuntionCall 2 [⟨.IDENTIFIER, "f"⟩, ⟨.SYMBOL, "("⟩,
      ⟨.SYMBOL, ")"⟩, ⟨.SYMBOL, ";"⟩, ⟨.END_OF_FILE, ""⟩] 0 "f" ∧
    parsePrimary 4 [⟨.IDENTIFIER, "x"⟩, ⟨.SYMBOL, "="⟩, ⟨.NUMBER, "1"⟩, ⟨.SYMBOL, ";"⟩,
      ⟨.END_OF_FILE, ""⟩] 0 = parseAssignment 3 [⟨.IDENTIFIER, "x"⟩, ⟨.SYMBOL, "="⟩,
      ⟨.NUMBER, "1"⟩, ⟨.SYMBOL, ";"⟩, ⟨.END_OF_FILE, ""⟩] 0 ∧
    parsePrimary 1 [⟨.IDENTIFIER, "y"⟩, ⟨.SYMBOL, ";"⟩, ⟨.END_OF_FILE, ""⟩] 0 =
      .ok (.Identifier "y", 1) :=
  ⟨((parsePrimary_identifier [⟨.IDENTIFIER, "f"⟩, ⟨.SYMBOL, "("⟩, ⟨.SYMBOL, ")"⟩,
      ⟨.SYMBOL, ";"⟩, ⟨.END_OF_FILE, ""⟩] 0 ⟨.IDENTIFIER, "f"⟩ ⟨.SYMBOL, "("⟩ 2
      (by decide) rfl (by decide)).1 rfl).1,
    ((parsePrimary_identifier [⟨.IDENTIFIER, "x"⟩, ⟨.SYMBOL, "="⟩, ⟨.NUMBER, "1"⟩,
      ⟨.SYMBOL, ";"⟩, ⟨.END_OF_FILE, ""⟩] 0 ⟨.IDENTIFIER, "x"⟩ ⟨.SYMBOL, "="⟩ 3
      (by decide) rfl (by decide)).2.1 rfl).1,
    (parsePrimary_identifier [⟨.IDENTIFIER, "y"⟩, ⟨.SYMBOL, ";"⟩, ⟨.END_OF_FILE, ""⟩] 0
      ⟨.IDENTIFIER, "y"⟩ ⟨.SYMBOL, ";"⟩ 0 (by decide) rfl (by decide)).2.2
      (by decide) (by decide)⟩

/-- C13: at a cursor inside the token vector `expectSymbol` returns with the
cursor moved by exactly one when the token there has the expected text, and
otherwise throws the syntax error and leaves the cursor where it was. -/
theorem expectSymbol_contract (tokens : List Token) (pos : Nat) (t : Token) (symbol : String)
    (ht : tokens[pos]? = some t) :
    (t.value = symbol →
      expectSymbol tokens pos symbol = .ok (pos + 1) ∧
      expectSymbolCursor tokens pos symbol = pos + 1) ∧
    (t.value ≠ symbol →
      expectSymbol tokens pos symbol = .error (.SyntaxError symbol) ∧
      expectSymbolCursor tokens pos symbol = pos) := by
  constructor
  · intro h
    exact ⟨expectSymbol_of_getElem? ht symbol h, by simp [expectSymbolCursor, ht, h]⟩
  · intro h
    refine ⟨?_, by simp [expectSymbolCursor, ht, h]⟩
    simp only [expectSymbol, tokenAt_of_getElem? ht, ok_bind, h, if_false]
    rfl

/-- The contract at the tokens of `x ;`, expecting `;` at the identifier and at
the semicolon. -/
theorem expectSymbol_contract_witness :
    (expectSymbol [⟨.IDENTIFIER, "x"⟩, ⟨.SYMBOL, ";"⟩, ⟨.END_OF_FILE, ""⟩] 1 ";" = .ok 2 ∧
      expectSymbolCursor [⟨.IDENTIFIER, "x"⟩, ⟨.SYMBOL, ";"⟩, ⟨.END_OF_FILE, ""⟩] 1 ";" = 2) ∧
    (expectSymbol [⟨.IDENTIFIER, "x"⟩, ⟨.SYMBOL, ";"⟩, ⟨.END_OF_FILE, ""⟩] 0 ";" =
        .error (.SyntaxError ";") ∧
      expectSymbolCursor [⟨.IDENTIFIER, "x"⟩, ⟨.SYMBOL, ";"⟩, ⟨.END_OF_FILE, ""⟩] 0 ";" = 0) :=
  ⟨(expectSymbol_contract [⟨.IDENTIFIER, "x"⟩, ⟨.SYMBOL, ";"⟩, ⟨.END_OF_FILE, ""⟩] 1
      ⟨.SYMBOL, ";"⟩ ";" (by decide)).1 rfl,
    (expectSymbol_contract [⟨.IDENTIFIER, "x"⟩, ⟨.SYMBOL, ";"⟩, ⟨.END_OF_FILE, ""⟩] 0
      ⟨.IDENTIFIER, "x"⟩ ";" (by decide)).2 (by decide)⟩

/-! ## Assignments and typed declarations -/

/-- An identifier followed by `=` and an expression is the assignment of the
whole expression to the identifier. -/
theorem parsePrimary_assignment (tokens : List Token) (pos : Nat) (t eq : Token)
    (value : ASTNode) (stop fuel : Nat)
    (ht : tokens[pos]? = some t) (hid : t.type = TokenType.IDENTIFIER)
    (heq : tokens[pos + 1]? = some eq) (hv : eq.value = "=")
    (hexpr : parseExpression fuel tokens (pos + 1 + 1) = .ok (value, stop)) :
    parsePrimary (fuel + 2) tokens pos = .ok (.Assignment t.value value, stop) := by
  rw [parsePrimary_at_assignment tokens pos t eq (fuel + 1) ht hid heq hv,
    parseAssignment, tokenAt_of_getElem? ht, ok_bind]
  simp only [expectSymbol_of_getElem? heq "=" hv, ok_bind, hexpr]
  rfl

/-- The keyword `int` followed by a token, `=` and an expression is the
assignment of the whole expression to the text of that token. -/
theorem parsePrimary_declaration (tokens : List Token) (pos : Nat) (kw t eq : Token)
    (value : ASTNode) (stop fuel : Nat)
    (hkw : tokens[pos]? = some kw) (hk : kw.type = TokenType.KEYWORD) (hint : kw.value = "int")
    (ht : tokens[pos + 1]? = some t)
    (heq : tokens[pos + 1 + 1]? = some eq) (hv : eq.value = "=")
    (hexpr : parseExpression fuel tokens (pos + 1 + 1 + 1) = .ok (value, stop)) :
    parsePrimary (fuel + 1) tokens pos = .ok (.Assignment t.value value, stop) := by
  rw [parsePrimary, tokenAt_of_getElem? hkw, ok_bind]
  simp only [hk, hint, if_true, tokenAt_of_getElem? ht, ok_bind,
    expectSymbol_of_getElem? heq "=" hv, hexpr]
  rfl

/-- C15: the value of an assignment is the whole expression that follows the
`=`: where an IDENTIFIER token is followed by `=` and `parseExpression` reads
the node `value` after it, `parsePrimary` returns the assignment of `value` to
the identifier and leaves the cursor where the expression ends; the same holds
behind the keyword `int`. In particular `x = 10 ;` is parsed to a block of one
assignment of the literal 10 to `x`, and `int x = 10 + 20 ;` to the assignment
of the sum to `x`. -/
theorem parsePrimary_assignment_value :
    (∀ (tokens : List Token) (pos : Nat) (t eq : Token) (value : ASTNode) (stop fuel : Nat),
      tokens[pos]? = some t → t.type = TokenType.IDENTIFIER →
      tokens[pos + 1]? = some eq → eq.value = "=" →
      parseExpression fuel tokens (pos + 2) = .ok (value, stop) →
      parsePrimary (fuel + 2) tokens pos = .ok (.Assignment t.value value, stop)) ∧
    (∀ (tokens : List Token) (pos : Nat) (t eq : Token) (value : ASTNode) (stop fuel : Nat),
      tokens[pos]? = some ⟨.KEYWORD, "int"⟩ → tokens[pos + 1]? = some t →
      t.type = TokenType.IDENTIFIER → tokens[pos + 2]? = some eq → eq.value = "=" →
      parseExpression fuel tokens (pos + 3) = .ok (value, stop) →
      parsePrimary (fuel + 1) tokens pos = .ok (.Assignment t.value value, stop)) ∧
    tokenize "x = 10 ;" = some [⟨.IDENTIFIER, "x"⟩, ⟨.SYMBOL, "="⟩, ⟨.NUMBER, "10"⟩,
      ⟨.SYMBOL, ";"⟩, ⟨.END_OF_FILE, ""⟩] ∧
    (∀ n, parseStatements (n + 7) [⟨.IDENTIFIER, "x"⟩, ⟨.SYMBOL, "="⟩, ⟨.NUMBER, "10"⟩,
      ⟨.SYMBOL, ";"⟩, ⟨.END_OF_FILE, ""⟩] = .ok (.Block [.Assignment "x" (.Number 10)])) ∧
    tokenize "int x = 10 + 20 ;" = some [⟨.KEYWORD, "int"⟩, ⟨.IDENTIFIER, "x"⟩,
      ⟨.SYMBOL, "="⟩, ⟨.NUMBER, "10"⟩, ⟨.SYMBOL, "+"⟩, ⟨.NUMBER, "20"⟩, ⟨.SYMBOL, ";"⟩,
      ⟨.END_OF_FILE, ""⟩] ∧
    (∀ n, parseStatements (n + 7) [⟨.KEYWORD, "int"⟩, ⟨.IDENTIFIER, "x"⟩,
      ⟨.SYMBOL, "="⟩, ⟨.NUMBER, "10"⟩, ⟨.SYMBOL, "+"⟩, ⟨.NUMBER, "20"⟩, ⟨.SYMBOL, ";"⟩,
      ⟨.END_OF_FILE, ""⟩] =
        .ok (.Block [.Assignment "x" (.BinaryOp "+" (.Number 10) (.Number 20))])) :=
  ⟨fun tokens pos t eq value stop fuel ht hid heq hv hexpr =>
      parsePrimary_assignment tokens pos t eq value stop fuel ht hid heq hv hexpr,
    fun tokens pos t eq value stop fuel hkw ht _ heq hv hexpr =>
      parsePrimary_declaration tokens pos _ t eq value stop fuel hkw rfl rfl ht heq hv hexpr,
    by decide, fun _ => rfl, by decide, fun _ => rfl⟩

/-- The general statements at the tokens of `x = 10 ;` and of
`int x = 10 + 20 ;`. -/
theorem parsePrimary_assignment_value_witness :
    parsePrimary 4 [⟨.IDENTIFIER, "x"⟩, ⟨.SYMBOL, "="⟩, ⟨.NUMBER, "10"⟩,
      ⟨.SYMBOL, ";"⟩, ⟨.END_OF_FILE, ""⟩] 0 = .ok (.Assignment "x" (.Number 10), 3) ∧
    parsePrimary 5 [⟨.KEYWORD, "int"⟩, ⟨.IDENTIFIER, "x"⟩,
      ⟨.SYMBOL, "="⟩, ⟨.NUMBER, "10"⟩, ⟨.SYMBOL, "+"⟩, ⟨.NUMBER, "20"⟩, ⟨.SYMBOL, ";"⟩,
      ⟨.END_OF_FILE, ""⟩] 0 =
        .ok (.Assignment "x" (.BinaryOp "+" (.Number 10) (.Number 20)), 6) :=
  ⟨parsePrimary_assignment_value.1 [⟨.IDENTIFIER, "x"⟩, ⟨.SYMBOL, "="⟩, ⟨.NUMBER, "10"⟩,
      ⟨.SYMBOL, ";"⟩, ⟨.END_OF_FILE, ""⟩] 0 ⟨.IDENTIFIER, "x"⟩ ⟨.SYMBOL, "="⟩ (.Number 10) 3 2
      (by decide) rfl (by decide) rfl rfl,
    parsePrimary_assignment_value.2.1 [⟨.KEYWORD, "int"⟩, ⟨.IDENTIFIER, "x"⟩,
      ⟨.SYMBOL, "="⟩, ⟨.NUMBER, "10"⟩, ⟨.SYMBOL, "+"⟩, ⟨.NUMBER, "20"⟩, ⟨.SYMBOL, ";"⟩,
      ⟨.END_OF_FILE, ""⟩] 0 ⟨.IDENTIFIER, "x"⟩ ⟨.SYMBOL, "="⟩
      (.BinaryOp "+" (.Number 10) (.Number 20)) 6 4
      (by decide) (by decide) rfl (by decide) rfl rfl⟩

/-! ## Lexer: symbols and the text of the tokens -/

theorem ispunct_of_isalnum {c : Char} (h : isalnum c = true) : ispunct c = false := by
  cases hp : ispunct c with
  | false => rfl
  | true =>
    obtain ⟨_, h2, h3⟩ := not_others_of_ispunct hp
    simp [isalnum, h2, h3] at h

theorem not_kept_of_isspace {c : Char} (h : isspace c = true) :
    isalnum c = false ∧ ispunct c = false := by
  simp only [isalnum, ispunct, isdigit, isalpha, isspace, Bool.or_eq_true, Bool.and_eq_true,
    decide_eq_true_eq, Bool.or_eq_false_iff, Bool.and_eq_false_iff,
    decide_eq_false_iff_not] at *
  omega

theorem filter_dropWhile_of_neg (p q : Char → Bool) (hpq : ∀ a, q a = true → p a = false) :
    ∀ l : List Char, l.filter p = (l.dropWhile q).filter p
  | [] => rfl
  | a :: l => by
    by_cases hq : q a = true
    · simp [List.dropWhile_cons, hq, List.filter_cons, hpq a hq,
        filter_dropWhile_of_neg p q hpq l]
    · simp [List.dropWhile_cons, hq]

theorem filter_takeWhile_dropWhile (p q : Char → Bool) (hpq : ∀ a, q a = true → p a = true) :
    ∀ l : List Char, l.filter p = l.takeWhile q ++ (l.dropWhile q).filter p
  | [] => rfl
  | a :: l => by
    by_cases hq : q a = true
    · simp [List.dropWhile_cons, List.takeWhile_cons, hq, List.filter_cons, hpq a hq,
        filter_takeWhile_dropWhile p q hpq l]
    · simp [List.dropWhile_cons, List.takeWhile_cons, hq]

theorem ParseIdentifierorKeyword_value (rest : List Char) :
    (ParseIdentifierorKeyword rest).1.value = String.mk (rest.takeWhile isalnum) := by
  unfold ParseIdentifierorKeyword
  dsimp only
  split <;> rfl

theorem ParseIdentifierorKeyword_type (rest : List Char) :
    (ParseIdentifierorKeyword rest).1.type ≠ TokenType.SYMBOL := by
  unfold ParseIdentifierorKeyword
  dsimp only
  split <;> simp

/-- The SYMBOL tokens that the loop pushes are the punctuation characters of
the unread suffix, one token each, in order. -/
theorem scanned_symbols (n : Nat) :
    ∀ rest : List Char, rest.length ≤ n →
      (scanned rest).filter (fun t => t.type = TokenType.SYMBOL) =
        (rest.filter ispunct).map (fun c => ⟨TokenType.SYMBOL, String.mk [c]⟩) := by
  induction n with
  | zero =>
    intro rest h
    have : rest = [] := List.length_eq_zero.mp (Nat.le_zero.mp h)
    subst this
    simp [scanned_nil]
  | succ n ih =>
    intro rest h
    cases rest with
    | nil => simp [scanned_nil]
    | cons c cs =>
      have hcs : cs.length ≤ n := by simpa using h
      by_cases hsp : isspace c = true
      · rw [scanned_skip cs (Or.inl hsp), ih cs hcs]
        simp [List.filter_cons, (not_kept_of_isspace hsp).2]
      by_cases hal : isalpha c = true
      · rw [scanned_alpha cs hal, List.filter_cons]
        simp only [ParseIdentifierorKeyword_type, decide_False, Bool.false_eq_true, if_false]
        rw [ih _ ((length_dropWhile_le _ _).trans hcs), List.filter_cons,
          ispunct_of_isalnum (isalnum_of_isalpha hal)]
        simp only [Bool.false_eq_true, if_false]
        rw [← filter_dropWhile_of_neg ispunct isalnum (fun a => ispunct_of_isalnum) cs]
      by_cases hdg : isdigit c = true
      · rw [scanned_digit cs hdg, List.filter_cons]
        have hty : ¬ ((ParseNumber (c :: cs)).1.type = TokenType.SYMBOL) := by
          simp [ParseNumber]
        simp only [hty, decide_False, Bool.false_eq_true, if_false]
        rw [ih _ ((length_dropWhile_le _ _).trans hcs), List.filter_cons,
          ispunct_of_isalnum (isalnum_of_isdigit hdg)]
        simp only [Bool.false_eq_true, if_false]
        rw [← filter_dropWhile_of_neg ispunct isdigit
          (fun a ha => ispunct_of_isalnum (isalnum_of_isdigit ha)) cs]
      by_cases hpu : ispunct c = true
      · rw [scanned_punct cs hpu, List.filter_cons, ih cs hcs]
        simp [List.filter_cons, hpu]
      · have hpu' : ispunct c = false := by simpa using hpu
        rw [scanned_skip cs (Or.inr ⟨by simpa using hal, by simpa using hdg, hpu'⟩),
          ih cs hcs]
        simp [List.filter_cons, hpu']

/-- C16: every SYMBOL token of an output of `tokenize` has a text of exactly
one character, a punctuation character, and the SYMBOL tokens of the output are
the punctuation characters of the input, one token for each, in order; so `<<`
gives two `<` tokens. -/
theorem tokenize_symbols (s : String) (tokens : List Token) (hs : tokenize s = some tokens) :
    (∀ t ∈ tokens, t.type = TokenType.SYMBOL →
      ∃ c, ispunct c = true ∧ t.value = String.mk [c] ∧ t.value.length = 1) ∧
    tokens.filter (fun t => t.type = TokenType.SYMBOL) =
      (s.data.filter ispunct).map (fun c => ⟨TokenType.SYMBOL, String.mk [c]⟩) ∧
    tokenize "<<" = some [⟨.SYMBOL, "<"⟩, ⟨.SYMBOL, "<"⟩, ⟨.END_OF_FILE, ""⟩] := by
  rw [tokenize_eq_scanned] at hs
  cases hs
  have hfilter : (scanned s.data ++ [(⟨TokenType.END_OF_FILE, ""⟩ : Token)]).filter
      (fun t : Token => decide (t.type = TokenType.SYMBOL)) =
      (s.data.filter ispunct).map (fun c => ⟨TokenType.SYMBOL, String.mk [c]⟩) := by
    rw [List.filter_append, scanned_symbols _ s.data (le_refl _)]
    simp
  refine ⟨?_, hfilter, by decide⟩
  intro t ht hty
  have hmem : t ∈ (scanned s.data ++ [(⟨TokenType.END_OF_FILE, ""⟩ : Token)]).filter
      (fun t : Token => decide (t.type = TokenType.SYMBOL)) := by
    rw [List.mem_filter]
    exact ⟨ht, by simpa using hty⟩
  rw [hfilter, List.mem_map] at hmem
  obtain ⟨c, hc, rfl⟩ := hmem
  exact ⟨c, (List.mem_filter.mp hc).2, rfl, rfl⟩

/-- The statement at the input `<<`. -/
theorem tokenize_symbols_witness :
    [(⟨.SYMBOL, "<"⟩ : Token), ⟨.SYMBOL, "<"⟩, ⟨.END_OF_FILE, ""⟩].filter
        (fun t => t.type = TokenType.SYMBOL) =
      ("<<".data.filter ispunct).map (fun c => ⟨TokenType.SYMBOL, String.mk [c]⟩) :=
  (tokenize_symbols "<<" [⟨.SYMBOL, "<"⟩, ⟨.SYMBOL, "<"⟩, ⟨.END_OF_FILE, ""⟩]
    (by decide)).2.1

/-- The texts of the tokens that the loop pushes, put together, are the
letters, digits and punctuation characters of the unread suffix. -/
theorem scanned_text (n : Nat) :
    ∀ rest : List Char, rest.length ≤ n →
      ((scanned rest).map (fun t => t.value.data)).flatten =
        rest.filter (fun c => isalnum c || ispunct c) := by
  induction n with
  | zero =>
    intro rest h
    have : rest = [] := List.length_eq_zero.mp (Nat.le_zero.mp h)
    subst this
    simp [scanned_nil]
  | succ n ih =>
    intro rest h
    cases rest with
    | nil => simp [scanned_nil]
    | cons c cs =>
      have hcs : cs.length ≤ n := by simpa using h
      by_cases hsp : isspace c = true
      · rw [scanned_skip cs (Or.inl hsp), ih cs hcs]
        simp [List.filter_cons, (not_kept_of_isspace hsp).1, (not_kept_of_isspace hsp).2]
      by_cases hal : isalpha c = true
      · have hc : isalnum c = true := isalnum_of_isalpha hal
        rw [scanned_alpha cs hal, List.map_cons, List.flatten_cons,
          ih _ ((length_dropWhile_le _ _).trans hcs), ParseIdentifierorKeyword_value]
        simp only [List.takeWhile_cons, hc, if_true, List.filter_cons, Bool.true_or,
          List.cons_append]
        rw [filter_takeWhile_dropWhile (fun c => isalnum c || ispunct c) isalnum
          (fun a ha => by simp [ha]) cs]
      by_cases hdg : isdigit c = true
      · have hc : isalnum c = true := isalnum_of_isdigit hdg
        rw [scanned_digit cs hdg, List.map_cons, List.flatten_cons,
          ih _ ((length_dropWhile_le _ _).trans hcs)]
        simp only [ParseNumber, List.takeWhile_cons, hdg, if_true, List.filter_cons, hc,
          Bool.true_or, List.cons_append]
        rw [filter_takeWhile_dropWhile (fun c => isalnum c || ispunct c) isdigit
          (fun a ha => by simp [isalnum_of_isdigit ha]) cs]
      by_cases hpu : ispunct c = true
      · rw [scanned_punct cs hpu, List.map_cons, List.flatten_cons, ih cs hcs]
        simp [List.filter_cons, hpu]
      · have hpu' : ispunct c = false := by simpa using hpu
        have hal' : isalpha c = false := by simpa using hal
        have hdg' : isdigit c = false := by simpa using hdg
        rw [scanned_skip cs (Or.inr ⟨hal', hdg', hpu'⟩), ih cs hcs]
        simp [List.filter_cons, hpu', isalnum, hal', hdg']

/-- C19: the texts of the tokens of `tokenize s`, put together in order, are
`s` without the characters that are neither letters, digits nor punctuation:
nothing else is lost, doubled or moved. -/
theorem tokenize_text (s : String) (tokens : List Token) (hs : tokenize s = some tokens) :
    (tokens.map (fun t => t.value.data)).flatten =
      s.data.filter (fun c => isalnum c || ispunct c) := by
  rw [tokenize_eq_scanned] at hs
  cases hs
  rw [List.map_append, List.flatten_append, scanned_text _ s.data (le_refl _)]
  simp

/-- The statement at the input of the `main` of `lexer.cpp`. -/
theorem tokenize_text_witness :
    "intx=10+20;if(x>10)returnx;".data =
      "int x = 10 + 20; if (x > 10) return x;".data.filter
        (fun c => isalnum c || ispunct c) :=
  tokenize_text "int x = 10 + 20; if (x > 10) return x;"
    [⟨.KEYWORD, "int"⟩, ⟨.IDENTIFIER, "x"⟩, ⟨.SYMBOL, "="⟩, ⟨.NUMBER, "10"⟩, ⟨.SYMBOL, "+"⟩,
      ⟨.NUMBER, "20"⟩, ⟨.SYMBOL, ";"⟩, ⟨.KEYWORD, "if"⟩, ⟨.SYMBOL, "("⟩, ⟨.IDENTIFIER, "x"⟩,
      ⟨.SYMBOL, ">"⟩, ⟨.NUMBER, "10"⟩, ⟨.SYMBOL, ")"⟩, ⟨.KEYWORD, "return"⟩,
      ⟨.IDENTIFIER, "x"⟩, ⟨.SYMBOL, ";"⟩, ⟨.END_OF_FILE, ""⟩] (by decide)

/-! ## Separators and names as the code reads them -/

/-- The argument loop over a chain of expressions with or without commas that
ends at a `)` token. -/
theorem parseArguments_looseArgumentChain (f₀ : Nat) (tokens : List Token) (stop : Nat)
    (hclose : ∃ t, tokens[stop]? = some t ∧ t.value = ")") :
    ∀ (args : List (ASTNode × Nat)) (start : Nat) (arguments : List ASTNode) (fuel : Nat),
      looseArgumentChain f₀ tokens start args stop →
      parseArguments (fuel + f₀ + args.length + 1) tokens start arguments =
        .ok (arguments ++ args.map (fun a => a.1), stop) := by
  obtain ⟨close, hct, hcv⟩ := hclose
  intro args
  induction args with
  | nil =>
    intro start arguments fuel hchain
    have hstart : start = stop := hchain
    subst hstart
    rw [parseArguments, tokenAt_of_getElem? hct, ok_bind]
    simp [hcv]
    rfl
  | cons a tail ih =>
    obtain ⟨node, next⟩ := a
    intro start arguments fuel hchain
    obtain ⟨⟨t, ht, hv⟩, hexpr, sep, hsep, hmore⟩ := hchain
    have hlen : fuel + f₀ + ((node, next) :: tail).length + 1 =
        (fuel + f₀ + tail.length + 1) + 1 := by
      simp only [List.length_cons]; omega
    have hexpr' : parseExpression (fuel + f₀ + tail.length + 1) tokens start =
        .ok (node, next) := parseExpression_of_le (by omega) hexpr
    rw [hlen, parseArguments, tokenAt_of_getElem? ht, ok_bind]
    simp only [hv, ne_eq, not_false_eq_true, if_true, hexpr', ok_bind,
      tokenAt_of_getElem? hsep]
    by_cases hcomma : sep.value = ","
    · rw [if_pos hcomma] at hmore ⊢
      rw [ih (next + 1) (arguments ++ [node]) fuel hmore]
      simp
    · rw [if_neg hcomma] at hmore ⊢
      rw [ih next (arguments ++ [node]) fuel hmore]
      simp

/-- C17 (as the code has it): an IDENTIFIER token followed by `(`, by argument
expressions each of which may or may not be followed by one `,` token, and by a
`)` token is accepted and parsed to the call node with those arguments in
order: a `,` between two arguments is skipped when it is there and is not asked
for, and a `,` after the last argument is skipped too. In particular
`f ( 1 2 ) ;` and `f ( 1 , ) ;` are accepted. -/
theorem parsePrimary_call_loose (tokens : List Token) (pos : Nat) (name : Token)
    (args : List (ASTNode × Nat)) (f₀ stop fuel : Nat)
    (hname : tokens[pos]? = some name) (hid : name.type = TokenType.IDENTIFIER)
    (hopen : ∃ t, tokens[pos + 1]? = some t ∧ t.value = "(")
    (hargs : looseArgumentChain f₀ tokens (pos + 2) args stop)
    (hclose : ∃ t, tokens[stop]? = some t ∧ t.value = ")") :
    parsePrimary (fuel + f₀ + args.length + 3) tokens pos =
      .ok (.FunctionCall name.value (args.map (fun a => a.1)), stop + 1) ∧
    (∀ n, parseStatements (n + 9) [⟨.IDENTIFIER, "f"⟩, ⟨.SYMBOL, "("⟩, ⟨.NUMBER, "1"⟩,
      ⟨.NUMBER, "2"⟩, ⟨.SYMBOL, ")"⟩, ⟨.SYMBOL, ";"⟩, ⟨.END_OF_FILE, ""⟩] =
        .ok (.Block [.FunctionCall "f" [.Number 1, .Number 2]])) ∧
    (∀ n, parseStatements (n + 9) [⟨.IDENTIFIER, "f"⟩, ⟨.SYMBOL, "("⟩, ⟨.NUMBER, "1"⟩,
      ⟨.SYMBOL, ","⟩, ⟨.SYMBOL, ")"⟩, ⟨.SYMBOL, ";"⟩, ⟨.END_OF_FILE, ""⟩] =
        .ok (.Block [.FunctionCall "f" [.Number 1]])) := by
  refine ⟨?_, fun _ => rfl, fun _ => rfl⟩
  obtain ⟨lp, hlp, hlpv⟩ := hopen
  have hloop : parseArguments (fuel + f₀ + args.length + 1) tokens (pos + 1 + 1) [] =
      .ok (args.map (fun a => a.1), stop) := by
    have h := parseArguments_looseArgumentChain f₀ tokens stop hclose args (pos + 2) [] fuel
      hargs
    simpa using h
  obtain ⟨close, hct, hcv⟩ := hclose
  have hcall : parsseFuntionCall (fuel + f₀ + args.length + 2) tokens pos name.value =
      .ok (.FunctionCall name.value (args.map (fun a => a.1)), stop + 1) := by
    rw [parsseFuntionCall]
    simp only [expectSymbol_of_getElem? hlp "(" hlpv, ok_bind, hloop,
      expectSymbol_of_getElem? hct ")" hcv]
    rfl
  rw [parsePrimary, tokenAt_of_getElem? hname, ok_bind]
  simp only [hid, if_true, tokenAt_of_getElem? hlp, ok_bind, hlpv, hcall]

/-- The general statement at the tokens of `f ( 1 2 ) ;`. -/
theorem parsePrimary_call_loose_witness :
    parsePrimary 7 [⟨.IDENTIFIER, "f"⟩, ⟨.SYMBOL, "("⟩, ⟨.NUMBER, "1"⟩,
      ⟨.NUMBER, "2"⟩, ⟨.SYMBOL, ")"⟩, ⟨.SYMBOL, ";"⟩, ⟨.END_OF_FILE, ""⟩] 0 =
      .ok (.FunctionCall "f" [.Number 1, .Number 2], 5) :=
  (parsePrimary_call_loose [⟨.IDENTIFIER, "f"⟩, ⟨.SYMBOL, "("⟩, ⟨.NUMBER, "1"⟩,
      ⟨.NUMBER, "2"⟩, ⟨.SYMBOL, ")"⟩, ⟨.SYMBOL, ";"⟩, ⟨.END_OF_FILE, ""⟩]
    0 ⟨.IDENTIFIER, "f"⟩ [(.Number 1, 3), (.Number 2, 4)] 2 4 0
    (by decide) rfl ⟨⟨.SYMBOL, "("⟩, by decide, rfl⟩
    ⟨⟨⟨.NUMBER, "1"⟩, by decide, by decide⟩, rfl, ⟨.NUMBER, "2"⟩, by decide,
      ⟨⟨.NUMBER, "2"⟩, by decide, by decide⟩, rfl, ⟨.SYMBOL, ")"⟩, by decide, rfl⟩
    ⟨⟨.SYMBOL, ")"⟩, by decide, rfl⟩).1

/-- C17 (as stated) fails: the tokens of `f ( 1 2 ) ;` and of `f ( 1 , ) ;` are
not rejected; the parse returns the call with two arguments and the call with
one argument. -/
theorem parseStatements_missing_or_trailing_comma :
    tokenize "f ( 1 2 ) ;" = some [⟨.IDENTIFIER, "f"⟩, ⟨.SYMBOL, "("⟩, ⟨.NUMBER, "1"⟩,
      ⟨.NUMBER, "2"⟩, ⟨.SYMBOL, ")"⟩, ⟨.SYMBOL, ";"⟩, ⟨.END_OF_FILE, ""⟩] ∧
    tokenize "f ( 1 , ) ;" = some [⟨.IDENTIFIER, "f"⟩, ⟨.SYMBOL, "("⟩, ⟨.NUMBER, "1"⟩,
      ⟨.SYMBOL, ","⟩, ⟨.SYMBOL, ")"⟩, ⟨.SYMBOL, ";"⟩, ⟨.END_OF_FILE, ""⟩] ∧
    ∀ n symbol,
      parseStatements (n + 9) [⟨.IDENTIFIER, "f"⟩, ⟨.SYMBOL, "("⟩, ⟨.NUMBER, "1"⟩,
        ⟨.NUMBER, "2"⟩, ⟨.SYMBOL, ")"⟩, ⟨.SYMBOL, ";"⟩, ⟨.END_OF_FILE, ""⟩] ≠
          .error (.SyntaxError symbol) ∧
      parseStatements (n + 9) [⟨.IDENTIFIER, "f"⟩, ⟨.SYMBOL, "("⟩, ⟨.NUMBER, "1"⟩,
        ⟨.SYMBOL, ","⟩, ⟨.SYMBOL, ")"⟩, ⟨.SYMBOL, ";"⟩, ⟨.END_OF_FILE, ""⟩] ≠
          .error (.SyntaxError symbol) := by
  refine ⟨by decide, by decide, fun n symbol => ⟨?_, ?_⟩⟩
  · have h : parseStatements (n + 9) [⟨.IDENTIFIER, "f"⟩, ⟨.SYMBOL, "("⟩, ⟨.NUMBER, "1"⟩,
        ⟨.NUMBER, "2"⟩, ⟨.SYMBOL, ")"⟩, ⟨.SYMBOL, ";"⟩, ⟨.END_OF_FILE, ""⟩] =
        .ok (.Block [.FunctionCall "f" [.Number 1, .Number 2]]) := rfl
    rw [h]
    exact fun h' => nomatch h'
  · have h : parseStatements (n + 9) [⟨.IDENTIFIER, "f"⟩, ⟨.SYMBOL, "("⟩, ⟨.NUMBER, "1"⟩,
        ⟨.SYMBOL, ","⟩, ⟨.SYMBOL, ")"⟩, ⟨.SYMBOL, ";"⟩, ⟨.END_OF_FILE, ""⟩] =
        .ok (.Block [.FunctionCall "f" [.Number 1]]) := rfl
    rw [h]
    exact fun h' => nomatch h'

/-- A function definition that returns, returns a function node named by the
text of the token after `def`. -/
theorem parseFunction_ok_name (fuel : Nat) (tokens : List Token) (pos : Nat)
    (defTok nameTok : Token) (hd : tokens[pos]? = some defTok) (hdef : defTok.value = "def")
    (hn : tokens[pos + 1]? = some nameTok) (r : ASTNode × Nat)
    (h : parseFunction fuel tokens pos = .ok r) :
    ∃ parameters body, r.1 = .Function nameTok.value parameters body := by
  cases fuel with
  | zero => cases h
  | succ n =>
    rw [parseFunction, expectSymbol_of_getElem? hd "def" hdef, ok_bind,
      tokenAt_of_getElem? hn, ok_bind] at h
    obtain ⟨p1, _, h⟩ := bind_eq_ok h
    obtain ⟨ps, _, h⟩ := bind_eq_ok h
    obtain ⟨p2, _, h⟩ := bind_eq_ok h
    obtain ⟨p3, _, h⟩ := bind_eq_ok h
    obtain ⟨b, _, h⟩ := bind_eq_ok h
    obtain ⟨p4, _, h⟩ := bind_eq_ok h
    cases h
    exact ⟨ps.1, b.1, rfl⟩

/-- One iteration of the parameter loop at a token that is not `)`: its text is
recorded whatever its kind, and the token after it is skipped when it is a
`,`. -/
theorem parseParameters_step (fuel : Nat) (tokens : List Token) (pos : Nat) (t next : Token)
    (parameters : List String) (ht : tokens[pos]? = some t) (hv : t.value ≠ ")")
    (hnext : tokens[pos + 1]? = some next) :
    parseParameters (fuel + 1) tokens pos parameters =
      parseParameters fuel tokens (if next.value = "," then pos + 2 else pos + 1)
        (parameters ++ [t.value]) := by
  rw [parseParameters, tokenAt_of_getElem? ht, ok_bind]
  simp only [hv, ne_eq, not_false_eq_true, if_true, tokenAt_of_getElem? hnext, ok_bind]
  split <;> rfl

/-- C18 (as the code has it): names are the texts of the tokens found at the
name positions, whatever their kind. The target of a typed declaration is the
text of the token after `int`; the name of a function is the text of the token
after `def`; every token of the parameter list that is not `)` gives its text
as a parameter name, and a `,` after it is skipped when it is there. In
particular `def 1 ( 2 ) { }`, `def f ( a b ) { }` and `int 5 = 3 ;` are
accepted. -/
theorem names_are_token_texts :
    (∀ (tokens : List Token) (pos : Nat) (t eq : Token) (value : ASTNode) (stop fuel : Nat),
      tokens[pos]? = some ⟨.KEYWORD, "int"⟩ → tokens[pos + 1]? = some t →
      tokens[pos + 2]? = some eq → eq.value = "=" →
      parseExpression fuel tokens (pos + 3) = .ok (value, stop) →
      parsePrimary (fuel + 1) tokens pos = .ok (.Assignment t.value value, stop)) ∧
    (∀ (tokens : List Token) (pos : Nat) (defTok nameTok : Token) (fuel : Nat)
      (r : ASTNode × Nat),
      tokens[pos]? = some defTok → defTok.value = "def" → tokens[pos + 1]? = some nameTok →
      parseFunction fuel tokens pos = .ok r →
      ∃ parameters body, r.1 = .Function nameTok.value parameters body) ∧
    (∀ (tokens : List Token) (pos : Nat) (t next : Token) (parameters : List String)
      (fuel : Nat),
      tokens[pos]? = some t → t.value ≠ ")" → tokens[pos + 1]? = some next →
      parseParameters (fuel + 1) tokens pos parameters =
        parseParameters fuel tokens (if next.value = "," then pos + 2 else pos + 1)
          (parameters ++ [t.value])) ∧
    (∀ n, parseStatements (n + 7) [⟨.KEYWORD, "def"⟩, ⟨.NUMBER, "1"⟩, ⟨.SYMBOL, "("⟩,
      ⟨.NUMBER, "2"⟩, ⟨.SYMBOL, ")"⟩, ⟨.SYMBOL, "\x7b"⟩, ⟨.SYMBOL, "\x7d"⟩,
      ⟨.END_OF_FILE, ""⟩] = .ok (.Block [.Function "1" ["2"] []])) ∧
    (∀ n, parseStatements (n + 7) [⟨.KEYWORD, "def"⟩, ⟨.IDENTIFIER, "f"⟩, ⟨.SYMBOL, "("⟩,
      ⟨.IDENTIFIER, "a"⟩, ⟨.IDENTIFIER, "b"⟩, ⟨.SYMBOL, ")"⟩, ⟨.SYMBOL, "\x7b"⟩,
      ⟨.SYMBOL, "\x7d"⟩, ⟨.END_OF_FILE, ""⟩] = .ok (.Block [.Function "f" ["a", "b"] []])) ∧
    (∀ n, parseStatements (n + 7) [⟨.KEYWORD, "int"⟩, ⟨.NUMBER, "5"⟩, ⟨.SYMBOL, "="⟩,
      ⟨.NUMBER, "3"⟩, ⟨.SYMBOL, ";"⟩, ⟨.END_OF_FILE, ""⟩] =
        .ok (.Block [.Assignment "5" (.Number 3)])) :=
  ⟨fun tokens pos t eq value stop fuel hkw ht heq hv hexpr =>
      parsePrimary_declaration tokens pos _ t eq value stop fuel hkw rfl rfl ht heq hv hexpr,
    fun tokens pos defTok nameTok fuel r hd hdef hn h =>
      parseFunction_ok_name fuel tokens pos defTok nameTok hd hdef hn r h,
    fun tokens pos t next parameters fuel ht hv hnext =>
      parseParameters_step fuel tokens pos t next parameters ht hv hnext,
    fun _ => rfl, fun _ => rfl, fun _ => rfl⟩

/-- The general statements at the tokens of `int 5 = 3 ;` and of
`def 1 ( 2 ) { }`. -/
theorem names_are_token_texts_witness :
    parsePrimary 3 [⟨.KEYWORD, "int"⟩, ⟨.NUMBER, "5"⟩, ⟨.SYMBOL, "="⟩,
      ⟨.NUMBER, "3"⟩, ⟨.SYMBOL, ";"⟩, ⟨.END_OF_FILE, ""⟩] 0 =
      .ok (.Assignment "5" (.Number 3), 4) ∧
    (∃ parameters body, ASTNode.Function "1" ["2"] [] = .Function "1" parameters body) ∧
    parseParameters 3 [⟨.KEYWORD, "def"⟩, ⟨.NUMBER, "1"⟩, ⟨.SYMBOL, "("⟩,
      ⟨.NUMBER, "2"⟩, ⟨.SYMBOL, ")"⟩, ⟨.SYMBOL, "\x7b"⟩, ⟨.SYMBOL, "\x7d"⟩,
      ⟨.END_OF_FILE, ""⟩] 3 [] =
      parseParameters 2 [⟨.KEYWORD, "def"⟩, ⟨.NUMBER, "1"⟩, ⟨.SYMBOL, "("⟩,
      ⟨.NUMBER, "2"⟩, ⟨.SYMBOL, ")"⟩, ⟨.SYMBOL, "\x7b"⟩, ⟨.SYMBOL, "\x7d"⟩,
      ⟨.END_OF_FILE, ""⟩] 4 ["2"] :=
  ⟨names_are_token_texts.1 [⟨.KEYWORD, "int"⟩, ⟨.NUMBER, "5"⟩, ⟨.SYMBOL, "="⟩,
      ⟨.NUMBER, "3"⟩, ⟨.SYMBOL, ";"⟩, ⟨.END_OF_FILE, ""⟩] 0 ⟨.NUMBER, "5"⟩ ⟨.SYMBOL, "="⟩
      (.Number 3) 4 2 (by decide) (by decide) (by decide) rfl rfl,
    names_are_token_texts.2.1 [⟨.KEYWORD, "def"⟩, ⟨.NUMBER, "1"⟩, ⟨.SYMBOL, "("⟩,
      ⟨.NUMBER, "2"⟩, ⟨.SYMBOL, ")"⟩, ⟨.SYMBOL, "\x7b"⟩, ⟨.SYMBOL, "\x7d"⟩,
      ⟨.END_OF_FILE, ""⟩] 0 ⟨.KEYWORD, "def"⟩ ⟨.NUMBER, "1"⟩ 3
      (.Function "1" ["2"] [], 7) (by decide) rfl (by decide) rfl,
    names_are_token_texts.2.2.1 [⟨.KEYWORD, "def"⟩, ⟨.NUMBER, "1"⟩, ⟨.SYMBOL, "("⟩,
      ⟨.NUMBER, "2"⟩, ⟨.SYMBOL, ")"⟩, ⟨.SYMBOL, "\x7b"⟩, ⟨.SYMBOL, "\x7d"⟩,
      ⟨.END_OF_FILE, ""⟩] 3 ⟨.NUMBER, "2"⟩ ⟨.SYMBOL, ")"⟩ [] 2
      (by decide) (by decide) (by decide)⟩

/-- C18 (as stated) fails: the tokens of `def 1 ( 2 ) { }`, of
`def f ( a b ) { }` and of `int 5 = 3 ;` are not rejected; the parse returns a
function named `1`, a function with the parameters `a` and `b`, and an
assignment to `5`. -/
theorem parseStatements_names_not_checked :
    tokenize "def 1 ( 2 ) \x7b \x7d" = some [⟨.KEYWORD, "def"⟩, ⟨.NUMBER, "1"⟩,
      ⟨.SYMBOL, "("⟩, ⟨.NUMBER, "2"⟩, ⟨.SYMBOL, ")"⟩, ⟨.SYMBOL, "\x7b"⟩, ⟨.SYMBOL, "\x7d"⟩,
      ⟨.END_OF_FILE, ""⟩] ∧
    tokenize "def f ( a b ) \x7b \x7d" = some [⟨.KEYWORD, "def"⟩, ⟨.IDENTIFIER, "f"⟩,
      ⟨.SYMBOL, "("⟩, ⟨.IDENTIFIER, "a"⟩, ⟨.IDENTIFIER, "b"⟩, ⟨.SYMBOL, ")"⟩,
      ⟨.SYMBOL, "\x7b"⟩, ⟨.SYMBOL, "\x7d"⟩, ⟨.END_OF_FILE, ""⟩] ∧
    tokenize "int 5 = 3 ;" = some [⟨.KEYWORD, "int"⟩, ⟨.NUMBER, "5"⟩, ⟨.SYMBOL, "="⟩,
      ⟨.NUMBER, "3"⟩, ⟨.SYMBOL, ";"⟩, ⟨.END_OF_FILE, ""⟩] ∧
    ∀ n symbol,
      parseStatements (n + 7) [⟨.KEYWORD, "def"⟩, ⟨.NUMBER, "1"⟩, ⟨.SYMBOL, "("⟩,
        ⟨.NUMBER, "2"⟩, ⟨.SYMBOL, ")"⟩, ⟨.SYMBOL, "\x7b"⟩, ⟨.SYMBOL, "\x7d"⟩,
        ⟨.END_OF_FILE, ""⟩] ≠ .error (.SyntaxError symbol) ∧
      parseStatements (n + 7) [⟨.KEYWORD, "def"⟩, ⟨.IDENTIFIER, "f"⟩, ⟨.SYMBOL, "("⟩,
        ⟨.IDENTIFIER, "a"⟩, ⟨.IDENTIFIER, "b"⟩, ⟨.SYMBOL, ")"⟩, ⟨.SYMBOL, "\x7b"⟩,
        ⟨.SYMBOL, "\x7d"⟩, ⟨.END_OF_FILE, ""⟩] ≠ .error (.SyntaxError symbol) ∧
      parseStatements (n + 7) [⟨.KEYWORD, "int"⟩, ⟨.NUMBER, "5"⟩, ⟨.SYMBOL, "="⟩,
        ⟨.NUMBER, "3"⟩, ⟨.SYMBOL, ";"⟩, ⟨.END_OF_FILE, ""⟩] ≠
          .error (.SyntaxError symbol) := by
  refine ⟨by decide, by decide, by decide, fun n symbol => ⟨?_, ?_, ?_⟩⟩
  · have h : parseStatements (n + 7) [⟨.KEYWORD, "def"⟩, ⟨.NUMBER, "1"⟩, ⟨.SYMBOL, "("⟩,
        ⟨.NUMBER, "2"⟩, ⟨.SYMBOL, ")"⟩, ⟨.SYMBOL, "\x7b"⟩, ⟨.SYMBOL, "\x7d"⟩,
        ⟨.END_OF_FILE, ""⟩] = .ok (.Block [.Function "1" ["2"] []]) := rfl
    rw [h]
    exact fun h' => nomatch h'
  · have h : parseStatements (n + 7) [⟨.KEYWORD, "def"⟩, ⟨.IDENTIFIER, "f"⟩, ⟨.SYMBOL, "("⟩,
        ⟨.IDENTIFIER, "a"⟩, ⟨.IDENTIFIER, "b"⟩, ⟨.SYMBOL, ")"⟩, ⟨.SYMBOL, "\x7b"⟩,
        ⟨.SYMBOL, "\x7d"⟩, ⟨.END_OF_FILE, ""⟩] = .ok (.Block [.Function "f" ["a", "b"] []]) :=
      rfl
    rw [h]
    exact fun h' => nomatch h'
  · have h : parseStatements (n + 7) [⟨.KEYWORD, "int"⟩, ⟨.NUMBER, "5"⟩, ⟨.SYMBOL, "="⟩,
        ⟨.NUMBER, "3"⟩, ⟨.SYMBOL, ";"⟩, ⟨.END_OF_FILE, ""⟩] =
        .ok (.Block [.Assignment "5" (.Number 3)]) := rfl
    rw [h]
    exact fun h' => nomatch h'

/-! ## The parser does not look behind the cursor -/

theorem shift_bind_value {α β : Type} {k : Nat} {x x' : Result α}
    {f f' : α → Result (β × Nat)} (hx : x' = shiftValue k x)
    (hf : ∀ a, f' a = shiftResult k (f a)) :
    (x' >>= f') = shiftResult k (x >>= f) := by
  subst hx
  cases x with
  | error e => rfl
  | ok a => exact hf a

theorem shift_bind_cursor {β : Type} {k : Nat} {x x' : Result Nat}
    {f f' : Nat → Result (β × Nat)} (hx : x' = shiftCursor k x)
    (hf : ∀ p, f' (p + k) = shiftResult k (f p)) :
    (x' >>= f') = shiftResult k (x >>= f) := by
  subst hx
  cases x with
  | error e => rfl
  | ok a => exact hf a

theorem shift_bind_result {α β : Type} {k : Nat} {x x' : Result (α × Nat)}
    {f f' : α × Nat → Result (β × Nat)} (hx : x' = shiftResult k x)
    (hf : ∀ a p, f' (a, p + k) = shiftResult k (f (a, p))) :
    (x' >>= f') = shiftResult k (x >>= f) := by
  subst hx
  cases x with
  | error e => rfl
  | ok a =>
    obtain ⟨a, p⟩ := a
    exact hf a p

theorem shift_ite {α : Type} {k : Nat} {c c' : Prop} [Decidable c] [Decidable c']
    {a a' b b' : Result (α × Nat)} (hc : c' ↔ c) (ha : a' = shiftResult k a)
    (hb : b' = shiftResult k b) :
    (if c' then a' else b') = shiftResult k (if c then a else b) := by
  by_cases h : c
  · rw [if_pos h, if_pos (hc.mpr h)]
    exact ha
  · rw [if_neg h, if_neg (fun h' => h (hc.mp h'))]
    exact hb

theorem shift_pure {α : Type} {k : Nat} (a : α) {p p' : Nat} (h : p' = p + k) :
    (pure (a, p') : Result (α × Nat)) = shiftResult k (pure (a, p)) := by
  subst h
  rfl

theorem getElem?_append_shift (pre tokens : List Token) {pos pos' : Nat}
    (h : pos' = pos + pre.length) : (pre ++ tokens)[pos']? = tokens[pos]? := by
  subst h
  rw [Nat.add_comm, getElem?_append_add]

theorem tokenAt_shift (pre tokens : List Token) {pos pos' : Nat}
    (h : pos' = pos + pre.length) :
    tokenAt (pre ++ tokens) pos' = shiftValue pre.length (tokenAt tokens pos) := by
  unfold tokenAt
  rw [getElem?_append_shift pre tokens h]
  subst h
  cases tokens[pos]? <;> rfl

theorem expectSymbol_shift (pre tokens : List Token) (symbol : String) {pos pos' : Nat}
    (h : pos' = pos + pre.length) :
    expectSymbol (pre ++ tokens) pos' symbol =
      shiftCursor pre.length (expectSymbol tokens pos symbol) := by
  unfold expectSymbol tokenAt
  rw [getElem?_append_shift pre tokens h]
  subst h
  cases tokens[pos]? with
  | none => rfl
  | some t =>
    simp only [ok_bind]
    split
    · show Except.ok _ = Except.ok _
      congr 1
      omega
    · rfl

theorem stoi_cases (text : String) :
    (∃ value, stoi text = .ok value) ∨ stoi text = .error .StoiInvalidArgument ∨
      stoi text = .error .StoiOutOfRange := by
  unfold stoi
  dsimp only
  split_ifs <;> simp

theorem stoi_shift (k : Nat) (text : String) : stoi text = shiftValue k (stoi text) := by
  rcases stoi_cases text with ⟨value, h⟩ | h | h <;> rw [h] <;> rfl

theorem parseParameters_shift (pre tokens : List Token) (fuel : Nat) :
    ∀ (pos pos' : Nat) (parameters : List String), pos' = pos + pre.length →
      parseParameters fuel (pre ++ tokens) pos' parameters =
        shiftResult pre.length (parseParameters fuel tokens pos parameters) := by
  induction fuel with
  | zero => intro pos pos' parameters _; rfl
  | succ n ih =>
    intro pos pos' parameters hp
    rw [parseParameters, parseParameters]
    refine shift_bind_value (tokenAt_shift pre tokens hp)
      (fun t => shift_ite Iff.rfl ?_ (shift_pure _ hp))
    refine shift_bind_value (tokenAt_shift pre tokens (by omega)) (fun next => ?_)
    exact shift_ite Iff.rfl (ih _ _ _ (by omega)) (ih _ _ _ (by omega))

/-- Every rule of the parser gives behind a longer prefix what it gives
without it: the same node or error, the cursor and the index of an
out-of-range read moved by the length of the prefix. -/
theorem parser_shift (pre tokens : List Token) (fuel : Nat) :
    (∀ pos pos', pos' = pos + pre.length → parseStatement fuel (pre ++ tokens) pos' =
      shiftResult pre.length (parseStatement fuel tokens pos)) ∧
    (∀ pos pos', pos' = pos + pre.length → parseExpression fuel (pre ++ tokens) pos' =
      shiftResult pre.length (parseExpression fuel tokens pos)) ∧
    (∀ pos pos', pos' = pos + pre.length → parsePrimary fuel (pre ++ tokens) pos' =
      shiftResult pre.length (parsePrimary fuel tokens pos)) ∧
    (∀ pos pos', pos' = pos + pre.length → parseAssignment fuel (pre ++ tokens) pos' =
      shiftResult pre.length (parseAssignment fuel tokens pos)) ∧
    (∀ pos pos' left, pos' = pos + pre.length → parseBinaryOp fuel (pre ++ tokens) pos' left =
      shiftResult pre.length (parseBinaryOp fuel tokens pos left)) ∧
    (∀ pos pos', pos' = pos + pre.length → parseFunction fuel (pre ++ tokens) pos' =
      shiftResult pre.length (parseFunction fuel tokens pos)) ∧
    (∀ pos pos' body, pos' = pos + pre.length → parseBody fuel (pre ++ tokens) pos' body =
      shiftResult pre.length (parseBody fuel tokens pos body)) ∧
    (∀ pos pos' name, pos' = pos + pre.length →
      parsseFuntionCall fuel (pre ++ tokens) pos' name =
        shiftResult pre.length (parsseFuntionCall fuel tokens pos name)) ∧
    (∀ pos pos' arguments, pos' = pos + pre.length →
      parseArguments fuel (pre ++ tokens) pos' arguments =
        shiftResult pre.length (parseArguments fuel tokens pos arguments)) := by
  induction fuel with
  | zero =>
    refine ⟨?_, ?_, ?_, ?_, ?_, ?_, ?_, ?_, ?_⟩ <;> intros <;> rfl
  | succ n ih =>
    obtain ⟨ihS, ihE, ihP, ihA, ihB, ihF, ihBody, ihC, ihArgs⟩ := ih
    refine ⟨?_, ?_, ?_, ?_, ?_, ?_, ?_, ?_, ?_⟩
    · intro pos pos' hp
      rw [parseStatement, parseStatement]
      refine shift_bind_value (tokenAt_shift pre tokens hp)
        (fun t => shift_ite Iff.rfl (ihF _ _ hp) ?_)
      refine shift_bind_result (ihE _ _ hp) (fun e p => ?_)
      exact shift_bind_cursor (expectSymbol_shift pre tokens ";" rfl)
        (fun q => shift_pure _ rfl)
    · intro pos pos' hp
      rw [parseExpression, parseExpression]
      exact shift_bind_result (ihP _ _ hp) (fun l p => ihB _ _ _ rfl)
    · intro pos pos' hp
      rw [parsePrimary, parsePrimary]
      refine shift_bind_value (tokenAt_shift pre tokens hp) (fun t => shift_ite Iff.rfl ?_ ?_)
      · refine shift_bind_value (tokenAt_shift pre tokens (by omega))
          (fun next => shift_ite Iff.rfl (ihC _ _ _ hp) ?_)
        refine shift_ite ?_ (ihA _ _ hp) (shift_pure _ (by omega))
        rw [List.length_append]
        constructor
        · rintro ⟨h1, h2⟩
          exact ⟨by omega, h2⟩
        · rintro ⟨h1, h2⟩
          exact ⟨by omega, h2⟩
      · refine shift_ite Iff.rfl ?_ (shift_ite Iff.rfl (shift_ite Iff.rfl ?_ (shift_pure _ hp))
          (shift_pure _ hp))
        · exact shift_bind_value (stoi_shift _ _) (fun v => shift_pure _ (by omega))
        · refine shift_bind_value (tokenAt_shift pre tokens (by omega)) (fun t => ?_)
          refine shift_bind_cursor (expectSymbol_shift pre tokens "=" (by omega)) (fun q => ?_)
          exact shift_bind_result (ihE _ _ rfl) (fun v p => shift_pure _ rfl)
    · intro pos pos' hp
      rw [parseAssignment, parseAssignment]
      refine shift_bind_value (tokenAt_shift pre tokens hp) (fun t => ?_)
      refine shift_bind_cursor (expectSymbol_shift pre tokens "=" (by omega)) (fun q => ?_)
      exact shift_bind_result (ihE _ _ rfl) (fun v p => shift_pure _ rfl)
    · intro pos pos' left hp
      rw [parseBinaryOp, parseBinaryOp, getElem?_append_shift pre tokens hp]
      cases tokens[pos]? with
      | none => exact shift_pure _ hp
      | some t =>
        dsimp only
        refine shift_ite Iff.rfl ?_ (shift_pure _ hp)
        exact shift_bind_result (ihP _ _ (by omega)) (fun r p => ihB _ _ _ rfl)
    · intro pos pos' hp
      rw [parseFunction, parseFunction]
      refine shift_bind_cursor (expectSymbol_shift pre tokens "def" hp) (fun q => ?_)
      refine shift_bind_value (tokenAt_shift pre tokens rfl) (fun t => ?_)
      refine shift_bind_cursor (expectSymbol_shift pre tokens "(" (by omega)) (fun q => ?_)
      refine shift_bind_result (parseParameters_shift pre tokens _ _ _ _ rfl) (fun ps p => ?_)
      refine shift_bind_cursor (expectSymbol_shift pre tokens ")" rfl) (fun q => ?_)
      refine shift_bind_cursor (expectSymbol_shift pre tokens "\x7b" rfl) (fun q => ?_)
      refine shift_bind_result (ihBody _ _ _ rfl) (fun b p => ?_)
      exact shift_bind_cursor (expectSymbol_shift pre tokens "\x7d" rfl)
        (fun q => shift_pure _ rfl)
    · intro pos pos' body hp
      rw [parseBody, parseBody]
      refine shift_bind_value (tokenAt_shift pre tokens hp)
        (fun t => shift_ite Iff.rfl ?_ (shift_pure _ hp))
      exact shift_bind_result (ihS _ _ hp) (fun s p => ihBody _ _ _ rfl)
    · intro pos pos' name hp
      rw [parsseFuntionCall, parsseFuntionCall]
      refine shift_bind_cursor (expectSymbol_shift pre tokens "(" (by omega)) (fun q => ?_)
      refine shift_bind_result (ihArgs _ _ _ rfl) (fun a p => ?_)
      exact shift_bind_cursor (expectSymbol_shift pre tokens ")" rfl)
        (fun q => shift_pure _ rfl)
    · intro pos pos' arguments hp
      rw [parseArguments, parseArguments]
      refine shift_bind_value (tokenAt_shift pre tokens hp)
        (fun t => shift_ite Iff.rfl ?_ (shift_pure _ hp))
      refine shift_bind_result (ihE _ _ hp) (fun a p => ?_)
      refine shift_bind_value (tokenAt_shift pre tokens rfl) (fun t => ?_)
      exact shift_ite Iff.rfl (ihArgs _ _ _ (by omega)) (ihArgs _ _ _ rfl)

/-! ## A typed declaration is parsed as the bare assignment -/

/-- Where the loop of `parseBinaryOp` returns, no operator stands at the
cursor. -/
theorem parseBinaryOp_stops (fuel : Nat) :
    ∀ (tokens : List Token) (pos : Nat) (left : ASTNode) (r : ASTNode × Nat),
      parseBinaryOp fuel tokens pos left = .ok r → ∀ t, tokens[r.2]? = some t →
        ¬ (t.value = "+" ∨ t.value = "-" ∨ t.value = "*" ∨ t.value = "/" ∨
          t.value = "<<" ∨ t.value = ">>") := by
  induction fuel with
  | zero => intro tokens pos left r h; cases h
  | succ n ih =>
    intro tokens pos left r h t ht
    rw [parseBinaryOp] at h
    cases htok : tokens[pos]? with
    | none =>
      rw [htok] at h
      cases h
      rw [htok] at ht
      cases ht
    | some t₀ =>
      rw [htok] at h
      dsimp only at h
      split at h
      · obtain ⟨a, _, h⟩ := bind_eq_ok h
        exact ih tokens a.2 _ r h t ht
      · cases h
        rw [htok] at ht
        cases ht
        assumption

theorem parseExpression_stops (fuel : Nat) (tokens : List Token) (pos : Nat)
    (r : ASTNode × Nat) (h : parseExpression fuel tokens pos = .ok r) :
    ∀ t, tokens[r.2]? = some t →
      ¬ (t.value = "+" ∨ t.value = "-" ∨ t.value = "*" ∨ t.value = "/" ∨
        t.value = "<<" ∨ t.value = ">>") := by
  cases fuel with
  | zero => cases h
  | succ n =>
    rw [parseExpression] at h
    obtain ⟨a, _, h⟩ := bind_eq_ok h
    exact parseBinaryOp_stops n tokens a.2 a.1 r h

theorem parseBinaryOp_at_stop (fuel : Nat) (tokens : List Token) (pos : Nat) (left : ASTNode)
    (h : ∀ t, tokens[pos]? = some t →
      ¬ (t.value = "+" ∨ t.value = "-" ∨ t.value = "*" ∨ t.value = "/" ∨
        t.value = "<<" ∨ t.value = ">>")) :
    parseBinaryOp (fuel + 1) tokens pos left = .ok (left, pos) := by
  rw [parseBinaryOp]
  cases htok : tokens[pos]? with
  | none => rfl
  | some t =>
    dsimp only
    rw [if_neg (h t htok)]
    rfl

/-- C14: for every identifier name `x` and all tokens `rest`, the expression
`int x = rest` is parsed as the expression `x = rest` is: with the fuel of the
one call level that the bare form has more, the two runs give the same node or
the same error, the cursor (and the index of an out-of-range read) being one
token further behind `int`. When they succeed the node is the same assignment
to `x`, without any trace of the type, and the same tokens of `rest` are
consumed. -/
theorem parseExpression_declaration_as_assignment (x : String) (rest : List Token)
    (fuel : Nat) :
    parseExpression (fuel + 2)
        (⟨.KEYWORD, "int"⟩ :: ⟨.IDENTIFIER, x⟩ :: ⟨.SYMBOL, "="⟩ :: rest) 0 =
      shiftResult 1
        (parseExpression (fuel + 3) (⟨.IDENTIFIER, x⟩ :: ⟨.SYMBOL, "="⟩ :: rest) 0) ∧
    (∀ node stop,
      parseExpression (fuel + 3) (⟨.IDENTIFIER, x⟩ :: ⟨.SYMBOL, "="⟩ :: rest) 0 =
        .ok (node, stop) →
      parseExpression (fuel + 2)
        (⟨.KEYWORD, "int"⟩ :: ⟨.IDENTIFIER, x⟩ :: ⟨.SYMBOL, "="⟩ :: rest) 0 =
        .ok (node, stop + 1) ∧ ∃ value, node = .Assignment x value) ∧
    (∀ e,
      parseExpression (fuel + 3) (⟨.IDENTIFIER, x⟩ :: ⟨.SYMBOL, "="⟩ :: rest) 0 = .error e →
      parseExpression (fuel + 2)
        (⟨.KEYWORD, "int"⟩ :: ⟨.IDENTIFIER, x⟩ :: ⟨.SYMBOL, "="⟩ :: rest) 0 =
        .error (shiftError 1 e)) := by
  have hinner : parseExpression fuel
      ([⟨.KEYWORD, "int"⟩] ++ (⟨.IDENTIFIER, x⟩ :: ⟨.SYMBOL, "="⟩ :: rest)) (0 + 1 + 1 + 1) =
      shiftResult 1 (parseExpression fuel (⟨.IDENTIFIER, x⟩ :: ⟨.SYMBOL, "="⟩ :: rest)
        (0 + 1 + 1)) :=
    (parser_shift [⟨.KEYWORD, "int"⟩] (⟨.IDENTIFIER, x⟩ :: ⟨.SYMBOL, "="⟩ :: rest) fuel).2.1
      _ _ rfl
  have hbare : parsePrimary (fuel + 2) (⟨.IDENTIFIER, x⟩ :: ⟨.SYMBOL, "="⟩ :: rest) 0 =
      (parseExpression fuel (⟨.IDENTIFIER, x⟩ :: ⟨.SYMBOL, "="⟩ :: rest) (0 + 1 + 1) >>=
        fun r => .ok (.Assignment x r.1, r.2)) := by
    have h0 : (⟨.IDENTIFIER, x⟩ :: ⟨.SYMBOL, "="⟩ :: rest)[0]? = some ⟨.IDENTIFIER, x⟩ := by
      simp
    have h1 : (⟨.IDENTIFIER, x⟩ :: ⟨.SYMBOL, "="⟩ :: rest)[0 + 1]? = some ⟨.SYMBOL, "="⟩ := by
      simp
    rw [parsePrimary_at_assignment (⟨.IDENTIFIER, x⟩ :: ⟨.SYMBOL, "="⟩ :: rest) 0
      ⟨.IDENTIFIER, x⟩ ⟨.SYMBOL, "="⟩ (fuel + 1) h0 rfl h1 rfl,
      parseAssignment, tokenAt_of_getElem? h0, ok_bind]
    simp only [expectSymbol_of_getElem? h1 "=" rfl, ok_bind]
    rfl
  have hint : parsePrimary (fuel + 1)
      (⟨.KEYWORD, "int"⟩ :: ⟨.IDENTIFIER, x⟩ :: ⟨.SYMBOL, "="⟩ :: rest) 0 =
      (parseExpression fuel
          ([⟨.KEYWORD, "int"⟩] ++ (⟨.IDENTIFIER, x⟩ :: ⟨.SYMBOL, "="⟩ :: rest))
          (0 + 1 + 1 + 1) >>=
        fun r => .ok (.Assignment x r.1, r.2)) := by
    have h0 : (⟨.KEYWORD, "int"⟩ :: ⟨.IDENTIFIER, x⟩ :: ⟨.SYMBOL, "="⟩ :: rest)[0]? =
        some ⟨.KEYWORD, "int"⟩ := by simp
    have h1 : (⟨.KEYWORD, "int"⟩ :: ⟨.IDENTIFIER, x⟩ :: ⟨.SYMBOL, "="⟩ :: rest)[0 + 1]? =
        some ⟨.IDENTIFIER, x⟩ := by simp
    have h2 : (⟨.KEYWORD, "int"⟩ :: ⟨.IDENTIFIER, x⟩ :: ⟨.SYMBOL, "="⟩ :: rest)[0 + 1 + 1]? =
        some ⟨.SYMBOL, "="⟩ := by simp
    rw [parsePrimary, tokenAt_of_getElem? h0, ok_bind]
    simp only [if_true, tokenAt_of_getElem? h1, ok_bind, expectSymbol_of_getElem? h2 "=" rfl]
    rfl
  have hmain : parseExpression (fuel + 2)
        (⟨.KEYWORD, "int"⟩ :: ⟨.IDENTIFIER, x⟩ :: ⟨.SYMBOL, "="⟩ :: rest) 0 =
      shiftResult 1
        (parseExpression (fuel + 3) (⟨.IDENTIFIER, x⟩ :: ⟨.SYMBOL, "="⟩ :: rest) 0) ∧
      ∀ node stop,
        parseExpression (fuel + 3) (⟨.IDENTIFIER, x⟩ :: ⟨.SYMBOL, "="⟩ :: rest) 0 =
          .ok (node, stop) → ∃ value, node = .Assignment x value := by
    rw [parseExpression, parseExpression, hbare, hint, hinner]
    cases hv : parseExpression fuel (⟨.IDENTIFIER, x⟩ :: ⟨.SYMBOL, "="⟩ :: rest) (0 + 1 + 1) with
    | error e => exact ⟨rfl, fun node stop h => nomatch h⟩
    | ok r =>
      obtain ⟨value, p⟩ := r
      have hstop := parseExpression_stops fuel _ _ _ hv
      have h1 : parseBinaryOp (fuel + 1 + 1) (⟨.IDENTIFIER, x⟩ :: ⟨.SYMBOL, "="⟩ :: rest) p
          (.Assignment x value) = .ok (.Assignment x value, p) :=
        parseBinaryOp_at_stop _ _ _ _ hstop
      have h2 : parseBinaryOp (fuel + 1)
          (⟨.KEYWORD, "int"⟩ :: ⟨.IDENTIFIER, x⟩ :: ⟨.SYMBOL, "="⟩ :: rest) (p + 1)
          (.Assignment x value) = .ok (.Assignment x value, p + 1) :=
        parseBinaryOp_at_stop _ _ _ _ (fun t ht => hstop t (by simpa using ht))
      refine ⟨?_, ?_⟩
      · show parseBinaryOp (fuel + 1) _ (p + 1) (.Assignment x value) =
          shiftResult 1 (parseBinaryOp (fuel + 1 + 1) _ p (.Assignment x value))
        rw [h1, h2]
        rfl
      · intro node stop h
        have h' : parseBinaryOp (fuel + 1 + 1) (⟨.IDENTIFIER, x⟩ :: ⟨.SYMBOL, "="⟩ :: rest) p
            (.Assignment x value) = .ok (node, stop) := h
        rw [h1] at h'
        cases h'
        exact ⟨value, rfl⟩
  refine ⟨hmain.1, fun node stop h => ⟨?_, hmain.2 node stop h⟩, fun e h => ?_⟩
  · rw [hmain.1, h]
    rfl
  · rw [hmain.1, h]
    rfl

/-- The statement at the declaration `int x = 10 + 20 ;` and the assignment
`x = 10 + 20 ;`. -/
theorem parseExpression_declaration_as_assignment_witness :
    parseExpression 6 [⟨.KEYWORD, "int"⟩, ⟨.IDENTIFIER, "x"⟩, ⟨.SYMBOL, "="⟩, ⟨.NUMBER, "10"⟩,
        ⟨.SYMBOL, "+"⟩, ⟨.NUMBER, "20"⟩, ⟨.SYMBOL, ";"⟩, ⟨.END_OF_FILE, ""⟩] 0 =
      .ok (.Assignment "x" (.BinaryOp "+" (.Number 10) (.Number 20)), 5 + 1) :=
  ((parseExpression_declaration_as_assignment "x" [⟨.NUMBER, "10"⟩,
      ⟨.SYMBOL, "+"⟩, ⟨.NUMBER, "20"⟩, ⟨.SYMBOL, ";"⟩, ⟨.END_OF_FILE, ""⟩] 4).2.1
    (.Assignment "x" (.BinaryOp "+" (.Number 10) (.Number 20))) 5 rfl).1

/-! ## Operator chains nest through the left child only -/

theorem allRightsArePrimary_append (nodes : List ASTNode) (node : ASTNode) :
    allRightsArePrimary (nodes ++ [node]) =
      (allRightsArePrimary nodes && rightsArePrimary node) := by
  induction nodes with
  | nil => simp [allRightsArePrimary]
  | cons n ns ih => simp [allRightsArePrimary, ih, Bool.and_assoc]

/-- Every rule of the parser returns trees in which the right child of a
binary operation is a node of `parsePrimary`; the loops keep the property of
the nodes they have collected, and `parseBinaryOp` that of its left operand. -/
theorem parser_rightsArePrimary (fuel : Nat) :
    (∀ tokens pos r, parseStatement fuel tokens pos = .ok r → rightsArePrimary r.1 = true) ∧
    (∀ tokens pos r, parseExpression fuel tokens pos = .ok r → rightsArePrimary r.1 = true) ∧
    (∀ tokens pos r, parsePrimary fuel tokens pos = .ok r →
      rightsArePrimary r.1 = true ∧ isPrimaryResult r.1 = true) ∧
    (∀ tokens pos r, parseAssignment fuel tokens pos = .ok r →
      rightsArePrimary r.1 = true ∧ isPrimaryResult r.1 = true) ∧
    (∀ tokens pos left r, parseBinaryOp fuel tokens pos left = .ok r →
      rightsArePrimary left = true → rightsArePrimary r.1 = true) ∧
    (∀ tokens pos r, parseFunction fuel tokens pos = .ok r → rightsArePrimary r.1 = true) ∧
    (∀ tokens pos body r, parseBody fuel tokens pos body = .ok r →
      allRightsArePrimary body = true → allRightsArePrimary r.1 = true) ∧
    (∀ tokens pos name r, parsseFuntionCall fuel tokens pos name = .ok r →
      rightsArePrimary r.1 = true ∧ isPrimaryResult r.1 = true) ∧
    (∀ tokens pos arguments r, parseArguments fuel tokens pos arguments = .ok r →
      allRightsArePrimary arguments = true → allRightsArePrimary r.1 = true) := by
  induction fuel with
  | zero =>
    refine ⟨?_, ?_, ?_, ?_, ?_, ?_, ?_, ?_, ?_⟩ <;> intros <;> contradiction
  | succ n ih =>
    obtain ⟨ihS, ihE, ihP, ihA, ihB, ihF, ihBody, ihC, ihArgs⟩ := ih
    refine ⟨?_, ?_, ?_, ?_, ?_, ?_, ?_, ?_, ?_⟩
    · intro tokens pos r h
      rw [parseStatement] at h
      obtain ⟨t, _, h⟩ := bind_eq_ok h
      split at h
      · exact ihF _ _ _ h
      · obtain ⟨e, he, h⟩ := bind_eq_ok h
        obtain ⟨q, _, h⟩ := bind_eq_ok h
        cases h
        exact ihE _ _ e he
    · intro tokens pos r h
      rw [parseExpression] at h
      obtain ⟨l, hl, h⟩ := bind_eq_ok h
      exact ihB _ _ _ _ h (ihP _ _ _ hl).1
    · intro tokens pos r h
      rw [parsePrimary] at h
      obtain ⟨t, _, h⟩ := bind_eq_ok h
      split at h
      · obtain ⟨next, _, h⟩ := bind_eq_ok h
        split at h
        · exact ihC _ _ _ _ h
        · split at h
          · exact ihA _ _ _ h
          · cases h
            exact ⟨rfl, rfl⟩
      · split at h
        · obtain ⟨v, _, h⟩ := bind_eq_ok h
          cases h
          exact ⟨rfl, rfl⟩
        · split at h
          · split at h
            · obtain ⟨t', _, h⟩ := bind_eq_ok h
              obtain ⟨q, _, h⟩ := bind_eq_ok h
              obtain ⟨e, he, h⟩ := bind_eq_ok h
              cases h
              exact ⟨ihE _ _ e he, rfl⟩
            · cases h
              exact ⟨rfl, rfl⟩
          · cases h
            exact ⟨rfl, rfl⟩
    · intro tokens pos r h
      rw [parseAssignment] at h
      obtain ⟨t, _, h⟩ := bind_eq_ok h
      obtain ⟨q, _, h⟩ := bind_eq_ok h
      obtain ⟨e, he, h⟩ := bind_eq_ok h
      cases h
      exact ⟨ihE _ _ e he, rfl⟩
    · intro tokens pos left r h hleft
      rw [parseBinaryOp] at h
      cases htok : tokens[pos]? with
      | none =>
        rw [htok] at h
        cases h
        exact hleft
      | some t =>
        rw [htok] at h
        dsimp only at h
        split at h
        · obtain ⟨right, hr, h⟩ := bind_eq_ok h
          have hright := ihP _ _ _ hr
          refine ihB _ _ _ _ h ?_
          simp [rightsArePrimary, hright.1, hright.2, hleft]
        · cases h
          exact hleft
    · intro tokens pos r h
      rw [parseFunction] at h
      obtain ⟨p1, _, h⟩ := bind_eq_ok h
      obtain ⟨t, _, h⟩ := bind_eq_ok h
      obtain ⟨p2, _, h⟩ := bind_eq_ok h
      obtain ⟨ps, _, h⟩ := bind_eq_ok h
      obtain ⟨p3, _, h⟩ := bind_eq_ok h
      obtain ⟨p4, _, h⟩ := bind_eq_ok h
      obtain ⟨b, hb, h⟩ := bind_eq_ok h
      obtain ⟨p5, _, h⟩ := bind_eq_ok h
      cases h
      exact ihBody _ _ _ _ hb rfl
    · intro tokens pos body r h hbody
      rw [parseBody] at h
      obtain ⟨t, _, h⟩ := bind_eq_ok h
      split at h
      · obtain ⟨s, hs, h⟩ := bind_eq_ok h
        refine ihBody _ _ _ _ h ?_
        rw [allRightsArePrimary_append, hbody, ihS _ _ _ hs]
        rfl
      · cases h
        exact hbody
    · intro tokens pos name r h
      rw [parsseFuntionCall] at h
      obtain ⟨p1, _, h⟩ := bind_eq_ok h
      obtain ⟨a, ha, h⟩ := bind_eq_ok h
      obtain ⟨p2, _, h⟩ := bind_eq_ok h
      cases h
      exact ⟨ihArgs _ _ _ _ ha rfl, rfl⟩
    · intro tokens pos arguments r h hargs
      rw [parseArguments] at h
      obtain ⟨t, _, h⟩ := bind_eq_ok h
      split at h
      · obtain ⟨a, ha, h⟩ := bind_eq_ok h
        obtain ⟨t', _, h⟩ := bind_eq_ok h
        have hacc : allRightsArePrimary (arguments ++ [a.1]) = true := by
          rw [allRightsArePrimary_append, hargs, ihE _ _ _ ha]
          rfl
        split at h
        · exact ihArgs _ _ _ _ h hacc
        · exact ihArgs _ _ _ _ h hacc
      · cases h
        exact hargs

theorem parseStatementsLoop_rightsArePrimary (fuel : Nat) :
    ∀ (tokens : List Token) (pos : Nat) (block : List ASTNode) (r : List ASTNode × Nat),
      parseStatementsLoop fuel tokens pos block = .ok r →
      allRightsArePrimary block = true → allRightsArePrimary r.1 = true := by
  induction fuel with
  | zero => intro tokens pos block r h; cases h
  | succ n ih =>
    intro tokens pos block r h hblock
    rw [parseStatementsLoop] at h
    cases htok : tokens[pos]? with
    | none =>
      rw [htok] at h
      cases h
      exact hblock
    | some t =>
      rw [htok] at h
      dsimp only at h
      split at h
      · obtain ⟨s, hs, h⟩ := bind_eq_ok h
        refine ih _ _ _ _ h ?_
        rw [allRightsArePrimary_append, hblock, (parser_rightsArePrimary n).1 _ _ _ hs]
        rfl
      · cases h
        exact hblock

/-- C20: in every tree that `parseStatements` returns, and in every tree that
`parseExpression` returns, the right child of every binary operation is a node
of a single `parsePrimary` (a number, an identifier, a call, an assignment or
the null node) and so never a binary operation itself: chains of operators nest
through the left child only. An assignment as a right operand takes the rest of
the expression: `a + x = b + c ;` is parsed to the sum of `a` and the
assignment of `b + c` to `x`. -/
theorem parseStatements_rightsArePrimary (fuel : Nat) (tokens : List Token) (tree : ASTNode)
    (h : parseStatements fuel tokens = .ok tree) :
    rightsArePrimary tree = true ∧
    (∀ pos r, parseExpression fuel tokens pos = .ok r → rightsArePrimary r.1 = true) ∧
    (∀ op left right, isPrimaryResult (.BinaryOp op left right) = false) ∧
    tokenize "a + x = b + c ;" = some [⟨.IDENTIFIER, "a"⟩, ⟨.SYMBOL, "+"⟩, ⟨.IDENTIFIER, "x"⟩,
      ⟨.SYMBOL, "="⟩, ⟨.IDENTIFIER, "b"⟩, ⟨.SYMBOL, "+"⟩, ⟨.IDENTIFIER, "c"⟩, ⟨.SYMBOL, ";"⟩,
      ⟨.END_OF_FILE, ""⟩] ∧
    ∀ n, parseStatements (n + 9) [⟨.IDENTIFIER, "a"⟩, ⟨.SYMBOL, "+"⟩, ⟨.IDENTIFIER, "x"⟩,
      ⟨.SYMBOL, "="⟩, ⟨.IDENTIFIER, "b"⟩, ⟨.SYMBOL, "+"⟩, ⟨.IDENTIFIER, "c"⟩, ⟨.SYMBOL, ";"⟩,
      ⟨.END_OF_FILE, ""⟩] =
        .ok (.Block [.BinaryOp "+" (.Identifier "a")
          (.Assignment "x" (.BinaryOp "+" (.Identifier "b") (.Identifier "c")))]) := by
  refine ⟨?_, fun pos r hr => (parser_rightsArePrimary fuel).2.1 tokens pos r hr,
    fun _ _ _ => rfl, by decide, fun _ => rfl⟩
  unfold parseStatements at h
  obtain ⟨b, hb, h⟩ := bind_eq_ok h
  cases h
  exact parseStatementsLoop_rightsArePrimary fuel tokens 0 [] b hb rfl

/-- The statement at the tokens of `a + b - c ;`: the right child of the outer
operation is the identifier `c`, the inner operation is its left child. -/
theorem parseStatements_rightsArePrimary_witness :
    rightsArePrimary (.Block [.BinaryOp "-" (.BinaryOp "+" (.Identifier "a") (.Identifier "b"))
      (.Identifier "c")]) = true :=
  (parseStatements_rightsArePrimary 9 [⟨.IDENTIFIER, "a"⟩, ⟨.SYMBOL, "+"⟩, ⟨.IDENTIFIER, "b"⟩,
      ⟨.SYMBOL, "-"⟩, ⟨.IDENTIFIER, "c"⟩, ⟨.SYMBOL, ";"⟩, ⟨.END_OF_FILE, ""⟩]
    (.Block [.BinaryOp "-" (.BinaryOp "+" (.Identifier "a") (.Identifier "b"))
      (.Identifier "c")]) rfl).1

end Prolang
